import Mathlib

/-!
# UsbTvDriver: frame assembly, frame pool and streaming control

A shallow embedding of `libusbtv/src/main/cpp/UsbTvDriver.cpp`.

* Pointers into the frame pool (`_usbInputFrame`, `_processFrame`) are pool indices;
  `none` is `nullptr`.
* Unsigned machine integers are natural numbers reduced modulo `2^w` where the source
  computes in a fixed width (`uint8_t` index, `uint16_t` packet counters, `uint32_t` offsets).
* A step that dereferences `nullptr`, indexes outside an allocation, or copies outside a
  buffer yields an error; the busy-wait of `fetchFrameFromPool` is bounded by a step budget
  and yields `Err.noFuel` when the budget is used up.
* `_droppedFrameCounter`, `_incompleteFrameCounter` and `_currentFrameId` are declared in
  the header, which is not among the sources; they are unbounded naturals here.
* The consumer thread and the transport run outside these definitions: calls on the
  transport contribute only their results, and `pthread_cond_signal` appears as an `Event`.
* The source is embedded as built without `DEBUG_ON`.
-/

namespace UsbTv

/-! ## Data model -/

/-- The compile-time constants and register tables that the source takes from
`UsbTvDriver.h`, which is not among the sources. They are parameters of every definition. -/
structure Consts where
  USBTV_PAYLOAD_SIZE : Nat
  USBTV_PACKET_SIZE : Nat
  USBTV_FRAME_POOL_SIZE : Nat
  FRAME_START : Nat
  FRAME_IN_PROGRESS : Nat
  FRAME_PARTIAL : Nat
  FRAME_COMPLETE : Nat
  VIDEO_INIT : List (Nat × Nat)
  NTSC_TV_NORM : List (Nat × Nat)
  PAL_TV_NORM : List (Nat × Nat)
  COMPOSITE_INPUT : List (Nat × Nat)
  SVIDEO_INPUT : List (Nat × Nat)

/-- The four frame flags are pairwise disjoint, non-zero bit values. -/
def Consts.flagsDisjoint (c : Consts) : Prop :=
  0 < c.FRAME_START ∧ 0 < c.FRAME_IN_PROGRESS ∧ 0 < c.FRAME_PARTIAL ∧ 0 < c.FRAME_COMPLETE ∧
  c.FRAME_START &&& c.FRAME_IN_PROGRESS = 0 ∧ c.FRAME_START &&& c.FRAME_PARTIAL = 0 ∧
  c.FRAME_START &&& c.FRAME_COMPLETE = 0 ∧ c.FRAME_IN_PROGRESS &&& c.FRAME_PARTIAL = 0 ∧
  c.FRAME_IN_PROGRESS &&& c.FRAME_COMPLETE = 0 ∧ c.FRAME_PARTIAL &&& c.FRAME_COMPLETE = 0

instance (c : Consts) : Decidable c.flagsDisjoint := by
  unfold Consts.flagsDisjoint; infer_instance

/-- Ways in which a step of the embedded program fails to produce a state. -/
inductive Err where
  | nullDeref
  | outOfBounds
  | noFuel
  deriving DecidableEq

/-- A capture buffer of the pool (`UsbTvFrame`), with the members the source uses;
`buffer` is the allocation behind the `buffer` pointer and `lock` is the `atomic_flag`. -/
structure UsbTvFrame where
  buffer : List Nat
  bufferSize : Nat
  width : Nat
  height : Nat
  flags : Nat
  frameId : Nat
  lock : Bool
  deriving DecidableEq

inductive TvNorm where
  | NTSC
  | PAL
  deriving DecidableEq

inductive TvInput where
  | USBTV_COMPOSITE_INPUT
  | USBTV_SVIDEO_INPUT
  deriving DecidableEq

inductive ScanType where
  | PROGRESSIVE
  | DISCARD
  | INTERLEAVED
  deriving DecidableEq

/-- The fields of `UsbTvDriver` that the embedded member functions read or write. -/
structure UsbTvDriver where
  _initalized : Bool
  _streamActive : Bool
  _framePool : Option (List UsbTvFrame)
  _tvNorm : TvNorm
  _frameWidth : Nat
  _frameHeight : Nat
  _input : TvInput
  _scanType : ScanType
  _currentFrameId : Nat
  _secondFrame : Bool
  _packetsDone : Nat
  _packetsPerField : Nat
  _usbInputFrame : Option Nat
  _processFrame : Option Nat
  _processThreadRunning : Bool
  _frameWait : Bool
  _droppedFrameCounter : Nat
  _incompleteFrameCounter : Nat
  deriving DecidableEq

/-- A packet as `processPacket` sees it. The macros `USBTV_FRAME_OK`, `USBTV_FRAME_ID`,
`USBTV_PACKET_NO` and `USBTV_ODD` are defined in the absent header, so a packet is given by
the values they decode (`frameId` and `packetNumber` are `uint32_t`) and by the bytes that
follow the 4-byte header. -/
structure Packet where
  frameOk : Bool
  frameId : Nat
  packetNumber : Nat
  isOdd : Bool
  payload : List Nat
  deriving DecidableEq

/-- What the packet-arrival context makes visible to the consumer in `notifyFrameComplete`:
either `pthread_cond_signal` with `_processFrame` pointing at `slot` (with the frame as it is
at that moment), or a frame dropped because nobody was polling. -/
inductive Event where
  | frameReady (slot : Nat) (frame : UsbTvFrame)
  | frameDropped (frameId : Nat)
  deriving DecidableEq

/-- Outcomes of the calls made on the transport collaborator (`AndroidUsbDevice`) and of
`pthread_create`; `controlTransfer` is given the register value and index. -/
structure Transport where
  setInterface : Nat → Nat → Bool
  controlTransfer : Nat → Nat → Bool
  pthread_create : Bool
  initIsoTransfers : Bool
  startIsoAsyncRead : Bool
  isIsoThreadRunning : Bool

/-! ## Memory access -/

/-- Read through a frame pointer. -/
def derefFrame (d : UsbTvDriver) (ptr : Option Nat) : Except Err UsbTvFrame :=
  match ptr with
  | none => .error .nullDeref
  | some i =>
    match d._framePool with
    | none => .error .outOfBounds
    | some pool =>
      match pool[i]? with
      | none => .error .outOfBounds
      | some fr => .ok fr

/-- Write through a frame pointer. -/
def storeFrame (d : UsbTvDriver) (ptr : Option Nat) (fr : UsbTvFrame) :
    Except Err UsbTvDriver :=
  match ptr with
  | none => .error .nullDeref
  | some i =>
    match d._framePool with
    | none => .error .outOfBounds
    | some pool =>
      if i < pool.length then .ok { d with _framePool := some (pool.set i fr) }
      else .error .outOfBounds

/-- The bytes of `dst` with `n` bytes from `src` at `srcOff` copied over those at `off`. -/
def blit (dst : List Nat) (off : Nat) (src : List Nat) (srcOff n : Nat) : List Nat :=
  dst.take off ++ (src.drop srcOff).take n ++ dst.drop (off + n)

/-- The call `memcpy(dst + off, src + srcOff, n)` on byte sequences: defined when both
ranges lie inside their allocations. -/
def memcpy (dst : List Nat) (off : Nat) (src : List Nat) (srcOff n : Nat) :
    Except Err (List Nat) :=
  if off + n ≤ dst.length ∧ srcOff + n ≤ src.length then .ok (blit dst off src srcOff n)
  else .error .outOfBounds

/-! ## Frame pool -/

/-- The member `atomic_flag::test_and_set`: returns the old value and the locked frame. -/
def test_and_set (fr : UsbTvFrame) : Bool × UsbTvFrame :=
  (fr.lock, { fr with lock := true })

/-- The `while(true)` loop of `fetchFrameFromPool`, run for at most `fuel` iterations
starting at `index`. -/
def fetchLoop (c : Consts) : Nat → Nat → List UsbTvFrame → Except Err (Nat × List UsbTvFrame)
  | 0, _, _ => .error .noFuel
  | fuel + 1, index, pool =>
    match pool[index]? with
    | none => .error .outOfBounds
    | some frame =>
      let r := test_and_set frame
      if !r.1 then
        .ok (index, pool.set index { r.2 with flags := c.FRAME_START })
      else
        let index1 := (index + 1) % 256
        let index2 := if index1 ≥ c.USBTV_FRAME_POOL_SIZE then 0 else index1
        fetchLoop c fuel index2 (pool.set index r.2)

/-- Source `UsbTvDriver::fetchFrameFromPool`: returns the pointer found and the new state. -/
def fetchFrameFromPool (c : Consts) (fuel : Nat) (d : UsbTvDriver) :
    Except Err (Nat × UsbTvDriver) :=
  match d._framePool with
  | none => .error .nullDeref
  | some pool => do
    let r ← fetchLoop c fuel 0 pool
    pure (r.1, { d with _framePool := some r.2 })

/-- Source `UsbTvDriver::allocateFramePool`. The arithmetic is unsigned 32-bit
(`bufferheight` is a `uint32_t`); `malloc` leaves the contents indeterminate, here zero,
and `frameId` is unset, here zero. -/
def allocateFramePool (c : Consts) (d : UsbTvDriver) : UsbTvDriver :=
  match d._framePool with
  | some _ => d
  | none =>
    let bufferheight :=
      (if d._scanType = ScanType.INTERLEAVED then d._frameHeight else d._frameHeight / 2) % 2 ^ 32
    let buffersize := (d._frameWidth * bufferheight * 2) % 2 ^ 32
    let frame : UsbTvFrame :=
      { buffer := List.replicate buffersize 0, bufferSize := buffersize % 2 ^ 32,
        width := d._frameWidth, height := bufferheight % 2 ^ 16, flags := 0, frameId := 0,
        lock := false }
    { d with _framePool := some (List.replicate c.USBTV_FRAME_POOL_SIZE frame) }

/-- Source `UsbTvDriver::freeFramePool`: the loop visits the slots
`0 .. USBTV_FRAME_POOL_SIZE - 1` of the array before the array is deleted. -/
def freeFramePool (c : Consts) (d : UsbTvDriver) : Except Err UsbTvDriver :=
  match d._framePool with
  | none => pure d
  | some pool =>
    if !d._streamActive then
      if c.USBTV_FRAME_POOL_SIZE ≤ pool.length then pure { d with _framePool := none }
      else .error .outOfBounds
    else pure d

/-! ## Packet reassembly -/

/-- Source `UsbTvDriver::packetToProgressiveFrame`. -/
def packetToProgressiveFrame (c : Consts) (d : UsbTvDriver) (packet : List Nat)
    (packetNo : Nat) : Except Err UsbTvDriver := do
  let fr ← derefFrame d d._usbInputFrame
  let bufOffset := (packetNo * c.USBTV_PAYLOAD_SIZE) % 2 ^ 32
  let buf ← memcpy fr.buffer bufOffset packet 0 c.USBTV_PAYLOAD_SIZE
  storeFrame d d._usbInputFrame { fr with buffer := buf }

/-- The value of `bufferOffset` in the loop body of `packetToInterleavedFrame`. -/
def interleavedOffset (c : Consts) (frameWidth packetNo packetHalf : Nat) (isOdd : Bool) :
    Nat :=
  let halfPayloadSize := (c.USBTV_PAYLOAD_SIZE / 2) % 2 ^ 32
  let oddFieldOffset := if isOdd then 0 else 1
  let lineSize := frameWidth * 2
  let partIndex := (packetNo * 2 + packetHalf) % 2 ^ 32
  let lineIndex := ((partIndex / 3) * 2 + oddFieldOffset) % 2 ^ 32
  (lineIndex * lineSize + halfPayloadSize * (partIndex % 3)) % 2 ^ 32

/-- One iteration of the `packetHalf` loop of `packetToInterleavedFrame`; the source
pointer has been advanced by `halfPayloadSize` once per earlier iteration. -/
def interleavedHalf (c : Consts) (packet : List Nat) (packetNo : Nat) (isOdd : Bool)
    (d : UsbTvDriver) (packetHalf : Nat) : Except Err UsbTvDriver := do
  let halfPayloadSize := (c.USBTV_PAYLOAD_SIZE / 2) % 2 ^ 32
  let fr ← derefFrame d d._usbInputFrame
  let buf ← memcpy fr.buffer (interleavedOffset c d._frameWidth packetNo packetHalf isOdd)
    packet (packetHalf * halfPayloadSize) halfPayloadSize
  storeFrame d d._usbInputFrame { fr with buffer := buf }

/-- Source `UsbTvDriver::packetToInterleavedFrame`: the loop runs for `packetHalf = 0, 1`. -/
def packetToInterleavedFrame (c : Consts) (d : UsbTvDriver) (packet : List Nat)
    (packetNo : Nat) (isOdd : Bool) : Except Err UsbTvDriver := do
  let d1 ← interleavedHalf c packet packetNo isOdd d 0
  interleavedHalf c packet packetNo isOdd d1 1

/-! ## Handoff and frame assembly -/

/-- Source `UsbTvDriver::notifyFrameComplete`. -/
def notifyFrameComplete (c : Consts) (fuel : Nat) (d : UsbTvDriver) :
    Except Err (UsbTvDriver × List Event) :=
  if d._frameWait then do
    let d1 := { d with _frameWait := false }
    let fr ← derefFrame d1 d1._usbInputFrame
    let d2 ← storeFrame d1 d1._usbInputFrame { fr with frameId := d1._currentFrameId }
    let d3 := { d2 with _processFrame := d2._usbInputFrame }
    let r ← fetchFrameFromPool c fuel d3
    let d4 := { r.2 with _usbInputFrame := some r.1 }
    let out ← derefFrame d4 d4._processFrame
    pure (d4, [Event.frameReady (d4._processFrame.getD 0) out])
  else do
    let d1 := { d with _droppedFrameCounter := d._droppedFrameCounter + 1 }
    let fr ← derefFrame d1 d1._usbInputFrame
    let d2 ← storeFrame d1 d1._usbInputFrame { fr with flags := c.FRAME_START }
    pure (d2, [Event.frameDropped d._currentFrameId])

/-- First statement of `UsbTvDriver::checkFinishedFrame` (lines 570-576): flag the
in-progress frame. -/
def markFinishedFrame (c : Consts) (d : UsbTvDriver) : Except Err UsbTvDriver :=
  if d._packetsDone ≠ d._packetsPerField then do
    let fr ← derefFrame d d._usbInputFrame
    let d1 ← storeFrame d d._usbInputFrame { fr with flags := c.FRAME_PARTIAL }
    pure { d1 with _incompleteFrameCounter := d1._incompleteFrameCounter + 1 }
  else do
    let fr ← derefFrame d d._usbInputFrame
    storeFrame d d._usbInputFrame { fr with flags := c.FRAME_COMPLETE }

/-- The `switch (_scanType)` of `UsbTvDriver::checkFinishedFrame` (lines 582-599). -/
def dispatchFinishedFrame (c : Consts) (fuel : Nat) (d : UsbTvDriver) (isOdd : Bool) :
    Except Err (UsbTvDriver × List Event) :=
  match d._scanType with
  | .PROGRESSIVE => notifyFrameComplete c fuel d
  | .DISCARD => if isOdd then notifyFrameComplete c fuel d else pure (d, [])
  | .INTERLEAVED =>
    if d._secondFrame then do
      let r ← notifyFrameComplete c fuel d
      pure ({ r.1 with _secondFrame := false }, r.2)
    else if isOdd then pure ({ d with _secondFrame := true }, [])
    else pure (d, [])

/-- Source `UsbTvDriver::checkFinishedFrame`. -/
def checkFinishedFrame (c : Consts) (fuel : Nat) (d : UsbTvDriver) (isOdd : Bool) :
    Except Err (UsbTvDriver × List Event) := do
  let d1 ← markFinishedFrame c d
  dispatchFinishedFrame c fuel d1 isOdd

/-- Lines 530-541 of `processPacket`: a packet with number 0 or a new frame id starts a
new frame. -/
def beginFrame (c : Consts) (d : UsbTvDriver) (p : Packet) : Except Err UsbTvDriver :=
  if p.packetNumber = 0 ∨ p.frameId ≠ d._currentFrameId then do
    let fr ← derefFrame d d._usbInputFrame
    let d1 := if (fr.flags &&& c.FRAME_IN_PROGRESS) > 0 then
        { d with _droppedFrameCounter := d._droppedFrameCounter + 1 } else d
    let d2 := { d1 with _currentFrameId := p.frameId, _packetsDone := 0 }
    storeFrame d2 d2._usbInputFrame { fr with flags := c.FRAME_IN_PROGRESS }
  else pure d

/-- Lines 543-555 of `processPacket`: copy the payload according to the scan type. -/
def writePacket (c : Consts) (d : UsbTvDriver) (p : Packet) : Except Err UsbTvDriver :=
  match d._scanType with
  | .PROGRESSIVE => packetToProgressiveFrame c d p.payload p.packetNumber
  | .DISCARD => if p.isOdd then packetToProgressiveFrame c d p.payload p.packetNumber else pure d
  | .INTERLEAVED => packetToInterleavedFrame c d p.payload p.packetNumber p.isOdd

/-- Lines 530-557 of `processPacket`: new-frame check, copy, and `_packetsDone++`
(a `uint16_t`). -/
def acceptPacket (c : Consts) (d : UsbTvDriver) (p : Packet) : Except Err UsbTvDriver := do
  let d1 ← beginFrame c d p
  let d2 ← writePacket c d1 p
  pure { d2 with _packetsDone := (d2._packetsDone + 1) % 2 ^ 16 }

/-- Source `UsbTvDriver::processPacket`. The last-packet test compares with
`(uint32_t)(_packetsPerField - 1)`. -/
def processPacket (c : Consts) (fuel : Nat) (d : UsbTvDriver) (p : Packet) :
    Except Err (UsbTvDriver × List Event) :=
  if p.frameOk then
    if p.packetNumber ≥ d._packetsPerField then pure (d, [])
    else do
      let d1 ← acceptPacket c d p
      if p.packetNumber = (d1._packetsPerField + 2 ^ 32 - 1) % 2 ^ 32 then
        checkFinishedFrame c fuel d1 p.isOdd
      else pure (d1, [])
  else pure (d, [])

/-! ## Streaming control -/

/-- Source `UsbTvDriver::setRegisters`: stops at the first failing control transfer. -/
def setRegisters (t : Transport) : List (Nat × Nat) → Bool
  | [] => true
  | (index, value) :: rest =>
    if !t.controlTransfer value index then false else setRegisters t rest

/-- The statements `ptr->lock.clear(); ptr = nullptr;` guarded by `ptr != nullptr`, for
`ptr = _processFrame`. -/
def releaseProcessFrame (d : UsbTvDriver) : Except Err UsbTvDriver :=
  match d._processFrame with
  | none => pure d
  | some i => do
    let fr ← derefFrame d (some i)
    let d1 ← storeFrame d (some i) { fr with lock := false }
    pure { d1 with _processFrame := none }

/-- The statements `ptr->lock.clear(); ptr = nullptr;` guarded by `ptr != nullptr`, for
`ptr = _usbInputFrame`. -/
def releaseInputFrame (d : UsbTvDriver) : Except Err UsbTvDriver :=
  match d._usbInputFrame with
  | none => pure d
  | some i => do
    let fr ← derefFrame d (some i)
    let d1 ← storeFrame d (some i) { fr with lock := false }
    pure { d1 with _usbInputFrame := none }

/-- Lines 204-218 of `stopStreaming`: stop the frame processor thread. If a consumer is
parked in `getFrame`, the lock of `_processFrame` is cleared and the pointer nulled before
the condition is signalled. The signal and the join change no field of the driver; a
consumer that still holds a frame clears that frame's lock before it exits, in a pool that
`stopStreaming` frees right after. -/
def stopProcessThread (d : UsbTvDriver) : Except Err UsbTvDriver :=
  if d._processThreadRunning then
    let d1 := { d with _processThreadRunning := false }
    if d1._frameWait then releaseProcessFrame d1 else pure d1
  else pure d

/-- Source `UsbTvDriver::stopStreaming`. The transport calls (`stopIsoAsyncRead` or
`discardIsoTransfers`, `setInterface(0, 0)`) change no field of the driver. -/
def stopStreaming (c : Consts) (d : UsbTvDriver) : Except Err UsbTvDriver :=
  if d._initalized then do
    let d1 := { d with _streamActive := false }
    let d2 ← stopProcessThread d1
    let d3 ← releaseInputFrame d2
    let d4 ← releaseProcessFrame d3
    freeFramePool c d4
  else pure d

/-- Source `UsbTvDriver::startStreaming`: returns the new state and the returned flag. -/
def startStreaming (c : Consts) (t : Transport) (fuel : Nat) (d : UsbTvDriver) :
    Except Err (UsbTvDriver × Bool) :=
  if d._initalized ∧ ¬ d._streamActive then
    let d1 := { d with _streamActive := true, _droppedFrameCounter := 0,
                       _incompleteFrameCounter := 0 }
    if !t.setInterface 0 0 then pure (d1, false)
    else if !setRegisters t c.VIDEO_INIT then pure ({ d1 with _streamActive := false }, false)
    else
      let normOk := match d1._tvNorm with
        | .NTSC => setRegisters t c.NTSC_TV_NORM
        | .PAL => setRegisters t c.PAL_TV_NORM
      if !normOk then pure ({ d1 with _streamActive := false }, false)
      else
        let inputOk := match d1._input with
          | .USBTV_COMPOSITE_INPUT => setRegisters t c.COMPOSITE_INPUT
          | .USBTV_SVIDEO_INPUT => setRegisters t c.SVIDEO_INPUT
        if !inputOk then pure ({ d1 with _streamActive := false }, false)
        else do
          let d2 := { d1 with _packetsPerField :=
            ((d1._frameWidth * d1._frameHeight) / c.USBTV_PAYLOAD_SIZE) % 2 ^ 16 }
          let d3 := allocateFramePool c d2
          let r ← fetchFrameFromPool c fuel d3
          let d4 := { r.2 with _usbInputFrame := some r.1 }
          let d5 := { d4 with _processThreadRunning := true }
          if !t.pthread_create then do
            let d6 ← stopStreaming c { d5 with _processThreadRunning := false }
            pure (d6, false)
          else if !t.setInterface 0 1 then do
            let d6 ← stopStreaming c d5
            pure (d6, false)
          else if !t.initIsoTransfers then do
            let d6 ← stopStreaming c d5
            pure (d6, false)
          else if !t.startIsoAsyncRead then do
            let d6 ← stopStreaming c d5
            pure (d6, false)
          else pure (d5, true)
  else pure (d, d._streamActive)

/-! ## Packet sequences -/

/-- Consecutive calls of `processPacket`, as made by `onUrbReceived` for the sub-packets
of completed transfers; the events of all calls are collected in order. -/
def feed (c : Consts) (fuel : Nat) : UsbTvDriver → List Packet →
    Except Err (UsbTvDriver × List Event)
  | d, [] => pure (d, [])
  | d, p :: ps => do
    let r ← processPacket c fuel d p
    let r2 ← feed c fuel r.1 ps
    pure (r2.1, r.2 ++ r2.2)

/-- The valid packets `start, start + 1, ..., start + count - 1` of one field of frame
`frameId`, packet `k` carrying the bytes `payload k`. -/
def fieldPackets (frameId : Nat) (isOdd : Bool) (payload : Nat → List Nat)
    (start count : Nat) : List Packet :=
  (List.range' start count).map fun k =>
    { frameOk := true, frameId := frameId, packetNumber := k, isOdd := isOdd,
      payload := payload k }

/-- Calls of `packetToProgressiveFrame` for consecutive packet numbers `n, n + 1, ...`,
one per payload of the list. -/
def progressiveWriteAll (c : Consts) : UsbTvDriver → List (List Nat) → Nat →
    Except Err UsbTvDriver
  | d, [], _ => pure d
  | d, p :: ps, n => do
    let d1 ← packetToProgressiveFrame c d p n
    progressiveWriteAll c d1 ps (n + 1)

/-! ## The interleaved placement formula as the spec words it -/

/-- Spec §4.2: `partIndex = packetNumber × 2 + h`. -/
def specPartIndex (packetNumber h : Nat) : Nat :=
  packetNumber * 2 + h

/-- Spec §4.2: `lineIndex = (partIndex / 3) × 2 + (0 if odd field else 1)`. -/
def specLineIndex (packetNumber h : Nat) (isOdd : Bool) : Nat :=
  (specPartIndex packetNumber h / 3) * 2 + (if isOdd then 0 else 1)

/-- Spec §4.2: `byteOffsetInLine = (partIndex mod 3) × (payloadSize / 2)` and
`offset = lineIndex × (frameWidth × bytesPerPixel) + byteOffsetInLine`, two bytes per
pixel, in unbounded arithmetic. -/
def specInterleavedOffset (payloadSize frameWidth packetNumber h : Nat) (isOdd : Bool) :
    Nat :=
  specLineIndex packetNumber h isOdd * (frameWidth * 2)
    + (specPartIndex packetNumber h % 3) * (payloadSize / 2)

/-! ## Predicates used in the statements -/

/-- The scan-type dependent condition under which every copy made for packet `p` stays
inside a frame buffer `buf` and inside the payload. -/
def writeFits (c : Consts) (scan : ScanType) (frameWidth : Nat) (p : Packet)
    (buf : List Nat) : Prop :=
  match scan with
  | .PROGRESSIVE =>
    (p.packetNumber * c.USBTV_PAYLOAD_SIZE) % 2 ^ 32 + c.USBTV_PAYLOAD_SIZE ≤ buf.length ∧
      c.USBTV_PAYLOAD_SIZE ≤ p.payload.length
  | .DISCARD =>
    p.isOdd = true →
      (p.packetNumber * c.USBTV_PAYLOAD_SIZE) % 2 ^ 32 + c.USBTV_PAYLOAD_SIZE ≤ buf.length ∧
        c.USBTV_PAYLOAD_SIZE ≤ p.payload.length
  | .INTERLEAVED =>
    interleavedOffset c frameWidth p.packetNumber 0 p.isOdd
        + (c.USBTV_PAYLOAD_SIZE / 2) % 2 ^ 32 ≤ buf.length ∧
      interleavedOffset c frameWidth p.packetNumber 1 p.isOdd
        + (c.USBTV_PAYLOAD_SIZE / 2) % 2 ^ 32 ≤ buf.length ∧
      2 * ((c.USBTV_PAYLOAD_SIZE / 2) % 2 ^ 32) ≤ p.payload.length

instance (c : Consts) (scan : ScanType) (w : Nat) (p : Packet) (buf : List Nat) :
    Decidable (writeFits c scan w p buf) := by
  unfold writeFits; cases scan <;> infer_instance

/-- The frame buffer after the copies made for packet `p`. -/
def writtenBuffer (c : Consts) (scan : ScanType) (frameWidth : Nat) (p : Packet)
    (buf : List Nat) : List Nat :=
  match scan with
  | .PROGRESSIVE =>
    blit buf ((p.packetNumber * c.USBTV_PAYLOAD_SIZE) % 2 ^ 32) p.payload 0 c.USBTV_PAYLOAD_SIZE
  | .DISCARD =>
    if p.isOdd then
      blit buf ((p.packetNumber * c.USBTV_PAYLOAD_SIZE) % 2 ^ 32) p.payload 0
        c.USBTV_PAYLOAD_SIZE
    else buf
  | .INTERLEAVED =>
    blit (blit buf (interleavedOffset c frameWidth p.packetNumber 0 p.isOdd) p.payload 0
        ((c.USBTV_PAYLOAD_SIZE / 2) % 2 ^ 32))
      (interleavedOffset c frameWidth p.packetNumber 1 p.isOdd) p.payload
      (1 * ((c.USBTV_PAYLOAD_SIZE / 2) % 2 ^ 32)) ((c.USBTV_PAYLOAD_SIZE / 2) % 2 ^ 32)

/-- The 32-bit unsigned arithmetic of `packetToInterleavedFrame` does not wrap for half
`h` of packet `packetNo`: the half payload size, the part index and the byte offset are
below `2^32`. -/
def interleavedNoWrap (c : Consts) (frameWidth packetNo h : Nat) (isOdd : Bool) : Prop :=
  c.USBTV_PAYLOAD_SIZE / 2 < 2 ^ 32 ∧ packetNo * 2 + h < 2 ^ 32 ∧
  specInterleavedOffset c.USBTV_PAYLOAD_SIZE frameWidth packetNo h isOdd < 2 ^ 32

instance (c : Consts) (w p h : Nat) (o : Bool) : Decidable (interleavedNoWrap c w p h o) := by
  unfold interleavedNoWrap; infer_instance

/-- The bytes of every frame buffer of the pool. -/
def UsbTvDriver.buffers (d : UsbTvDriver) : Option (List (List Nat)) :=
  d._framePool.map (List.map UsbTvFrame.buffer)

/-- Pointers held by the driver are null or point into the allocated pool, and an
allocated pool has at least `USBTV_FRAME_POOL_SIZE` slots. -/
def UsbTvDriver.refsValid (c : Consts) (d : UsbTvDriver) : Prop :=
  match d._framePool with
  | none => d._usbInputFrame = none ∧ d._processFrame = none
  | some pool =>
    c.USBTV_FRAME_POOL_SIZE ≤ pool.length ∧
    (∀ i, d._usbInputFrame = some i → i < pool.length) ∧
    (∀ i, d._processFrame = some i → i < pool.length)

/-- State `d1` differs from `d` at most in `_frameWait` and in the locks of the pool
frames: the fields that the consumer context (`getFrame`, `frame->lock.clear()`) writes. -/
def ConsumerMoved (d d1 : UsbTvDriver) : Prop :=
  { d1 with _frameWait := d._frameWait, _framePool := d._framePool } = d ∧
  d1._framePool.map (List.map fun f => { f with lock := false })
    = d._framePool.map (List.map fun f => { f with lock := false })

instance (d d1 : UsbTvDriver) : Decidable (ConsumerMoved d d1) := by
  unfold ConsumerMoved; infer_instance

/-- Two states agree on every field except possibly the contents of the frame pool. -/
def SameButPool (d d1 : UsbTvDriver) : Prop :=
  d1 = { d with _framePool := d1._framePool }

/-- State of the odd-field pass of the discard scenario before packet `k`: the consumer
waits, slot `i` is the locked in-progress frame with room for `N` payloads, slot `j` is the
first free slot, and after the first packet `k` packets of frame `f` have been counted. -/
def DiscardOddInv (c : Consts) (N f i j : Nat) (d : UsbTvDriver) (k : Nat) : Prop :=
  d._scanType = ScanType.DISCARD ∧ d._packetsPerField = N ∧ d._frameWait = true ∧
  d._usbInputFrame = some i ∧ (k ≠ 0 → d._currentFrameId = f ∧ d._packetsDone = k) ∧
  ∃ pool fr g, d._framePool = some pool ∧ pool[i]? = some fr ∧ fr.lock = true ∧
    N * c.USBTV_PAYLOAD_SIZE ≤ fr.buffer.length ∧ pool[j]? = some g ∧ g.lock = false ∧
    ∀ k1, k1 < j → ∃ f1, pool[k1]? = some f1 ∧ f1.lock = true

/-- State of the even-field pass of the discard scenario: discard mode with a valid
in-progress frame. -/
def DiscardEvenInv (N : Nat) (d : UsbTvDriver) : Prop :=
  d._scanType = ScanType.DISCARD ∧ d._packetsPerField = N ∧
  ∃ i pool fr, d._usbInputFrame = some i ∧ d._framePool = some pool ∧ pool[i]? = some fr

/-! ## Concrete instances used to exercise the definitions -/

/-- Small constants for evaluating the definitions: payload 12, three pool frames. -/
def tinyConsts : Consts :=
  { USBTV_PAYLOAD_SIZE := 12, USBTV_PACKET_SIZE := 16, USBTV_FRAME_POOL_SIZE := 3,
    FRAME_START := 1, FRAME_IN_PROGRESS := 2, FRAME_PARTIAL := 4, FRAME_COMPLETE := 8,
    VIDEO_INIT := [(1, 2)], NTSC_TV_NORM := [(3, 4)], PAL_TV_NORM := [(5, 6)],
    COMPOSITE_INPUT := [(7, 8)], SVIDEO_INPUT := [(9, 10)] }

/-- A frame of 9 x 4 pixels (72 bytes) as `allocateFramePool` creates it. -/
def tinyFrame (flags : Nat) (lock : Bool) : UsbTvFrame :=
  { buffer := List.replicate 72 0, bufferSize := 72, width := 9, height := 4,
    flags := flags, frameId := 0, lock := lock }

/-- A streaming state over `tinyConsts`: 9 x 4 pixels, three packets per field, slot 0 is
the in-progress frame. -/
def tinyDriver (scan : ScanType) (wait : Bool) (done : Nat) (flags : Nat) : UsbTvDriver :=
  { _initalized := true, _streamActive := true,
    _framePool := some [tinyFrame flags true, tinyFrame 0 false, tinyFrame 0 false],
    _tvNorm := TvNorm.NTSC, _frameWidth := 9, _frameHeight := 4,
    _input := TvInput.USBTV_COMPOSITE_INPUT, _scanType := scan, _currentFrameId := 5,
    _secondFrame := false, _packetsDone := done, _packetsPerField := 3,
    _usbInputFrame := some 0, _processFrame := none, _processThreadRunning := true,
    _frameWait := wait, _droppedFrameCounter := 0, _incompleteFrameCounter := 0 }

/-- A valid packet with twelve payload bytes `b, b+1, ...`. -/
def tinyPacket (frameId packetNumber : Nat) (isOdd : Bool) (b : Nat) : Packet :=
  { frameOk := true, frameId := frameId, packetNumber := packetNumber, isOdd := isOdd,
    payload := (List.range 12).map (fun k => b + k) }

/-- An initialized driver that is not streaming (no pool, null frame pointers), set up for
NTSC, composite input and scan type `scan`. -/
def idleDriver (scan : ScanType) : UsbTvDriver :=
  { _initalized := true, _streamActive := false, _framePool := none,
    _tvNorm := TvNorm.NTSC, _frameWidth := 9, _frameHeight := 4,
    _input := TvInput.USBTV_COMPOSITE_INPUT, _scanType := scan, _currentFrameId := 0,
    _secondFrame := false, _packetsDone := 0, _packetsPerField := 0,
    _usbInputFrame := none, _processFrame := none, _processThreadRunning := false,
    _frameWait := false, _droppedFrameCounter := 0, _incompleteFrameCounter := 0 }

/-- A transport on which every call succeeds. -/
def goodTransport : Transport :=
  { setInterface := fun _ _ => true, controlTransfer := fun _ _ => true,
    pthread_create := true, initIsoTransfers := true, startIsoAsyncRead := true,
    isIsoThreadRunning := true }

/-- A transport on which `setInterface(0, 0)` fails and every other call succeeds. -/
def badInterfaceTransport : Transport :=
  { goodTransport with setInterface := fun _ alt => alt != 0 }

/-! ## Configuration -/

/-- The block `if (_streamActive) { stopStreaming(); return startStreaming(); } return true;`
that ends `setTvNorm`, `setTvInput` and `setScanType`. -/
def restartIfStreaming (c : Consts) (t : Transport) (fuel : Nat) (d : UsbTvDriver) :
    Except Err (UsbTvDriver × Bool) :=
  if d._streamActive then do
    let d1 ← stopStreaming c d
    startStreaming c t fuel d1
  else pure (d, true)

/-- Source `UsbTvDriver::setTvNorm`; `norm` is an `int`. -/
def setTvNorm (c : Consts) (t : Transport) (fuel : Nat) (d : UsbTvDriver) (norm : Int) :
    Except Err (UsbTvDriver × Bool) :=
  if norm = 0 then
    restartIfStreaming c t fuel
      { d with _tvNorm := TvNorm.NTSC, _frameWidth := 720, _frameHeight := 480 }
  else if norm = 1 then
    restartIfStreaming c t fuel
      { d with _tvNorm := TvNorm.PAL, _frameWidth := 720, _frameHeight := 576 }
  else pure (d, false)

/-- Source `UsbTvDriver::setTvInput`; `input` is an `int`. -/
def setTvInput (c : Consts) (t : Transport) (fuel : Nat) (d : UsbTvDriver) (input : Int) :
    Except Err (UsbTvDriver × Bool) :=
  if input = 0 then
    restartIfStreaming c t fuel { d with _input := TvInput.USBTV_COMPOSITE_INPUT }
  else if input = 1 then
    restartIfStreaming c t fuel { d with _input := TvInput.USBTV_SVIDEO_INPUT }
  else pure (d, false)

/-- Source `UsbTvDriver::setScanType`; `scanType` is an `int`. -/
def setScanType (c : Consts) (t : Transport) (fuel : Nat) (d : UsbTvDriver)
    (scanType : Int) : Except Err (UsbTvDriver × Bool) :=
  if scanType = 0 then
    restartIfStreaming c t fuel { d with _scanType := ScanType.PROGRESSIVE }
  else if scanType = 1 then
    restartIfStreaming c t fuel { d with _scanType := ScanType.DISCARD }
  else if scanType = 2 then
    restartIfStreaming c t fuel { d with _scanType := ScanType.INTERLEAVED }
  else pure (d, false)

/-- The frame that each iteration of the loop of `allocateFramePool` creates. -/
def allocatedFrame (d : UsbTvDriver) : UsbTvFrame :=
  let bufferheight :=
    (if d._scanType = ScanType.INTERLEAVED then d._frameHeight else d._frameHeight / 2) % 2 ^ 32
  let buffersize := (d._frameWidth * bufferheight * 2) % 2 ^ 32
  { buffer := List.replicate buffersize 0, bufferSize := buffersize % 2 ^ 32,
    width := d._frameWidth, height := bufferheight % 2 ^ 16, flags := 0, frameId := 0,
    lock := false }

/-- The norm and frame dimensions of the configuration. -/
def UsbTvDriver.geometry (d : UsbTvDriver) : TvNorm × Nat × Nat :=
  (d._tvNorm, d._frameWidth, d._frameHeight)

/-- Constants with the payload size 960 of the spec and a pool of four frames. -/
def specConsts : Consts :=
  { USBTV_PAYLOAD_SIZE := 960, USBTV_PACKET_SIZE := 1024, USBTV_FRAME_POOL_SIZE := 4,
    FRAME_START := 1, FRAME_IN_PROGRESS := 2, FRAME_PARTIAL := 4, FRAME_COMPLETE := 8,
    VIDEO_INIT := [(1, 2)], NTSC_TV_NORM := [(3, 4)], PAL_TV_NORM := [(5, 6)],
    COMPOSITE_INPUT := [(7, 8)], SVIDEO_INPUT := [(9, 10)] }

/-! ## Transfer slicing -/

/-- An entry of `urb->iso_frame_desc` (`usbdevfs_iso_packet_desc`). -/
structure IsoPacketDesc where
  length : Nat
  actual_length : Nat
  status : Nat
  deriving DecidableEq

/-- The loops of `onUrbReceived` over the descriptors `d_0 .. d_{n-1}` of a transfer: the
byte offsets, relative to `urb->buffer`, of the sub-packets handed to `processPacket`, in
call order. `buffer` and `packetOffset` are the values of the local variables on entry to
the iteration. -/
def urbSlices (c : Consts) : List IsoPacketDesc → Nat → Nat → List Nat
  | [], _, _ => []
  | dsc :: rest, buffer, packetOffset =>
    let packetLength := dsc.actual_length
    let buffer1 := buffer + packetOffset
    let calls :=
      if dsc.status = 0 then
        (List.range (packetLength / c.USBTV_PACKET_SIZE)).map
          fun j => buffer1 + j * c.USBTV_PACKET_SIZE
      else []
    calls ++ urbSlices c rest buffer1 dsc.length

/-- Source `UsbTvDriver::onUrbReceived`: `processPacket` is called on each sub-packet in
turn; `decode` gives the packet found at a byte offset of the transfer buffer. -/
def onUrbReceived (c : Consts) (fuel : Nat) (decode : Nat → Packet) (d : UsbTvDriver)
    (descs : List IsoPacketDesc) : Except Err (UsbTvDriver × List Event) :=
  feed c fuel d ((urbSlices c descs 0 0).map decode)

/-- The slicing as the claim words it: for each `i` with `d_i.status = 0` and each
`j < d_i.actual_length / USBTV_PACKET_SIZE`, in increasing `(i, j)` order, the offset
`(sum of d_k.length for k < i) + j * USBTV_PACKET_SIZE`. -/
def specSlices (c : Consts) (descs : List IsoPacketDesc) : List Nat :=
  (List.range descs.length).flatMap fun i =>
    match descs[i]? with
    | none => []
    | some dsc =>
      if dsc.status = 0 then
        (List.range (dsc.actual_length / c.USBTV_PACKET_SIZE)).map
          fun j => ((descs.take i).map IsoPacketDesc.length).sum + j * c.USBTV_PACKET_SIZE
      else []

/-! ## Write bounds -/

/-- The destination ranges `(offset, length)` in the in-progress frame buffer of the
`memcpy` calls that `processPacket` makes for an accepted packet `p` (lines 543-555,
through `packetToProgressiveFrame` or `packetToInterleavedFrame`). -/
def writeRanges (c : Consts) (scan : ScanType) (frameWidth : Nat) (p : Packet) :
    List (Nat × Nat) :=
  match scan with
  | .PROGRESSIVE =>
    [((p.packetNumber * c.USBTV_PAYLOAD_SIZE) % 2 ^ 32, c.USBTV_PAYLOAD_SIZE)]
  | .DISCARD =>
    if p.isOdd then
      [((p.packetNumber * c.USBTV_PAYLOAD_SIZE) % 2 ^ 32, c.USBTV_PAYLOAD_SIZE)]
    else []
  | .INTERLEAVED =>
    [(interleavedOffset c frameWidth p.packetNumber 0 p.isOdd,
        (c.USBTV_PAYLOAD_SIZE / 2) % 2 ^ 32),
      (interleavedOffset c frameWidth p.packetNumber 1 p.isOdd,
        (c.USBTV_PAYLOAD_SIZE / 2) % 2 ^ 32)]

/-- The frame's `bufferSize` field and the size of its allocation are both `size`. -/
def UsbTvFrame.hasSize (fr : UsbTvFrame) (size : Nat) : Prop :=
  fr.bufferSize = size ∧ fr.buffer.length = size

instance (fr : UsbTvFrame) (size : Nat) : Decidable (fr.hasSize size) := by
  unfold UsbTvFrame.hasSize; infer_instance

/-- The values that packet processing reads but never writes: frame width and height,
scan type and packets per field. -/
def UsbTvDriver.session (d : UsbTvDriver) : Nat × Nat × ScanType × Nat :=
  (d._frameWidth, d._frameHeight, d._scanType, d._packetsPerField)

/-- The pool is allocated, every frame of it has a buffer of `size` bytes, and
`_usbInputFrame` points into it. -/
def UsbTvDriver.poolShape (d : UsbTvDriver) (size : Nat) : Prop :=
  match d._framePool, d._usbInputFrame with
  | some pool, some i => i < pool.length ∧ ∀ fr ∈ pool, fr.hasSize size
  | _, _ => False

instance (d : UsbTvDriver) (size : Nat) : Decidable (d.poolShape size) := by
  unfold UsbTvDriver.poolShape; split <;> infer_instance

/-- The driver is as `startStreaming` sets a session up: `_packetsPerField` is the value
computed at line 138 and the pool frames have the buffer size computed in
`allocateFramePool`. -/
def UsbTvDriver.sessionShape (c : Consts) (d : UsbTvDriver) : Prop :=
  d._packetsPerField = ((d._frameWidth * d._frameHeight) / c.USBTV_PAYLOAD_SIZE) % 2 ^ 16 ∧
  d.poolShape (allocatedFrame d).bufferSize

instance (c : Consts) (d : UsbTvDriver) : Decidable (d.sessionShape c) := by
  unfold UsbTvDriver.sessionShape; infer_instance

/-- A step that leaves the session values alone and keeps the pool in shape. -/
def Kept (size : Nat) (d d1 : UsbTvDriver) : Prop :=
  d1.session = d.session ∧ (d.poolShape size → d1.poolShape size)

instance (size : Nat) (d d1 : UsbTvDriver) : Decidable (Kept size d d1) := by
  unfold Kept; infer_instance

/-- A frame of an NTSC interleaved session: 720 x 480 pixels of two bytes. -/
def specFrame (flags : Nat) (lock : Bool) : UsbTvFrame :=
  { buffer := List.replicate 691200 0, bufferSize := 691200, width := 720, height := 480,
    flags := flags, frameId := 0, lock := lock }

/-- An NTSC interleaved session with `specConsts`, right after a successful start. -/
def specDriver : UsbTvDriver :=
  { _initalized := true, _streamActive := true,
    _framePool := some [specFrame 1 true, specFrame 0 false, specFrame 0 false,
      specFrame 0 false],
    _tvNorm := TvNorm.NTSC, _frameWidth := 720, _frameHeight := 480,
    _input := TvInput.USBTV_COMPOSITE_INPUT, _scanType := ScanType.INTERLEAVED,
    _currentFrameId := 0, _secondFrame := false, _packetsDone := 0, _packetsPerField := 360,
    _usbInputFrame := some 0, _processFrame := none, _processThreadRunning := true,
    _frameWait := false, _droppedFrameCounter := 0, _incompleteFrameCounter := 0 }

/-- A valid packet with a payload of 960 bytes. -/
def specPacket (frameId packetNumber : Nat) (isOdd : Bool) : Packet :=
  { frameOk := true, frameId := frameId, packetNumber := packetNumber, isOdd := isOdd,
    payload := List.replicate 960 7 }

/-! ## Interleaved tiling -/

/-- The byte offset in the frame buffer to which `packetToInterleavedFrame` copies byte `k`
of the payload of packet `packetNo`: iteration `k / halfPayloadSize` of the loop copies the
bytes from `packet + packetHalf * halfPayloadSize` on to `bufferOffset` on. -/
def interleavedDest (c : Consts) (frameWidth : Nat) (isOdd : Bool) (packetNo k : Nat) : Nat :=
  let halfPayloadSize := (c.USBTV_PAYLOAD_SIZE / 2) % 2 ^ 32
  interleavedOffset c frameWidth packetNo (k / halfPayloadSize) isOdd + k % halfPayloadSize

/-! ## Control, producer and consumer steps -/

/-- Where the frame process thread (`frameProcessThread`) is: not created, or joined; at
the test of its `while` loop; blocked in the `pthread_cond_wait` of `getFrame`; or back
from `getFrame` with the frame of a pool slot, before `frame->lock.clear()`. -/
inductive Consumer where
  | absent
  | ready
  | parked
  | holding (slot : Nat)
  deriving DecidableEq

/-- The driver together with its frame process thread. -/
structure System where
  driver : UsbTvDriver
  consumer : Consumer

/-- The steps taken by the control context (`startStreaming`, `stopStreaming`), the packet
arrival context (`processPacket`) and the frame process thread (`getFrame`, and the release
of the frame it received). -/
inductive Action where
  | start
  | stop
  | packet (p : Packet)
  | requestFrame
  | release

/-- Source `UsbTvDriver::getFrame`, up to the entry into `pthread_cond_wait`. -/
def getFrameWait (d : UsbTvDriver) : UsbTvDriver :=
  { d with _frameWait := true }

/-- Source `UsbTvDriver::getFrame`, after the wake-up: the pointer returned. -/
def getFrameReturn (d : UsbTvDriver) : Option Nat :=
  d._processFrame

/-- The statement `frame->lock.clear()` of `frameProcessThread`, for the frame of `slot`. -/
def clearLock (d : UsbTvDriver) (slot : Nat) : Except Err UsbTvDriver := do
  let fr ← derefFrame d (some slot)
  storeFrame d (some slot) { fr with lock := false }

/-- The frame process thread after a wake-up from `pthread_cond_wait`: it goes on with the
frame that `getFrame` returns, or back to the loop test when that is null. -/
def wake (d : UsbTvDriver) : Consumer :=
  match getFrameReturn d with
  | none => .ready
  | some slot => .holding slot

/-- Whether `pthread_cond_signal` was called: `notifyFrameComplete` handed a frame off. -/
def signalled (events : List Event) : Bool :=
  events.any fun e =>
    match e with
    | .frameReady _ _ => true
    | .frameDropped _ => false

/-- One step of the system. A step of the frame process thread that the thread is not in a
position to take changes nothing.
* `start`: `startStreaming`; the thread exists afterwards when it was created and not
  joined again by the `stopStreaming` of a failure path.
* `stop`: `stopStreaming`, which joins the thread: a thread holding a frame clears that
  lock on its way out, a parked thread is woken and leaves with the null pointer.
* `packet`: `processPacket`; a signal wakes a parked thread and is lost otherwise.
* `requestFrame`: the thread enters `getFrame` and blocks.
* `release`: the thread clears the lock of the frame it received. -/
def step (c : Consts) (t : Transport) (fuel : Nat) (s : System) :
    Action → Except Err System
  | .start => do
    let r ← startStreaming c t fuel s.driver
    if s.driver._initalized ∧ ¬ s.driver._streamActive then
      pure { driver := r.1,
             consumer := if r.1._processThreadRunning then .ready else .absent }
    else pure { driver := r.1, consumer := s.consumer }
  | .stop => do
    let d0 ← match s.consumer with
      | .holding slot => clearLock s.driver slot
      | _ => pure s.driver
    let d1 ← stopStreaming c d0
    if s.driver._initalized ∧ s.driver._processThreadRunning then
      pure { driver := d1, consumer := .absent }
    else pure { driver := d1, consumer := s.consumer }
  | .packet p => do
    let r ← processPacket c fuel s.driver p
    match s.consumer with
    | .parked =>
      pure { driver := r.1, consumer := if signalled r.2 then wake r.1 else .parked }
    | k => pure { driver := r.1, consumer := k }
  | .requestFrame =>
    match s.consumer with
    | .ready => pure { driver := getFrameWait s.driver, consumer := .parked }
    | _ => pure s
  | .release =>
    match s.consumer with
    | .holding slot => do
      let d1 ← clearLock s.driver slot
      pure { driver := d1, consumer := .ready }
    | _ => pure s

/-- The number of pool frames whose lock is held. -/
def lockedCount (d : UsbTvDriver) : Nat :=
  match d._framePool with
  | none => 0
  | some pool => (pool.filter fun fr => fr.lock).length

/-- The system after a sequence of steps. -/
def run (c : Consts) (t : Transport) (fuel : Nat) : System → List Action → Except Err System
  | s, [] => pure s
  | s, a :: rest => do
    let s1 ← step c t fuel s a
    run c t fuel s1 rest

/-- The number of locked frames after each step of a sequence. -/
def lockedAlong (c : Consts) (t : Transport) (fuel : Nat) :
    System → List Action → Except Err (List Nat)
  | _, [] => pure []
  | s, a :: rest => do
    let s1 ← step c t fuel s a
    let ns ← lockedAlong c t fuel s1 rest
    pure (lockedCount s1.driver :: ns)

/-- The freshly constructed driver of the examples, no frame process thread yet. -/
def freshSystem : System :=
  { driver := idleDriver .PROGRESSIVE, consumer := .absent }

/-- The three packets of progressive frame `frameId`, as steps. -/
def framePackets (frameId : Nat) : List Action :=
  (fieldPackets frameId true (fun k => List.replicate 12 k) 0 3).map Action.packet

/-! ## In-order progressive input -/

/-- The buffer after the copies that `packetToProgressiveFrame` makes for the packets `ps`,
in order. -/
def progressiveWritten (c : Consts) (ps : List Packet) (buf : List Nat) : List Nat :=
  ps.foldl (fun b p => writtenBuffer c ScanType.PROGRESSIVE 0 p b) buf

/-- A progressive session with `N` packets per field whose in-progress frame is the frame
of slot `i`, with buffer contents `buf`. -/
def InProgress (c : Consts) (N i : Nat) (d : UsbTvDriver) (buf : List Nat) : Prop :=
  d._scanType = ScanType.PROGRESSIVE ∧ d._packetsPerField = N ∧ d._usbInputFrame = some i ∧
  buf.length = N * c.USBTV_PAYLOAD_SIZE ∧
  ∃ pool fr, d._framePool = some pool ∧ pool[i]? = some fr ∧ fr.buffer = buf

/-- A frame of a progressive session with three packets of 12 bytes per field. -/
def smallFrame (flags : Nat) (lock : Bool) : UsbTvFrame :=
  { buffer := List.replicate 36 0, bufferSize := 36, width := 9, height := 2,
    flags := flags, frameId := 0, lock := lock }

/-- A progressive session with `tinyConsts` right after a start, with or without a consumer
waiting in `getFrame`. -/
def smallDriver (wait : Bool) : UsbTvDriver :=
  { _initalized := true, _streamActive := true,
    _framePool := some [smallFrame 1 true, smallFrame 0 false, smallFrame 0 false],
    _tvNorm := TvNorm.NTSC, _frameWidth := 9, _frameHeight := 4,
    _input := TvInput.USBTV_COMPOSITE_INPUT, _scanType := ScanType.PROGRESSIVE,
    _currentFrameId := 0, _secondFrame := false, _packetsDone := 0, _packetsPerField := 3,
    _usbInputFrame := some 0, _processFrame := none, _processThreadRunning := true,
    _frameWait := wait, _droppedFrameCounter := 0, _incompleteFrameCounter := 0 }

/-! # Theorems -/

/-! ## Basic facts about memory access -/

theorem derefFrame_ok {d : UsbTvDriver} {pool : List UsbTvFrame} {i : Nat} {fr : UsbTvFrame}
    (hp : d._framePool = some pool) (hi : pool[i]? = some fr) :
    derefFrame d (some i) = .ok fr := by
  simp [derefFrame, hp, hi]

theorem storeFrame_ok {d : UsbTvDriver} {pool : List UsbTvFrame} {i : Nat} (fr : UsbTvFrame)
    (hp : d._framePool = some pool) (hi : i < pool.length) :
    storeFrame d (some i) fr = .ok { d with _framePool := some (pool.set i fr) } := by
  simp [storeFrame, hp, hi]

theorem derefFrame_inv {d : UsbTvDriver} {ptr : Option Nat} {fr : UsbTvFrame}
    (h : derefFrame d ptr = .ok fr) :
    ∃ i pool, ptr = some i ∧ d._framePool = some pool ∧ pool[i]? = some fr := by
  unfold derefFrame at h
  split at h
  · cases h
  · rename_i i
    split at h
    · cases h
    · rename_i pool hp
      split at h
      · cases h
      · rename_i g hg
        cases h
        exact ⟨i, pool, rfl, hp, hg⟩

theorem storeFrame_inv {d d1 : UsbTvDriver} {ptr : Option Nat} {fr : UsbTvFrame}
    (h : storeFrame d ptr fr = .ok d1) :
    ∃ i pool, ptr = some i ∧ d._framePool = some pool ∧ i < pool.length ∧
      d1 = { d with _framePool := some (pool.set i fr) } := by
  unfold storeFrame at h
  split at h
  · cases h
  · rename_i i
    split at h
    · cases h
    · rename_i pool hp
      split at h
      · rename_i hi
        cases h
        exact ⟨i, pool, rfl, hp, hi, rfl⟩
      · cases h

theorem bind_ok_inv {α β : Type} {x : Except Err α} {f : α → Except Err β} {b : β}
    (h : (x >>= f) = .ok b) : ∃ a, x = .ok a ∧ f a = .ok b := by
  cases x with
  | error e => cases h
  | ok a => exact ⟨a, rfl, h⟩

theorem list_set_same {α : Type} : ∀ (l : List α) (i : Nat) (a : α), l[i]? = some a →
    l.set i a = l
  | [], _, _, h => by simp at h
  | x :: xs, 0, a, h => by
    simp at h
    simp [h]
  | x :: xs, i + 1, a, h => by
    simp at h
    simp [list_set_same xs i a h]

theorem set_same {d : UsbTvDriver} {pool : List UsbTvFrame} {i : Nat} {fr : UsbTvFrame}
    (hp : d._framePool = some pool) (hi : pool[i]? = some fr) :
    { d with _framePool := some (pool.set i fr) } = d := by
  rw [list_set_same pool i fr hi, ← hp]

theorem map_set_same {α β : Type} (f : α → β) : ∀ (l : List α) (i : Nat) (a b : α),
    l[i]? = some a → f b = f a → (l.set i b).map f = l.map f
  | [], _, _, _, h, _ => by simp at h
  | x :: xs, 0, a, b, h, hf => by
    simp at h
    simp [h, hf]
  | x :: xs, i + 1, a, b, h, hf => by
    simp at h
    simp [map_set_same f xs i a b h hf]

theorem lock_true_same {f : UsbTvFrame} (h : f.lock = true) :
    ({ f with lock := true } : UsbTvFrame) = f := by
  cases f
  simp at h
  simp [h]

theorem blit_length {dst src : List Nat} {off srcOff n : Nat} (h1 : off + n ≤ dst.length)
    (h2 : srcOff + n ≤ src.length) : (blit dst off src srcOff n).length = dst.length := by
  simp [blit]
  omega

theorem memcpy_ok {dst src : List Nat} {off srcOff n : Nat} (h1 : off + n ≤ dst.length)
    (h2 : srcOff + n ≤ src.length) :
    memcpy dst off src srcOff n = .ok (blit dst off src srcOff n) := by
  simp [memcpy, h1, h2]

/-! ## What the reassembly steps leave unchanged -/

theorem SameButPool.refl (d : UsbTvDriver) : SameButPool d d := rfl

theorem SameButPool.trans {a b e : UsbTvDriver} (h1 : SameButPool a b) (h2 : SameButPool b e) :
    SameButPool a e := by
  unfold SameButPool at *
  rw [h2, h1]

theorem storeFrame_same {d d1 : UsbTvDriver} {ptr : Option Nat} {fr : UsbTvFrame}
    (h : storeFrame d ptr fr = .ok d1) : SameButPool d d1 := by
  obtain ⟨i, pool, _, _, _, rfl⟩ := storeFrame_inv h
  rfl

theorem packetToProgressiveFrame_same {c : Consts} {d d1 : UsbTvDriver} {packet : List Nat}
    {n : Nat} (h : packetToProgressiveFrame c d packet n = .ok d1) : SameButPool d d1 := by
  unfold packetToProgressiveFrame at h
  obtain ⟨fr, _, h⟩ := bind_ok_inv h
  obtain ⟨buf, _, h⟩ := bind_ok_inv h
  exact storeFrame_same h

theorem interleavedHalf_same {c : Consts} {d d1 : UsbTvDriver} {packet : List Nat}
    {n k : Nat} {o : Bool} (h : interleavedHalf c packet n o d k = .ok d1) :
    SameButPool d d1 := by
  unfold interleavedHalf at h
  obtain ⟨fr, _, h⟩ := bind_ok_inv h
  obtain ⟨buf, _, h⟩ := bind_ok_inv h
  exact storeFrame_same h

theorem packetToInterleavedFrame_same {c : Consts} {d d1 : UsbTvDriver} {packet : List Nat}
    {n : Nat} {o : Bool} (h : packetToInterleavedFrame c d packet n o = .ok d1) :
    SameButPool d d1 := by
  unfold packetToInterleavedFrame at h
  obtain ⟨d2, h2, h⟩ := bind_ok_inv h
  exact (interleavedHalf_same h2).trans (interleavedHalf_same h)

theorem writePacket_same {c : Consts} {d d1 : UsbTvDriver} {p : Packet}
    (h : writePacket c d p = .ok d1) : SameButPool d d1 := by
  unfold writePacket at h
  split at h
  · exact packetToProgressiveFrame_same h
  · split at h
    · exact packetToProgressiveFrame_same h
    · cases h; exact SameButPool.refl _
  · exact packetToInterleavedFrame_same h

theorem beginFrame_new {c : Consts} {d : UsbTvDriver} {p : Packet} {pool : List UsbTvFrame}
    {i : Nat} {fr : UsbTvFrame} (hnew : p.packetNumber = 0 ∨ p.frameId ≠ d._currentFrameId)
    (hptr : d._usbInputFrame = some i) (hp : d._framePool = some pool)
    (hi : pool[i]? = some fr) :
    beginFrame c d p = .ok
      { d with
        _droppedFrameCounter :=
          if (fr.flags &&& c.FRAME_IN_PROGRESS) > 0 then d._droppedFrameCounter + 1
          else d._droppedFrameCounter,
        _currentFrameId := p.frameId, _packetsDone := 0,
        _framePool := some (pool.set i { fr with flags := c.FRAME_IN_PROGRESS }) } := by
  have hlt : i < pool.length := (List.getElem?_eq_some_iff.mp hi).1
  unfold beginFrame
  rw [if_pos hnew, hptr, derefFrame_ok hp hi]
  by_cases hf : (fr.flags &&& c.FRAME_IN_PROGRESS) > 0
  · simp [hf, hptr, hp, hlt, storeFrame, bind, Except.bind]
  · simp [hf, hptr, hp, hlt, storeFrame, bind, Except.bind]

theorem beginFrame_old {c : Consts} {d : UsbTvDriver} {p : Packet}
    (hold : ¬ (p.packetNumber = 0 ∨ p.frameId ≠ d._currentFrameId)) :
    beginFrame c d p = .ok d := by
  unfold beginFrame
  rw [if_neg hold]; rfl

theorem beginFrame_inv {c : Consts} {d d1 : UsbTvDriver} {p : Packet}
    (h : beginFrame c d p = .ok d1) :
    d1._packetsPerField = d._packetsPerField ∧
    d1._incompleteFrameCounter = d._incompleteFrameCounter ∧
    d1._scanType = d._scanType ∧ d1._usbInputFrame = d._usbInputFrame ∧
    d1._processFrame = d._processFrame ∧ d1._frameWait = d._frameWait ∧
    d1._secondFrame = d._secondFrame ∧ d1._frameWidth = d._frameWidth := by
  by_cases hnew : p.packetNumber = 0 ∨ p.frameId ≠ d._currentFrameId
  · have h0 := h
    unfold beginFrame at h0
    rw [if_pos hnew] at h0
    obtain ⟨fr, hfr, _⟩ := bind_ok_inv h0
    obtain ⟨i, pool, hptr, hp, hi⟩ := derefFrame_inv hfr
    rw [beginFrame_new hnew hptr hp hi] at h
    cases h
    simp
  · rw [beginFrame_old hnew] at h
    cases h
    simp

theorem acceptPacket_inv {c : Consts} {d d1 : UsbTvDriver} {p : Packet}
    (h : acceptPacket c d p = .ok d1) :
    d1._packetsPerField = d._packetsPerField ∧
    d1._incompleteFrameCounter = d._incompleteFrameCounter ∧
    d1._scanType = d._scanType ∧ d1._usbInputFrame = d._usbInputFrame ∧
    d1._processFrame = d._processFrame ∧ d1._frameWait = d._frameWait ∧
    d1._secondFrame = d._secondFrame ∧ d1._frameWidth = d._frameWidth := by
  unfold acceptPacket at h
  obtain ⟨a, ha, h⟩ := bind_ok_inv h
  obtain ⟨b, hb, h⟩ := bind_ok_inv h
  cases h
  have hs := writePacket_same hb
  unfold SameButPool at hs
  obtain ⟨h1, h2, h3, h4, h5, h6, h7, h8⟩ := beginFrame_inv ha
  rw [hs]
  simp [h1, h2, h3, h4, h5, h6, h7, h8]

/-! ## Copying a packet succeeds when it fits -/

theorem packetToProgressiveFrame_ok {c : Consts} {d : UsbTvDriver} {pool : List UsbTvFrame}
    {i : Nat} {fr : UsbTvFrame} {packet : List Nat} {n : Nat}
    (hptr : d._usbInputFrame = some i) (hp : d._framePool = some pool)
    (hi : pool[i]? = some fr)
    (h1 : (n * c.USBTV_PAYLOAD_SIZE) % 2 ^ 32 + c.USBTV_PAYLOAD_SIZE ≤ fr.buffer.length)
    (h2 : c.USBTV_PAYLOAD_SIZE ≤ packet.length) :
    packetToProgressiveFrame c d packet n = .ok
      { d with _framePool := some (pool.set i { fr with buffer :=
          (blit fr.buffer ((n * c.USBTV_PAYLOAD_SIZE) % 2 ^ 32) packet 0
            c.USBTV_PAYLOAD_SIZE) }) } := by
  have hlt : i < pool.length := (List.getElem?_eq_some_iff.mp hi).1
  unfold packetToProgressiveFrame
  rw [hptr, derefFrame_ok hp hi]
  simp only [bind, Except.bind]
  rw [memcpy_ok h1 (by omega)]
  simp only [hptr, storeFrame_ok _ hp hlt]

theorem interleavedHalf_ok {c : Consts} {d : UsbTvDriver} {pool : List UsbTvFrame}
    {i : Nat} {fr : UsbTvFrame} {packet : List Nat} {n k : Nat} {o : Bool}
    (hptr : d._usbInputFrame = some i) (hp : d._framePool = some pool)
    (hi : pool[i]? = some fr)
    (h1 : interleavedOffset c d._frameWidth n k o + (c.USBTV_PAYLOAD_SIZE / 2) % 2 ^ 32
      ≤ fr.buffer.length)
    (h2 : k * ((c.USBTV_PAYLOAD_SIZE / 2) % 2 ^ 32) + (c.USBTV_PAYLOAD_SIZE / 2) % 2 ^ 32
      ≤ packet.length) :
    interleavedHalf c packet n o d k = .ok
      { d with _framePool := some (pool.set i { fr with buffer :=
          (blit fr.buffer (interleavedOffset c d._frameWidth n k o) packet
            (k * ((c.USBTV_PAYLOAD_SIZE / 2) % 2 ^ 32))
            ((c.USBTV_PAYLOAD_SIZE / 2) % 2 ^ 32)) }) } := by
  have hlt : i < pool.length := (List.getElem?_eq_some_iff.mp hi).1
  unfold interleavedHalf
  rw [hptr, derefFrame_ok hp hi]
  simp only [bind, Except.bind]
  rw [memcpy_ok h1 h2]
  simp only [hptr, storeFrame_ok _ hp hlt]

theorem packetToInterleavedFrame_ok {c : Consts} {d : UsbTvDriver} {pool : List UsbTvFrame}
    {i : Nat} {fr : UsbTvFrame} {packet : List Nat} {n : Nat} {o : Bool}
    (hptr : d._usbInputFrame = some i) (hp : d._framePool = some pool)
    (hi : pool[i]? = some fr)
    (h0 : interleavedOffset c d._frameWidth n 0 o + (c.USBTV_PAYLOAD_SIZE / 2) % 2 ^ 32
      ≤ fr.buffer.length)
    (h1 : interleavedOffset c d._frameWidth n 1 o + (c.USBTV_PAYLOAD_SIZE / 2) % 2 ^ 32
      ≤ fr.buffer.length)
    (h2 : 2 * ((c.USBTV_PAYLOAD_SIZE / 2) % 2 ^ 32) ≤ packet.length) :
    packetToInterleavedFrame c d packet n o = .ok
      { d with _framePool := some (pool.set i { fr with buffer :=
          (blit (blit fr.buffer (interleavedOffset c d._frameWidth n 0 o) packet 0
              ((c.USBTV_PAYLOAD_SIZE / 2) % 2 ^ 32))
            (interleavedOffset c d._frameWidth n 1 o) packet
            (1 * ((c.USBTV_PAYLOAD_SIZE / 2) % 2 ^ 32))
            ((c.USBTV_PAYLOAD_SIZE / 2) % 2 ^ 32)) }) } := by
  have hlt : i < pool.length := (List.getElem?_eq_some_iff.mp hi).1
  have hs0 : 0 * ((c.USBTV_PAYLOAD_SIZE / 2) % 2 ^ 32) + (c.USBTV_PAYLOAD_SIZE / 2) % 2 ^ 32
      ≤ packet.length := by omega
  have hs1 : 1 * ((c.USBTV_PAYLOAD_SIZE / 2) % 2 ^ 32) + (c.USBTV_PAYLOAD_SIZE / 2) % 2 ^ 32
      ≤ packet.length := by omega
  unfold packetToInterleavedFrame
  rw [interleavedHalf_ok hptr hp hi h0 hs0]
  simp only [bind, Except.bind]
  have hlen : (blit fr.buffer (interleavedOffset c d._frameWidth n 0 o) packet 0
      ((c.USBTV_PAYLOAD_SIZE / 2) % 2 ^ 32)).length = fr.buffer.length :=
    blit_length h0 (by omega)
  have step2 := interleavedHalf_ok (c := c)
    (d := { d with _framePool := some (pool.set i { fr with buffer :=
      (blit fr.buffer (interleavedOffset c d._frameWidth n 0 o) packet
        (0 * ((c.USBTV_PAYLOAD_SIZE / 2) % 2 ^ 32)) ((c.USBTV_PAYLOAD_SIZE / 2) % 2 ^ 32)) }) })
    (i := i) (n := n) (k := 1) (o := o) hptr rfl
    (List.getElem?_set_self hlt) (by simp only [zero_mul]; rw [hlen]; exact h1) hs1
  rw [step2]
  simp

theorem writtenBuffer_length {c : Consts} {scan : ScanType} {w : Nat} {p : Packet}
    {buf : List Nat} (h : writeFits c scan w p buf) :
    (writtenBuffer c scan w p buf).length = buf.length := by
  cases scan with
  | PROGRESSIVE =>
    simp only [writeFits] at h
    simp only [writtenBuffer]
    exact blit_length h.1 (by omega)
  | DISCARD =>
    simp only [writeFits] at h
    simp only [writtenBuffer]
    split
    · rename_i ho
      exact blit_length (h ho).1 (by have := (h ho).2; omega)
    · rfl
  | INTERLEAVED =>
    simp only [writeFits] at h
    simp only [writtenBuffer]
    have h0 : (blit buf (interleavedOffset c w p.packetNumber 0 p.isOdd) p.payload 0
        ((c.USBTV_PAYLOAD_SIZE / 2) % 2 ^ 32)).length = buf.length :=
      blit_length h.1 (by omega)
    rw [blit_length (by rw [h0]; exact h.2.1) (by omega), h0]

theorem writePacket_ok {c : Consts} {d : UsbTvDriver} {pool : List UsbTvFrame}
    {i : Nat} {fr : UsbTvFrame} {p : Packet}
    (hptr : d._usbInputFrame = some i) (hp : d._framePool = some pool)
    (hi : pool[i]? = some fr)
    (hfit : writeFits c d._scanType d._frameWidth p fr.buffer) :
    writePacket c d p = .ok
      { d with _framePool := some (pool.set i { fr with buffer :=
          (writtenBuffer c d._scanType d._frameWidth p fr.buffer) }) } := by
  unfold writePacket
  cases hs : d._scanType with
  | PROGRESSIVE =>
    rw [hs] at hfit
    simp only [writeFits] at hfit
    simp only [writtenBuffer]
    rw [packetToProgressiveFrame_ok hptr hp hi hfit.1 hfit.2, hs]
  | DISCARD =>
    rw [hs] at hfit
    simp only [writeFits] at hfit
    simp only [writtenBuffer]
    by_cases ho : p.isOdd = true
    · rw [if_pos ho, if_pos ho]
      rw [packetToProgressiveFrame_ok hptr hp hi (hfit ho).1 (hfit ho).2, hs]
    · rw [if_neg ho, if_neg ho]
      have : ({ fr with buffer := fr.buffer } : UsbTvFrame) = fr := rfl
      rw [this, list_set_same pool i fr hi, ← hp, ← hs]
      rfl
  | INTERLEAVED =>
    rw [hs] at hfit
    simp only [writeFits] at hfit
    simp only [writtenBuffer]
    rw [packetToInterleavedFrame_ok hptr hp hi hfit.1 hfit.2.1 hfit.2.2, hs]

theorem acceptPacket_new {c : Consts} {d : UsbTvDriver} {pool : List UsbTvFrame}
    {i : Nat} {fr : UsbTvFrame} {p : Packet}
    (hnew : p.packetNumber = 0 ∨ p.frameId ≠ d._currentFrameId)
    (hptr : d._usbInputFrame = some i) (hp : d._framePool = some pool)
    (hi : pool[i]? = some fr)
    (hfit : writeFits c d._scanType d._frameWidth p fr.buffer) :
    acceptPacket c d p = .ok
      { d with
        _droppedFrameCounter :=
          if (fr.flags &&& c.FRAME_IN_PROGRESS) > 0 then d._droppedFrameCounter + 1
          else d._droppedFrameCounter,
        _currentFrameId := p.frameId, _packetsDone := 1,
        _framePool := some (pool.set i { fr with
          flags := c.FRAME_IN_PROGRESS,
          buffer := (writtenBuffer c d._scanType d._frameWidth p fr.buffer) }) } := by
  have hlt : i < pool.length := (List.getElem?_eq_some_iff.mp hi).1
  unfold acceptPacket
  rw [beginFrame_new hnew hptr hp hi]
  simp only [bind, Except.bind]
  have hw := writePacket_ok (c := c) (p := p)
    (d := { d with
        _droppedFrameCounter :=
          if (fr.flags &&& c.FRAME_IN_PROGRESS) > 0 then d._droppedFrameCounter + 1
          else d._droppedFrameCounter,
        _currentFrameId := p.frameId, _packetsDone := 0,
        _framePool := some (pool.set i { fr with flags := c.FRAME_IN_PROGRESS }) })
    (i := i) hptr rfl
    (List.getElem?_set_self hlt) hfit
  rw [hw]
  simp [pure, Except.pure]

theorem acceptPacket_old {c : Consts} {d : UsbTvDriver} {pool : List UsbTvFrame}
    {i : Nat} {fr : UsbTvFrame} {p : Packet}
    (hold : ¬ (p.packetNumber = 0 ∨ p.frameId ≠ d._currentFrameId))
    (hptr : d._usbInputFrame = some i) (hp : d._framePool = some pool)
    (hi : pool[i]? = some fr)
    (hfit : writeFits c d._scanType d._frameWidth p fr.buffer) :
    acceptPacket c d p = .ok
      { d with
        _packetsDone := (d._packetsDone + 1) % 2 ^ 16,
        _framePool := some (pool.set i { fr with
          buffer := (writtenBuffer c d._scanType d._frameWidth p fr.buffer) }) } := by
  unfold acceptPacket
  rw [beginFrame_old hold]
  simp only [bind, Except.bind]
  rw [writePacket_ok hptr hp hi hfit]
  simp [pure, Except.pure]

theorem acceptPacket_ok {c : Consts} {d : UsbTvDriver} {pool : List UsbTvFrame}
    {i : Nat} {fr : UsbTvFrame} {p : Packet}
    (hptr : d._usbInputFrame = some i) (hp : d._framePool = some pool)
    (hi : pool[i]? = some fr)
    (hfit : writeFits c d._scanType d._frameWidth p fr.buffer) :
    ∃ d1 fr1, acceptPacket c d p = .ok d1 ∧ derefFrame d1 d1._usbInputFrame = .ok fr1 := by
  have hlt : i < pool.length := (List.getElem?_eq_some_iff.mp hi).1
  by_cases hnew : p.packetNumber = 0 ∨ p.frameId ≠ d._currentFrameId
  · exact ⟨_, _, acceptPacket_new (c := c) hnew hptr hp hi hfit,
      hptr ▸ derefFrame_ok rfl (List.getElem?_set_self hlt)⟩
  · exact ⟨_, _, acceptPacket_old (c := c) hnew hptr hp hi hfit,
      hptr ▸ derefFrame_ok rfl (List.getElem?_set_self hlt)⟩

theorem processPacket_not_last {c : Consts} (fuel : Nat) {d d1 : UsbTvDriver} {p : Packet}
    (hppf : d._packetsPerField < 2 ^ 16) (hok : p.frameOk = true)
    (hnl : p.packetNumber < d._packetsPerField - 1) (hacc : acceptPacket c d p = .ok d1) :
    processPacket c fuel d p = .ok (d1, []) := by
  obtain ⟨hf1, -⟩ := acceptPacket_inv hacc
  unfold processPacket
  rw [if_pos hok, if_neg (by omega), hacc]
  show (if p.packetNumber = (d1._packetsPerField + 2 ^ 32 - 1) % 2 ^ 32 then
    checkFinishedFrame c fuel d1 p.isOdd else pure (d1, [])) = _
  rw [if_neg (by rw [hf1]; omega)]
  rfl

theorem processPacket_last {c : Consts} (fuel : Nat) {d d1 : UsbTvDriver} {p : Packet}
    (hppf : d._packetsPerField < 2 ^ 16) (hok : p.frameOk = true)
    (hrange : p.packetNumber < d._packetsPerField)
    (hlast : p.packetNumber = d._packetsPerField - 1) (hacc : acceptPacket c d p = .ok d1) :
    processPacket c fuel d p = checkFinishedFrame c fuel d1 p.isOdd := by
  obtain ⟨hf1, -⟩ := acceptPacket_inv hacc
  unfold processPacket
  rw [if_pos hok, if_neg (not_le.mpr hrange), hacc]
  show (if p.packetNumber = (d1._packetsPerField + 2 ^ 32 - 1) % 2 ^ 32 then
    checkFinishedFrame c fuel d1 p.isOdd else pure (d1, [])) = _
  rw [if_pos (by rw [hf1]; omega)]

/-! ## Finalization and new frames -/

theorem markFinishedFrame_ok (c : Consts) {d : UsbTvDriver} {pool : List UsbTvFrame} {i : Nat}
    {fr : UsbTvFrame} (hptr : d._usbInputFrame = some i) (hp : d._framePool = some pool)
    (hi : pool[i]? = some fr) :
    markFinishedFrame c d = .ok
      (if d._packetsDone ≠ d._packetsPerField then
        { d with _framePool := some (pool.set i { fr with flags := c.FRAME_PARTIAL }),
                 _incompleteFrameCounter := d._incompleteFrameCounter + 1 }
      else { d with _framePool := some (pool.set i { fr with flags := c.FRAME_COMPLETE }) }) := by
  have hlt : i < pool.length := by
    rcases List.getElem?_eq_some_iff.mp hi with ⟨h, _⟩; exact h
  unfold markFinishedFrame
  rw [hptr, derefFrame_ok hp hi]
  by_cases hpd : d._packetsDone = d._packetsPerField
  · simp [hpd, hptr, storeFrame_ok _ hp hlt, bind, Except.bind]
  · simp [hpd, hptr, storeFrame_ok _ hp hlt, bind, Except.bind, pure, Except.pure]

theorem finalization_of_accept (c : Consts) (fuel : Nat) (d d1 : UsbTvDriver) (p : Packet)
    (fr : UsbTvFrame)
    (hPC : c.FRAME_PARTIAL ≠ c.FRAME_COMPLETE) (hPI : c.FRAME_PARTIAL ≠ c.FRAME_IN_PROGRESS)
    (hCI : c.FRAME_COMPLETE ≠ c.FRAME_IN_PROGRESS)
    (hppf : d._packetsPerField < 2 ^ 16)
    (hok : p.frameOk = true) (hrange : p.packetNumber < d._packetsPerField)
    (hlast : p.packetNumber = d._packetsPerField - 1)
    (hacc : acceptPacket c d p = .ok d1)
    (hin : derefFrame d1 d1._usbInputFrame = .ok fr) :
    ∃ d2 fr2, markFinishedFrame c d1 = .ok d2 ∧
      processPacket c fuel d p = checkFinishedFrame c fuel d1 p.isOdd ∧
      checkFinishedFrame c fuel d1 p.isOdd = dispatchFinishedFrame c fuel d2 p.isOdd ∧
      derefFrame d2 d2._usbInputFrame = .ok fr2 ∧
      (fr2.flags = c.FRAME_COMPLETE ↔ d1._packetsDone = d1._packetsPerField) ∧
      (d1._packetsDone = d1._packetsPerField →
        d2._incompleteFrameCounter = d._incompleteFrameCounter) ∧
      (d1._packetsDone ≠ d1._packetsPerField →
        fr2.flags = c.FRAME_PARTIAL ∧
        d2._incompleteFrameCounter = d._incompleteFrameCounter + 1) ∧
      fr2.flags ≠ c.FRAME_IN_PROGRESS := by
  obtain ⟨i, pool, hptr, hp, hi⟩ := derefFrame_inv hin
  have hlt : i < pool.length := (List.getElem?_eq_some_iff.mp hi).1
  obtain ⟨hf1, hf2, -⟩ := acceptPacket_inv hacc
  have hmark := markFinishedFrame_ok c hptr hp hi
  have hproc : processPacket c fuel d p = checkFinishedFrame c fuel d1 p.isOdd := by
    have hlast1 : p.packetNumber = (d1._packetsPerField + 2 ^ 32 - 1) % 2 ^ 32 := by
      rw [hf1]; omega
    unfold processPacket
    rw [if_pos hok, if_neg (not_le.mpr hrange), hacc]
    show (if p.packetNumber = (d1._packetsPerField + 2 ^ 32 - 1) % 2 ^ 32 then
      checkFinishedFrame c fuel d1 p.isOdd else pure (d1, [])) = _
    rw [if_pos hlast1]
  by_cases hpd : d1._packetsDone = d1._packetsPerField
  · rw [if_neg (not_not.mpr hpd)] at hmark
    refine ⟨_, { fr with flags := c.FRAME_COMPLETE }, hmark, hproc, ?_, ?_, ?_, ?_, ?_, ?_⟩
    · unfold checkFinishedFrame; rw [hmark]; rfl
    · exact hptr ▸ derefFrame_ok rfl (by simp [hlt])
    · simp [hpd]
    · intro _; exact hf2
    · intro h; exact absurd hpd h
    · exact hCI
  · rw [if_pos hpd] at hmark
    refine ⟨_, { fr with flags := c.FRAME_PARTIAL }, hmark, hproc, ?_, ?_, ?_, ?_, ?_, ?_⟩
    · unfold checkFinishedFrame; rw [hmark]; rfl
    · exact hptr ▸ derefFrame_ok rfl (by simp [hlt])
    · simp [hpd, hPC]
    · intro h; exact absurd h hpd
    · intro _; exact ⟨rfl, by simp [hf2]⟩
    · exact hPI

/-- C1: for every state with a valid in-progress frame and every valid in-range packet
that is the last of its field (`packetNumber = _packetsPerField - 1`) and whose copy fits
the buffer, `processPacket` copies and counts the packet (`acceptPacket`, giving `d1`) and
runs `checkFinishedFrame`. Its first statement flags the in-progress frame
`FRAME_COMPLETE` exactly when `_packetsDone = _packetsPerField` in `d1` (leaving
`_incompleteFrameCounter` as it was) and otherwise `FRAME_PARTIAL` with
`_incompleteFrameCounter` incremented by one; the flags handed to the scan-type dispatch
are never `FRAME_IN_PROGRESS`. -/
theorem C1_finalization_flag (c : Consts) (fuel : Nat) (d : UsbTvDriver) (p : Packet)
    (pool : List UsbTvFrame) (i : Nat) (fr : UsbTvFrame)
    (hPC : c.FRAME_PARTIAL ≠ c.FRAME_COMPLETE) (hPI : c.FRAME_PARTIAL ≠ c.FRAME_IN_PROGRESS)
    (hCI : c.FRAME_COMPLETE ≠ c.FRAME_IN_PROGRESS)
    (hppf : d._packetsPerField < 2 ^ 16)
    (hok : p.frameOk = true) (hrange : p.packetNumber < d._packetsPerField)
    (hlast : p.packetNumber = d._packetsPerField - 1)
    (hptr : d._usbInputFrame = some i) (hp : d._framePool = some pool)
    (hi : pool[i]? = some fr)
    (hfit : writeFits c d._scanType d._frameWidth p fr.buffer) :
    ∃ d1 d2 fr2, acceptPacket c d p = .ok d1 ∧ markFinishedFrame c d1 = .ok d2 ∧
      processPacket c fuel d p = checkFinishedFrame c fuel d1 p.isOdd ∧
      checkFinishedFrame c fuel d1 p.isOdd = dispatchFinishedFrame c fuel d2 p.isOdd ∧
      derefFrame d2 d2._usbInputFrame = .ok fr2 ∧
      (fr2.flags = c.FRAME_COMPLETE ↔ d1._packetsDone = d1._packetsPerField) ∧
      (d1._packetsDone = d1._packetsPerField →
        d2._incompleteFrameCounter = d._incompleteFrameCounter) ∧
      (d1._packetsDone ≠ d1._packetsPerField →
        fr2.flags = c.FRAME_PARTIAL ∧
        d2._incompleteFrameCounter = d._incompleteFrameCounter + 1) ∧
      fr2.flags ≠ c.FRAME_IN_PROGRESS := by
  obtain ⟨d1, fr1, hacc, hin⟩ := acceptPacket_ok (c := c) hptr hp hi hfit
  obtain ⟨d2, fr2, h⟩ :=
    finalization_of_accept c fuel d d1 p fr1 hPC hPI hCI hppf hok hrange hlast hacc hin
  exact ⟨d1, d2, fr2, hacc, h⟩

/-- C1 at a concrete state: the third of three progressive packets arrives after only one
earlier packet was counted, so the frame is flagged partial and counted incomplete. -/
theorem C1_finalization_flag_witness :
    ∃ d1 d2 fr2,
      acceptPacket tinyConsts (tinyDriver .PROGRESSIVE false 1 2) (tinyPacket 5 2 true 0)
        = .ok d1 ∧
      markFinishedFrame tinyConsts d1 = .ok d2 ∧
      derefFrame d2 d2._usbInputFrame = .ok fr2 ∧
      fr2.flags = tinyConsts.FRAME_PARTIAL ∧ d2._incompleteFrameCounter = 1 := by
  obtain ⟨d1, d2, fr2, h1, h2, _, _, h5, _, _, h8, _⟩ :=
    C1_finalization_flag tinyConsts 3 (tinyDriver .PROGRESSIVE false 1 2)
      (tinyPacket 5 2 true 0) [tinyFrame 2 true, tinyFrame 0 false, tinyFrame 0 false] 0
      (tinyFrame 2 true) (by decide) (by decide) (by decide) (by decide) rfl (by decide)
      (by decide) rfl rfl rfl (by decide)
  have hne : d1._packetsDone ≠ d1._packetsPerField := by
    have h0 : acceptPacket tinyConsts (tinyDriver .PROGRESSIVE false 1 2)
        (tinyPacket 5 2 true 0) = .ok d1 := h1
    cases h0
    decide
  exact ⟨d1, d2, fr2, h1, h2, h5, (h8 hne).1, (h8 hne).2⟩

theorem land_self_pos_of_disjoint {a b : Nat} (ha : 0 < a) (h : a &&& b = 0) : a ≠ b := by
  intro hab
  subst hab
  rw [Nat.and_self] at h
  omega

/-- C2: a valid packet that is not the last of its field (`packetNumber <
_packetsPerField - 1`) and whose copy fits the in-progress buffer is processed without any
delivery. If it starts a new frame (`packetNumber = 0` or a new frame id),
`_droppedFrameCounter` grows by one when the flags of the in-progress frame had the
`FRAME_IN_PROGRESS` bit and by zero otherwise, and afterwards `_currentFrameId` is the
packet's id, the in-progress frame is flagged `FRAME_IN_PROGRESS` and `_packetsDone = 1`.
Otherwise `_droppedFrameCounter` is unchanged. With pairwise disjoint flag bits, a frame
carrying one of the four flags has the `FRAME_IN_PROGRESS` bit exactly when its flags equal
`FRAME_IN_PROGRESS`. -/
theorem C2_dropped_on_new_frame (c : Consts) (fuel : Nat) (d : UsbTvDriver) (p : Packet)
    (pool : List UsbTvFrame) (i : Nat) (fr : UsbTvFrame)
    (hppf : d._packetsPerField < 2 ^ 16) (hok : p.frameOk = true)
    (hnl : p.packetNumber < d._packetsPerField - 1)
    (hptr : d._usbInputFrame = some i) (hp : d._framePool = some pool)
    (hi : pool[i]? = some fr)
    (hfit : writeFits c d._scanType d._frameWidth p fr.buffer) :
    ∃ d1, processPacket c fuel d p = .ok (d1, []) ∧
      ((p.packetNumber = 0 ∨ p.frameId ≠ d._currentFrameId) →
        d1._droppedFrameCounter = d._droppedFrameCounter +
          (if (fr.flags &&& c.FRAME_IN_PROGRESS) > 0 then 1 else 0) ∧
        d1._currentFrameId = p.frameId ∧
        (∃ fr1, derefFrame d1 d1._usbInputFrame = .ok fr1 ∧
          fr1.flags = c.FRAME_IN_PROGRESS) ∧
        d1._packetsDone = 1) ∧
      ((p.packetNumber ≠ 0 ∧ p.frameId = d._currentFrameId) →
        d1._droppedFrameCounter = d._droppedFrameCounter) ∧
      (c.flagsDisjoint →
        fr.flags ∈ [c.FRAME_START, c.FRAME_IN_PROGRESS, c.FRAME_PARTIAL, c.FRAME_COMPLETE] →
        ((fr.flags &&& c.FRAME_IN_PROGRESS) > 0 ↔ fr.flags = c.FRAME_IN_PROGRESS)) := by
  have hlt : i < pool.length := (List.getElem?_eq_some_iff.mp hi).1
  have hflags : c.flagsDisjoint →
      fr.flags ∈ [c.FRAME_START, c.FRAME_IN_PROGRESS, c.FRAME_PARTIAL, c.FRAME_COMPLETE] →
      ((fr.flags &&& c.FRAME_IN_PROGRESS) > 0 ↔ fr.flags = c.FRAME_IN_PROGRESS) := by
    intro hd hm
    obtain ⟨h1, h2, h3, h4, h5, h6, h7, h8, h9, h10⟩ := hd
    have e23 : c.FRAME_PARTIAL &&& c.FRAME_IN_PROGRESS = 0 := by rw [Nat.and_comm]; exact h8
    have e24 : c.FRAME_COMPLETE &&& c.FRAME_IN_PROGRESS = 0 := by rw [Nat.and_comm]; exact h9
    simp only [List.mem_cons, List.mem_singleton, List.mem_nil_iff, or_false] at hm
    rcases hm with h | h | h | h
    · rw [h, h5]
      simp only [gt_iff_lt, lt_self_iff_false, false_iff]
      exact land_self_pos_of_disjoint h1 h5
    · rw [h, Nat.and_self]
      simp [h2]
    · rw [h, e23]
      simp only [gt_iff_lt, lt_self_iff_false, false_iff]
      exact land_self_pos_of_disjoint h3 e23
    · rw [h, e24]
      simp only [gt_iff_lt, lt_self_iff_false, false_iff]
      exact land_self_pos_of_disjoint h4 e24
  by_cases hnew : p.packetNumber = 0 ∨ p.frameId ≠ d._currentFrameId
  · have hacc := acceptPacket_new (c := c) hnew hptr hp hi hfit
    refine ⟨_, processPacket_not_last fuel hppf hok hnl hacc, ?_, ?_, hflags⟩
    · intro _
      refine ⟨?_, rfl, ⟨_, hptr ▸ derefFrame_ok rfl (List.getElem?_set_self hlt), rfl⟩, rfl⟩
      by_cases hf : (fr.flags &&& c.FRAME_IN_PROGRESS) > 0
      · simp [hf]
      · simp [hf]
    · intro h
      rcases hnew with h0 | h0
      · exact absurd h0 h.1
      · exact absurd h.2 h0
  · have hacc := acceptPacket_old (c := c) hnew hptr hp hi hfit
    refine ⟨_, processPacket_not_last fuel hppf hok hnl hacc, ?_, ?_, hflags⟩
    · intro h; exact absurd h hnew
    · intro _; rfl

/-- C2 at a concrete state: packet 0 of frame 6 arrives while frame 5 is still in
progress, so exactly one frame is counted as dropped. -/
theorem C2_dropped_on_new_frame_witness :
    ∃ d1, processPacket tinyConsts 3 (tinyDriver .PROGRESSIVE false 1 2)
        (tinyPacket 6 0 true 0) = .ok (d1, []) ∧
      d1._droppedFrameCounter = 1 ∧ d1._currentFrameId = 6 ∧ d1._packetsDone = 1 := by
  obtain ⟨d1, h1, h2, -⟩ :=
    C2_dropped_on_new_frame tinyConsts 3 (tinyDriver .PROGRESSIVE false 1 2)
      (tinyPacket 6 0 true 0) [tinyFrame 2 true, tinyFrame 0 false, tinyFrame 0 false] 0
      (tinyFrame 2 true) (by decide) rfl (by decide) rfl rfl rfl (by decide)
  obtain ⟨h3, h4, -, h5⟩ := h2 (Or.inl rfl)
  exact ⟨d1, h1, h3, h4, h5⟩

/-! ## The pool scan -/

/-- Started at `index`, the scan returns the first free slot `j ≥ index` when all slots
in `[index, j)` are locked and the budget exceeds `j - index`. -/
theorem fetchLoop_found (c : Consts) (h256 : c.USBTV_FRAME_POOL_SIZE ≤ 256) :
    ∀ (fuel index : Nat) (pool : List UsbTvFrame) (j : Nat) (g : UsbTvFrame),
      index ≤ j → j < c.USBTV_FRAME_POOL_SIZE → pool[j]? = some g → g.lock = false →
      (∀ k, index ≤ k → k < j → ∃ f, pool[k]? = some f ∧ f.lock = true) →
      j - index < fuel →
      fetchLoop c fuel index pool
        = .ok (j, pool.set j { g with lock := true, flags := c.FRAME_START })
  | 0, _, _, _, _, _, _, _, _, _, hfuel => by omega
  | fuel + 1, index, pool, j, g, hij, hjs, hj, hfree, hlocked, hfuel => by
    by_cases he : index = j
    · subst he
      simp [fetchLoop, hj, test_and_set, hfree]
    · have hlt : index < j := by omega
      obtain ⟨f, hf, hfl⟩ := hlocked index (le_refl _) hlt
      have h1 : (index + 1) % 256 = index + 1 := Nat.mod_eq_of_lt (by omega)
      have h2 : ¬ (index + 1 ≥ c.USBTV_FRAME_POOL_SIZE) := by omega
      have ih := fetchLoop_found c h256 fuel (index + 1) pool j g (by omega) hjs hj hfree
        (fun k hk1 hk2 => hlocked k (by omega) hk2) (by omega)
      simp only [fetchLoop, hf, test_and_set, hfl, h1]
      simp only [Bool.not_true, Bool.false_eq_true, if_false, if_neg h2]
      rw [lock_true_same hfl, list_set_same pool index f hf]
      exact ih

theorem fetchFrameFromPool_found {c : Consts} {fuel : Nat} {d : UsbTvDriver}
    {pool : List UsbTvFrame} {j : Nat} {g : UsbTvFrame}
    (h256 : c.USBTV_FRAME_POOL_SIZE ≤ 256) (hp : d._framePool = some pool)
    (hjs : j < c.USBTV_FRAME_POOL_SIZE) (hj : pool[j]? = some g) (hfree : g.lock = false)
    (hlocked : ∀ k, k < j → ∃ f, pool[k]? = some f ∧ f.lock = true) (hfuel : j < fuel) :
    fetchFrameFromPool c fuel d = .ok (j,
      { d with _framePool := some (pool.set j { g with lock := true, flags := c.FRAME_START }) })
    := by
  unfold fetchFrameFromPool
  rw [hp]
  simp only []
  rw [fetchLoop_found c h256 fuel 0 pool j g (Nat.zero_le _) hjs hj hfree
    (fun k _ hk => hlocked k hk) (by omega)]
  rfl

/-! ## Handoff -/

theorem notifyFrameComplete_deliver {c : Consts} {fuel : Nat} {d : UsbTvDriver}
    {pool : List UsbTvFrame} {i j : Nat} {fr g : UsbTvFrame}
    (hw : d._frameWait = true)
    (hptr : d._usbInputFrame = some i) (hp : d._framePool = some pool)
    (hi : pool[i]? = some fr) (hlock : fr.lock = true)
    (h256 : c.USBTV_FRAME_POOL_SIZE ≤ 256) (hjs : j < c.USBTV_FRAME_POOL_SIZE)
    (hj : pool[j]? = some g) (hfree : g.lock = false)
    (hlocked : ∀ k, k < j → ∃ f, pool[k]? = some f ∧ f.lock = true) (hfuel : j < fuel) :
    j ≠ i ∧
    notifyFrameComplete c fuel d = .ok
      ({ d with
          _frameWait := false, _processFrame := some i, _usbInputFrame := some j,
          _framePool := some ((pool.set i { fr with frameId := d._currentFrameId }).set j
            { g with lock := true, flags := c.FRAME_START }) },
        [Event.frameReady i { fr with frameId := d._currentFrameId }]) := by
  have hlt : i < pool.length := (List.getElem?_eq_some_iff.mp hi).1
  have hji : j ≠ i := by
    intro h
    subst h
    rw [hj] at hi
    cases hi
    rw [hfree] at hlock
    cases hlock
  refine ⟨hji, ?_⟩
  have hj2 : (pool.set i { fr with frameId := d._currentFrameId })[j]? = some g := by
    rw [List.getElem?_set_ne (Ne.symm hji)]; exact hj
  have hlocked2 : ∀ k, k < j →
      ∃ f, (pool.set i { fr with frameId := d._currentFrameId })[k]? = some f ∧
        f.lock = true := by
    intro k hk
    by_cases hki : k = i
    · subst hki
      exact ⟨_, List.getElem?_set_self hlt, hlock⟩
    · rw [List.getElem?_set_ne (Ne.symm hki)]
      exact hlocked k hk
  have hfetch := fetchFrameFromPool_found (c := c)
    (d := { d with _frameWait := false, _processFrame := some i,
                   _framePool := some (pool.set i { fr with frameId := d._currentFrameId }) })
    h256 rfl hjs hj2 hfree hlocked2 hfuel
  have hout : ((pool.set i { fr with frameId := d._currentFrameId }).set j
      { g with lock := true, flags := c.FRAME_START })[i]?
        = some { fr with frameId := d._currentFrameId } := by
    rw [List.getElem?_set_ne hji]
    exact List.getElem?_set_self hlt
  unfold notifyFrameComplete
  rw [if_pos hw]
  simp only [hptr, derefFrame, hp, hi, storeFrame, hlt, if_true, bind, Except.bind]
  simp only [hptr] at hfetch
  rw [hfetch]
  simp only [hout, pure, Except.pure, Option.getD_some]

theorem notifyFrameComplete_drop {c : Consts} {fuel : Nat} {d : UsbTvDriver}
    {pool : List UsbTvFrame} {i : Nat} {fr : UsbTvFrame}
    (hw : d._frameWait = false)
    (hptr : d._usbInputFrame = some i) (hp : d._framePool = some pool)
    (hi : pool[i]? = some fr) :
    notifyFrameComplete c fuel d = .ok
      ({ d with
          _droppedFrameCounter := d._droppedFrameCounter + 1,
          _framePool := some (pool.set i { fr with flags := c.FRAME_START }) },
        [Event.frameDropped d._currentFrameId]) := by
  have hlt : i < pool.length := (List.getElem?_eq_some_iff.mp hi).1
  unfold notifyFrameComplete
  rw [if_neg (by simp [hw])]
  simp only [hptr, derefFrame, hp, hi, storeFrame, hlt, if_true, bind, Except.bind, pure,
    Except.pure]

/-- C3: `notifyFrameComplete` on a state whose in-progress frame is pool slot `i`.
If a consumer is waiting, the in-progress frame holds its lock, and slot `j` is the first
free slot of the pool (within the scan budget), then the call signals exactly one delivery:
`_processFrame` is slot `i`, whose frame id is `_currentFrameId` and whose flags and bytes
are those the frame had; `_frameWait` is cleared; `_usbInputFrame` is the freshly fetched
slot `j ≠ i`, locked and flagged `FRAME_START`; `_droppedFrameCounter` is unchanged.
If no consumer is waiting, `_droppedFrameCounter` grows by one, the in-progress frame is
flagged `FRAME_START`, and `_usbInputFrame`, `_processFrame` and all frame locks are
unchanged. -/
theorem C3_handoff (c : Consts) (fuel : Nat) (d : UsbTvDriver) (pool : List UsbTvFrame)
    (i : Nat) (fr : UsbTvFrame)
    (hptr : d._usbInputFrame = some i) (hp : d._framePool = some pool)
    (hi : pool[i]? = some fr) :
    (d._frameWait = true → fr.lock = true → c.USBTV_FRAME_POOL_SIZE ≤ 256 →
      ∀ (j : Nat) (g : UsbTvFrame), j < c.USBTV_FRAME_POOL_SIZE → pool[j]? = some g →
        g.lock = false → (∀ k, k < j → ∃ f, pool[k]? = some f ∧ f.lock = true) → j < fuel →
        ∃ d1 out fresh,
          notifyFrameComplete c fuel d = .ok (d1, [Event.frameReady i out]) ∧
          d1._processFrame = some i ∧ derefFrame d1 d1._processFrame = .ok out ∧
          out.frameId = d._currentFrameId ∧ out.flags = fr.flags ∧ out.buffer = fr.buffer ∧
          d1._frameWait = false ∧
          d1._usbInputFrame = some j ∧ j ≠ i ∧
          derefFrame d1 d1._usbInputFrame = .ok fresh ∧
          fresh.flags = c.FRAME_START ∧ fresh.lock = true ∧
          d1._droppedFrameCounter = d._droppedFrameCounter) ∧
    (d._frameWait = false →
      ∃ d1 fr1,
        notifyFrameComplete c fuel d = .ok (d1, [Event.frameDropped d._currentFrameId]) ∧
        d1._droppedFrameCounter = d._droppedFrameCounter + 1 ∧
        derefFrame d1 d1._usbInputFrame = .ok fr1 ∧ fr1.flags = c.FRAME_START ∧
        d1._usbInputFrame = d._usbInputFrame ∧ d1._processFrame = d._processFrame ∧
        d1._framePool.map (List.map UsbTvFrame.lock)
          = d._framePool.map (List.map UsbTvFrame.lock)) := by
  have hlt : i < pool.length := (List.getElem?_eq_some_iff.mp hi).1
  constructor
  · intro hw hlock h256 j g hjs hj hfree hlocked hfuel
    obtain ⟨hji, hn⟩ := notifyFrameComplete_deliver (c := c) hw hptr hp hi hlock h256 hjs hj
      hfree hlocked hfuel
    have hjlt : j < pool.length := (List.getElem?_eq_some_iff.mp hj).1
    refine ⟨_, _, { g with lock := true, flags := c.FRAME_START }, hn, rfl, ?_, rfl, rfl, rfl,
      rfl, rfl, hji, ?_, rfl, rfl, rfl⟩
    · apply derefFrame_ok rfl
      rw [List.getElem?_set_ne hji]
      exact List.getElem?_set_self hlt
    · apply derefFrame_ok rfl
      exact List.getElem?_set_self (by simpa using hjlt)
  · intro hw
    refine ⟨_, { fr with flags := c.FRAME_START },
      notifyFrameComplete_drop (c := c) hw hptr hp hi, rfl, ?_, rfl, rfl, rfl, ?_⟩
    · exact hptr ▸ derefFrame_ok rfl (List.getElem?_set_self hlt)
    · simp only [hp, Option.map_some']
      rw [map_set_same UsbTvFrame.lock pool i fr { fr with flags := c.FRAME_START } hi rfl]

/-- C3 at concrete states: with a consumer waiting, slot 0 is delivered and slot 1 becomes
the in-progress frame; with nobody waiting the frame is dropped in place. -/
theorem C3_handoff_witness :
    (∃ d1 out, notifyFrameComplete tinyConsts 3 (tinyDriver .PROGRESSIVE true 3 8)
        = .ok (d1, [Event.frameReady 0 out]) ∧
      out.frameId = 5 ∧ out.flags = 8 ∧ d1._usbInputFrame = some 1 ∧
      d1._droppedFrameCounter = 0) ∧
    (∃ d1, notifyFrameComplete tinyConsts 3 (tinyDriver .PROGRESSIVE false 3 8)
        = .ok (d1, [Event.frameDropped 5]) ∧
      d1._droppedFrameCounter = 1 ∧ d1._usbInputFrame = some 0) := by
  constructor
  · obtain ⟨d1, out, _, h1, _, _, h4, h5, _, _, h8, _, _, _, _, h13⟩ :=
      (C3_handoff tinyConsts 3 (tinyDriver .PROGRESSIVE true 3 8)
        [tinyFrame 8 true, tinyFrame 0 false, tinyFrame 0 false] 0 (tinyFrame 8 true)
        rfl rfl rfl).1 rfl rfl (by decide) 1 (tinyFrame 0 false) (by decide) rfl rfl
        (by
          intro k hk
          have : k = 0 := by omega
          subst this
          exact ⟨_, rfl, rfl⟩)
        (by decide)
    exact ⟨d1, out, h1, h4, h5, h8, h13⟩
  · obtain ⟨d1, _, h1, h2, _, _, h5, _⟩ :=
      (C3_handoff tinyConsts 3 (tinyDriver .PROGRESSIVE false 3 8)
        [tinyFrame 8 true, tinyFrame 0 false, tinyFrame 0 false] 0 (tinyFrame 8 true)
        rfl rfl rfl).2 rfl
    exact ⟨d1, h1, h2, h5⟩

/-! ## The discard scenario -/

theorem free_slot_preserved {pool : List UsbTvFrame} {i j : Nat} {fr g : UsbTvFrame}
    (fr1 : UsbTvFrame)
    (hi : pool[i]? = some fr) (hlock : fr.lock = true) (hl1 : fr1.lock = true)
    (hj : pool[j]? = some g) (hfree : g.lock = false)
    (hlocked : ∀ k, k < j → ∃ f, pool[k]? = some f ∧ f.lock = true) :
    (pool.set i fr1)[i]? = some fr1 ∧ (pool.set i fr1)[j]? = some g ∧
    ∀ k, k < j → ∃ f, (pool.set i fr1)[k]? = some f ∧ f.lock = true := by
  have hlt : i < pool.length := (List.getElem?_eq_some_iff.mp hi).1
  have hji : j ≠ i := by
    intro h
    subst h
    rw [hj] at hi
    cases hi
    rw [hfree] at hlock
    cases hlock
  refine ⟨List.getElem?_set_self hlt, ?_, ?_⟩
  · rw [List.getElem?_set_ne (Ne.symm hji)]; exact hj
  · intro k hk
    by_cases hki : k = i
    · subst hki
      exact ⟨_, List.getElem?_set_self hlt, hl1⟩
    · rw [List.getElem?_set_ne (Ne.symm hki)]
      exact hlocked k hk

theorem discardOdd_accept {c : Consts} {N f i j k : Nat} {d : UsbTvDriver} {pay : List Nat}
    (hN16 : N < 2 ^ 16) (hinv : DiscardOddInv c N f i j d k) (hk : k < N)
    (hpay : c.USBTV_PAYLOAD_SIZE ≤ pay.length) :
    ∃ d1, acceptPacket c d
        { frameOk := true, frameId := f, packetNumber := k, isOdd := true, payload := pay }
        = .ok d1 ∧
      DiscardOddInv c N f i j d1 (k + 1) := by
  obtain ⟨hscan, hppf, hwait, hptr, hcnt, pool, fr, g, hp, hi, hlock, hbuf, hj, hfree,
    hlocked⟩ := hinv
  have hmul : k * c.USBTV_PAYLOAD_SIZE + c.USBTV_PAYLOAD_SIZE ≤ N * c.USBTV_PAYLOAD_SIZE := by
    have := Nat.mul_le_mul_right c.USBTV_PAYLOAD_SIZE (show k + 1 ≤ N by omega)
    rw [Nat.add_mul, Nat.one_mul] at this
    exact this
  have hmod := Nat.mod_le (k * c.USBTV_PAYLOAD_SIZE) (2 ^ 32)
  have hfit : writeFits c d._scanType d._frameWidth
      { frameOk := true, frameId := f, packetNumber := k, isOdd := true, payload := pay }
      fr.buffer := by
    rw [hscan]
    simp only [writeFits]
    intro _
    exact ⟨by omega, hpay⟩
  have hlen := writtenBuffer_length hfit
  by_cases hnew : k = 0 ∨ f ≠ d._currentFrameId
  · have hk0 : k = 0 := by
      rcases hnew with h | h
      · exact h
      · by_contra hk0
        exact h (hcnt hk0).1.symm
    refine ⟨_, acceptPacket_new (c := c) hnew hptr hp hi hfit, hscan, hppf, hwait, hptr, ?_, ?_⟩
    · intro _
      exact ⟨rfl, by simp [hk0]⟩
    · obtain ⟨e1, e2, e3⟩ := free_slot_preserved ({ fr with
          flags := c.FRAME_IN_PROGRESS,
          buffer := (writtenBuffer c d._scanType d._frameWidth
            { frameOk := true, frameId := f, packetNumber := k, isOdd := true, payload := pay }
            fr.buffer) } : UsbTvFrame) hi hlock hlock hj hfree hlocked
      exact ⟨_, _, g, rfl, e1, hlock, by rw [hlen]; exact hbuf, e2, hfree, e3⟩
  · have hk0 : k ≠ 0 := fun h => hnew (Or.inl h)
    refine ⟨_, acceptPacket_old (c := c) hnew hptr hp hi hfit, hscan, hppf, hwait, hptr, ?_, ?_⟩
    · intro _
      refine ⟨(hcnt hk0).1, ?_⟩
      show (d._packetsDone + 1) % 2 ^ 16 = k + 1
      rw [(hcnt hk0).2]
      exact Nat.mod_eq_of_lt (by omega)
    · obtain ⟨e1, e2, e3⟩ := free_slot_preserved ({ fr with
          buffer := (writtenBuffer c d._scanType d._frameWidth
            { frameOk := true, frameId := f, packetNumber := k, isOdd := true, payload := pay }
            fr.buffer) } : UsbTvFrame) hi hlock hlock hj hfree hlocked
      exact ⟨_, _, g, rfl, e1, hlock, by rw [hlen]; exact hbuf, e2, hfree, e3⟩

theorem feed_cons_ok {c : Consts} {fuel : Nat} {d d1 d2 : UsbTvDriver} {p : Packet}
    {ps : List Packet} {e1 e2 : List Event} (h1 : processPacket c fuel d p = .ok (d1, e1))
    (h2 : feed c fuel d1 ps = .ok (d2, e2)) :
    feed c fuel d (p :: ps) = .ok (d2, e1 ++ e2) := by
  simp [feed, h1, h2, bind, Except.bind, pure, Except.pure]

theorem discardOdd_last {c : Consts} {fuel N f i j : Nat} {d : UsbTvDriver} {pay : List Nat}
    (hN : 0 < N) (hN16 : N < 2 ^ 16) (h256 : c.USBTV_FRAME_POOL_SIZE ≤ 256)
    (hjs : j < c.USBTV_FRAME_POOL_SIZE) (hfuel : j < fuel)
    (hinv : DiscardOddInv c N f i j d (N - 1))
    (hpay : c.USBTV_PAYLOAD_SIZE ≤ pay.length) :
    ∃ d1 out, processPacket c fuel d
        { frameOk := true, frameId := f, packetNumber := N - 1, isOdd := true, payload := pay }
        = .ok (d1, [Event.frameReady i out]) ∧
      out.frameId = f ∧ out.flags = c.FRAME_COMPLETE ∧ DiscardEvenInv N d1 := by
  obtain ⟨da, hacc, hinva⟩ := discardOdd_accept hN16 hinv (by omega) hpay
  have hppf0 : d._packetsPerField = N := hinv.2.1
  have hproc := processPacket_last fuel (c := c) (d := d) (by omega) rfl
    (show N - 1 < d._packetsPerField by omega) (show N - 1 = d._packetsPerField - 1 by omega)
    hacc
  obtain ⟨hscan, hppf, hwait, hptr, hcnt, pool, fr, g, hp, hi, hlock, hbuf, hj, hfree,
    hlocked⟩ := hinva
  have hN1 : N - 1 + 1 = N := by omega
  obtain ⟨hcur, hdone⟩ := hcnt (by omega)
  have hmark := markFinishedFrame_ok c hptr hp hi
  rw [if_neg (by rw [hdone, hppf, hN1]; simp)] at hmark
  obtain ⟨e1, e2, e3⟩ := free_slot_preserved ({ fr with flags := c.FRAME_COMPLETE })
    hi hlock hlock hj hfree hlocked
  obtain ⟨hji, hdel⟩ := notifyFrameComplete_deliver (c := c)
    (d := { da with _framePool := some (pool.set i { fr with flags := c.FRAME_COMPLETE }) })
    hwait hptr rfl e1 hlock h256 hjs e2 hfree e3 hfuel
  have hjlt : j < pool.length := (List.getElem?_eq_some_iff.mp hj).1
  have hchk : processPacket c fuel d
      { frameOk := true, frameId := f, packetNumber := N - 1, isOdd := true, payload := pay }
      = notifyFrameComplete c fuel
        { da with _framePool := some (pool.set i { fr with flags := c.FRAME_COMPLETE }) } := by
    rw [hproc]
    unfold checkFinishedFrame
    rw [hmark]
    simp only [bind, Except.bind, dispatchFinishedFrame, hscan, if_true]
  rw [hdel] at hchk
  exact ⟨_, _, hchk, hcur, rfl, hscan, hppf, j, _,
    { g with lock := true, flags := c.FRAME_START }, rfl, rfl,
    List.getElem?_set_self (by simpa using hjlt)⟩

theorem discardOdd_feed {c : Consts} {fuel N f i j : Nat} {pay : Nat → List Nat}
    (hN : 0 < N) (hN16 : N < 2 ^ 16) (h256 : c.USBTV_FRAME_POOL_SIZE ≤ 256)
    (hjs : j < c.USBTV_FRAME_POOL_SIZE) (hfuel : j < fuel)
    (hpay : ∀ k, k < N → c.USBTV_PAYLOAD_SIZE ≤ (pay k).length) :
    ∀ (m k : Nat) (d : UsbTvDriver), k + m + 1 = N → DiscardOddInv c N f i j d k →
      ∃ d1 out, feed c fuel d (fieldPackets f true pay k (m + 1))
          = .ok (d1, [Event.frameReady i out]) ∧
        out.frameId = f ∧ out.flags = c.FRAME_COMPLETE ∧ DiscardEvenInv N d1
  | 0, k, d, hkm, hinv => by
    have hk : k = N - 1 := by omega
    subst hk
    obtain ⟨d1, out, h1, h2, h3, h4⟩ :=
      discardOdd_last hN hN16 h256 hjs hfuel hinv (hpay (N - 1) (by omega))
    refine ⟨d1, out, ?_, h2, h3, h4⟩
    have := feed_cons_ok h1 (show feed c fuel d1 [] = .ok (d1, []) from rfl)
    simpa [fieldPackets] using this
  | m + 1, k, d, hkm, hinv => by
    obtain ⟨da, hacc, hinva⟩ := discardOdd_accept hN16 hinv (by omega) (hpay k (by omega))
    have hppf0 : d._packetsPerField = N := hinv.2.1
    have hproc := processPacket_not_last fuel (c := c) (d := d) (by omega) rfl
      (show k < d._packetsPerField - 1 by omega) hacc
    obtain ⟨d1, out, h1, h2, h3, h4⟩ :=
      discardOdd_feed hN hN16 h256 hjs hfuel hpay m (k + 1) da (by omega) hinva
    refine ⟨d1, out, ?_, h2, h3, h4⟩
    have := feed_cons_ok hproc h1
    simpa [fieldPackets, List.range'_succ] using this

theorem discardEven_process {c : Consts} (fuel f : Nat) (pay : List Nat) {N k : Nat}
    {d : UsbTvDriver} (hN16 : N < 2 ^ 16) (hinv : DiscardEvenInv N d) (hk : k < N) :
    ∃ d1, processPacket c fuel d
        { frameOk := true, frameId := f, packetNumber := k, isOdd := false, payload := pay }
        = .ok (d1, []) ∧
      DiscardEvenInv N d1 ∧ d1.buffers = d.buffers := by
  obtain ⟨hscan, hppf, i, pool, fr, hptr, hp, hi⟩ := hinv
  have hlt : i < pool.length := (List.getElem?_eq_some_iff.mp hi).1
  have hfit : writeFits c d._scanType d._frameWidth
      { frameOk := true, frameId := f, packetNumber := k, isOdd := false, payload := pay }
      fr.buffer := by
    rw [hscan]
    simp [writeFits]
  have hwb : writtenBuffer c d._scanType d._frameWidth
      { frameOk := true, frameId := f, packetNumber := k, isOdd := false, payload := pay }
      fr.buffer = fr.buffer := by
    rw [hscan]
    simp [writtenBuffer]
  -- the state after the packet has been counted
  have hacc : ∃ da fa, acceptPacket c d
      { frameOk := true, frameId := f, packetNumber := k, isOdd := false, payload := pay }
      = .ok da ∧ da._scanType = ScanType.DISCARD ∧ da._packetsPerField = N ∧
      da._usbInputFrame = some i ∧ da._framePool = some (pool.set i fa) ∧
      fa.buffer = fr.buffer := by
    by_cases hnew : k = 0 ∨ f ≠ d._currentFrameId
    · exact ⟨_, _, acceptPacket_new (c := c) hnew hptr hp hi hfit, hscan, hppf, hptr, rfl, hwb⟩
    · exact ⟨_, _, acceptPacket_old (c := c) hnew hptr hp hi hfit, hscan, hppf, hptr, rfl, hwb⟩
  obtain ⟨da, fa, hacc, hscana, hppfa, hptra, hpa, hfa⟩ := hacc
  have hbufa : da.buffers = d.buffers := by
    simp only [UsbTvDriver.buffers, hpa, hp, Option.map_some']
    rw [map_set_same UsbTvFrame.buffer pool i fr fa hi hfa]
  by_cases hlast : k = N - 1
  · have hproc := processPacket_last fuel (c := c) (d := d) (by omega) rfl
      (show k < d._packetsPerField by omega) (show k = d._packetsPerField - 1 by omega) hacc
    have hia : (pool.set i fa)[i]? = some fa := List.getElem?_set_self hlt
    have hmark := markFinishedFrame_ok c hptra hpa hia
    obtain ⟨dm, fm, hmarkd, hscanm, hppfm, hptrm, hpm, hfm⟩ :
        ∃ dm fm, markFinishedFrame c da = .ok dm ∧ dm._scanType = ScanType.DISCARD ∧
          dm._packetsPerField = N ∧ dm._usbInputFrame = some i ∧
          dm._framePool = some ((pool.set i fa).set i fm) ∧ fm.buffer = fa.buffer := by
      by_cases hpd : da._packetsDone = da._packetsPerField
      · rw [if_neg (not_not.mpr hpd)] at hmark
        exact ⟨_, _, hmark, hscana, hppfa, hptra, rfl, rfl⟩
      · rw [if_pos hpd] at hmark
        exact ⟨_, _, hmark, hscana, hppfa, hptra, rfl, rfl⟩
    have hchk : checkFinishedFrame c fuel da false = .ok (dm, []) := by
      unfold checkFinishedFrame
      rw [hmarkd]
      simp [bind, Except.bind, dispatchFinishedFrame, hscanm, pure, Except.pure]
    refine ⟨dm, hproc.trans hchk,
      ⟨hscanm, hppfm, i, _, _, hptrm, hpm, List.getElem?_set_self (by simpa using hlt)⟩, ?_⟩
    rw [← hbufa]
    simp only [UsbTvDriver.buffers, hpa, hpm, Option.map_some']
    rw [map_set_same UsbTvFrame.buffer (pool.set i fa) i fa fm hia hfm]
  · have hproc := processPacket_not_last fuel (c := c) (d := d) (by omega) rfl
      (show k < d._packetsPerField - 1 by omega) hacc
    exact ⟨da, hproc, ⟨hscana, hppfa, i, _, _, hptra, hpa, List.getElem?_set_self hlt⟩, hbufa⟩

theorem discardEven_feed {c : Consts} (fuel f : Nat) (pay : Nat → List Nat) {N : Nat}
    (hN16 : N < 2 ^ 16) :
    ∀ (m k : Nat) (d : UsbTvDriver), k + m ≤ N → DiscardEvenInv N d →
      ∃ d1, feed c fuel d (fieldPackets f false pay k m) = .ok (d1, []) ∧
        DiscardEvenInv N d1 ∧ d1.buffers = d.buffers
  | 0, _, d, _, hinv => ⟨d, rfl, hinv, rfl⟩
  | m + 1, k, d, hkm, hinv => by
    obtain ⟨da, hproc, hinva, hbufa⟩ :=
      discardEven_process (c := c) fuel f (pay k) hN16 hinv
        (show k < N by omega)
    obtain ⟨d1, h1, h2, h3⟩ := discardEven_feed fuel f pay hN16 m (k + 1) da (by omega) hinva
    refine ⟨d1, ?_, h2, h3.trans hbufa⟩
    have := feed_cons_ok hproc h1
    simpa [fieldPackets, List.range'_succ] using this

theorem ConsumerMoved.evenInv {N : Nat} {d d1 : UsbTvDriver} (h : ConsumerMoved d d1)
    (hinv : DiscardEvenInv N d) : DiscardEvenInv N d1 := by
  obtain ⟨h1, h2⟩ := h
  obtain ⟨hscan, hppf, i, pool, fr, hptr, hp, hi⟩ := hinv
  have e1 : d1._scanType = d._scanType := by
    simpa using congrArg UsbTvDriver._scanType h1
  have e2 : d1._packetsPerField = d._packetsPerField := by
    simpa using congrArg UsbTvDriver._packetsPerField h1
  have e3 : d1._usbInputFrame = d._usbInputFrame := by
    simpa using congrArg UsbTvDriver._usbInputFrame h1
  have hlt : i < pool.length := (List.getElem?_eq_some_iff.mp hi).1
  rw [hp] at h2
  cases hp1 : d1._framePool with
  | none => rw [hp1] at h2; simp at h2
  | some pool1 =>
    rw [hp1] at h2
    simp only [Option.map_some', Option.some.injEq] at h2
    have hlen : pool1.length = pool.length := by
      have := congrArg List.length h2
      simpa using this
    have hlt1 : i < pool1.length := by omega
    exact ⟨e1.trans hscan, e2.trans hppf, i, pool1, pool1[i], e3.trans hptr, hp1,
      List.getElem?_eq_getElem hlt1⟩

/-- C4: discard mode, `N > 0` packets per field, in-progress frame in slot `i` holding its
lock with room for `N` payloads, a consumer waiting and a free slot within the scan budget.
Feeding the valid odd-field packets `0 .. N-1` of frame `f` in order yields exactly one
delivery, of slot `i`, with `frameId = f` and flags `FRAME_COMPLETE`. From the state reached,
whatever the consumer has done meanwhile (waiting again, releasing locks), feeding the valid
even-field packets `0 .. N-1` of frame `f` yields no delivery and leaves the bytes of every
frame buffer unchanged. -/
theorem C4_discard_scenario (c : Consts) (fuel N f : Nat) (d : UsbTvDriver)
    (odd even : Nat → List Nat) (pool : List UsbTvFrame) (i j : Nat) (fr g : UsbTvFrame)
    (hN : 0 < N) (hN16 : N < 2 ^ 16)
    (hscan : d._scanType = ScanType.DISCARD) (hppf : d._packetsPerField = N)
    (hwait : d._frameWait = true)
    (hptr : d._usbInputFrame = some i) (hp : d._framePool = some pool)
    (hi : pool[i]? = some fr) (hlock : fr.lock = true)
    (hbuf : N * c.USBTV_PAYLOAD_SIZE ≤ fr.buffer.length)
    (hpay : ∀ k, k < N → c.USBTV_PAYLOAD_SIZE ≤ (odd k).length)
    (h256 : c.USBTV_FRAME_POOL_SIZE ≤ 256) (hjs : j < c.USBTV_FRAME_POOL_SIZE)
    (hj : pool[j]? = some g) (hfree : g.lock = false)
    (hlocked : ∀ k, k < j → ∃ f1, pool[k]? = some f1 ∧ f1.lock = true) (hfuel : j < fuel) :
    ∃ d1 out,
      feed c fuel d (fieldPackets f true odd 0 N) = .ok (d1, [Event.frameReady i out]) ∧
      out.frameId = f ∧ out.flags = c.FRAME_COMPLETE ∧
      ∀ d2, ConsumerMoved d1 d2 →
        ∃ d3, feed c fuel d2 (fieldPackets f false even 0 N) = .ok (d3, []) ∧
          d3.buffers = d2.buffers := by
  have hinv : DiscardOddInv c N f i j d 0 :=
    ⟨hscan, hppf, hwait, hptr, fun h => absurd rfl h, pool, fr, g, hp, hi, hlock, hbuf, hj,
      hfree, hlocked⟩
  obtain ⟨m, hm⟩ : ∃ m, N = m + 1 := ⟨N - 1, by omega⟩
  obtain ⟨d1, out, h1, h2, h3, h4⟩ :=
    discardOdd_feed (f := f) hN hN16 h256 hjs hfuel hpay m 0 d (by omega) hinv
  rw [← hm] at h1
  refine ⟨d1, out, h1, h2, h3, ?_⟩
  intro d2 hmoved
  obtain ⟨d3, h5, _, h6⟩ :=
    discardEven_feed (c := c) fuel f even hN16 N 0 d2 (by omega) (hmoved.evenInv h4)
  exact ⟨d3, h5, h6⟩

/-- C4 at the instance of the spec: frame id 5, three packets per field. -/
theorem C4_discard_scenario_witness :
    ∃ d1 out d3,
      feed tinyConsts 3 (tinyDriver .DISCARD true 0 1)
        (fieldPackets 5 true (fun k => List.replicate 12 k) 0 3)
        = .ok (d1, [Event.frameReady 0 out]) ∧
      out.frameId = 5 ∧ out.flags = tinyConsts.FRAME_COMPLETE ∧
      feed tinyConsts 3 { d1 with _frameWait := true }
        (fieldPackets 5 false (fun k => List.replicate 12 (k + 7)) 0 3) = .ok (d3, []) ∧
      d3.buffers = d1.buffers := by
  obtain ⟨d1, out, h1, h2, h3, h4⟩ :=
    C4_discard_scenario tinyConsts 3 3 5 (tinyDriver .DISCARD true 0 1)
      (fun k => List.replicate 12 k) (fun k => List.replicate 12 (k + 7))
      [tinyFrame 1 true, tinyFrame 0 false, tinyFrame 0 false] 0 1 (tinyFrame 1 true)
      (tinyFrame 0 false) (by decide) (by decide) rfl rfl rfl rfl rfl rfl rfl (by decide)
      (fun k _ => by simp [tinyConsts]) (by decide) (by decide) rfl rfl
      (by
        intro k hk
        have : k = 0 := by omega
        subst this
        exact ⟨_, rfl, rfl⟩)
      (by decide)
  obtain ⟨d3, h5, h6⟩ := h4 { d1 with _frameWait := true } ⟨rfl, rfl⟩
  exact ⟨d1, out, d3, h1, h2, h3, h5, h6⟩

/-! ## Interleaved finalization -/

/-- The interleaved branch of the dispatch, case by case: with `_secondFrame` unset an odd
field sets it and an even field does nothing, neither calling `notifyFrameComplete`; with
`_secondFrame` set, a field of either parity calls `notifyFrameComplete` and the flag is
cleared. -/
theorem dispatchFinishedFrame_interleaved (c : Consts) (fuel : Nat) (d : UsbTvDriver)
    (isOdd : Bool) (hscan : d._scanType = ScanType.INTERLEAVED) :
    (d._secondFrame = false → isOdd = true →
      dispatchFinishedFrame c fuel d isOdd = .ok ({ d with _secondFrame := true }, [])) ∧
    (d._secondFrame = false → isOdd = false →
      dispatchFinishedFrame c fuel d isOdd = .ok (d, [])) ∧
    (d._secondFrame = true →
      dispatchFinishedFrame c fuel d isOdd =
        (notifyFrameComplete c fuel d >>= fun r =>
          pure ({ r.1 with _secondFrame := false }, r.2))) := by
  unfold dispatchFinishedFrame
  rw [hscan]
  refine ⟨?_, ?_, ?_⟩
  · intro h1 h2
    simp [h1, h2, pure, Except.pure]
  · intro h1 h2
    simp [h1, h2, pure, Except.pure]
  · intro h1
    simp [h1]

/-- C5: in interleaved mode, finalizing an odd field while `_secondFrame` is already set
calls `notifyFrameComplete` and clears the flag: with a consumer waiting the frame is
delivered. The state arises from the packets of an odd field, an even field whose last
packet is lost, and the next odd field; the only delivery happens at the second odd
field. -/
theorem C5_odd_field_delivers_when_flag_set :
    (∃ d1 out,
      checkFinishedFrame tinyConsts 3
        { tinyDriver .INTERLEAVED true 3 2 with _secondFrame := true } true
        = .ok (d1, [Event.frameReady 0 out]) ∧ d1._secondFrame = false) ∧
    (∃ d1 d2 out,
      feed tinyConsts 3 (tinyDriver .INTERLEAVED true 0 1)
        (fieldPackets 5 true (fun k => List.replicate 12 k) 0 3 ++
          fieldPackets 5 false (fun k => List.replicate 12 k) 0 2) = .ok (d1, []) ∧
      d1._secondFrame = true ∧
      feed tinyConsts 3 d1 (fieldPackets 6 true (fun k => List.replicate 12 k) 0 3)
        = .ok (d2, [Event.frameReady 0 out]) ∧
      out.frameId = 6 ∧ d2._secondFrame = false) := by
  refine ⟨⟨_, _, rfl, rfl⟩, ⟨_, _, _, rfl, rfl, rfl, rfl, rfl⟩⟩

/-! ## Progressive reassembly -/

theorem blit_append {pre rest p : List Nat} {off n : Nat} (hpre : pre.length = off)
    (hp : p.length = n) (hrest : n ≤ rest.length) :
    blit (pre ++ rest) off p 0 n = pre ++ p ++ rest.drop n := by
  subst hpre
  subst hp
  simp [blit, List.take_left, List.drop_append]

theorem blit_take_drop {buf p : List Nat} {off n : Nat} (hp : p.length = n)
    (hfit : off + n ≤ buf.length) :
    blit buf off p 0 n = buf.take off ++ p ++ buf.drop (off + n) := by
  subst hp
  simp [blit]

theorem progressiveWriteAll_ok (c : Consts) (i : Nat) :
    ∀ (ps : List (List Nat)) (d : UsbTvDriver) (pool : List UsbTvFrame) (fr : UsbTvFrame)
      (pre rest : List Nat) (n : Nat),
      d._usbInputFrame = some i → d._framePool = some pool → pool[i]? = some fr →
      fr.buffer = pre ++ rest → pre.length = n * c.USBTV_PAYLOAD_SIZE →
      (∀ p ∈ ps, p.length = c.USBTV_PAYLOAD_SIZE) →
      rest.length = ps.length * c.USBTV_PAYLOAD_SIZE →
      (n + ps.length) * c.USBTV_PAYLOAD_SIZE < 2 ^ 32 →
      progressiveWriteAll c d ps n = .ok
        { d with _framePool := some (pool.set i { fr with buffer := pre ++ ps.flatten }) }
  | [], d, pool, fr, pre, rest, n, hptr, hp, hi, hbuf, hpre, hps, hrest, h32 => by
    have hr : rest = [] := by
      apply List.eq_nil_of_length_eq_zero
      simpa using hrest
    have hfr : ({ fr with buffer := pre ++ ([] : List (List Nat)).flatten } : UsbTvFrame) = fr := by
      cases fr
      simp at hbuf
      simp [hbuf, hr]
    rw [hfr, set_same hp hi]
    rfl
  | p :: ps, d, pool, fr, pre, rest, n, hptr, hp, hi, hbuf, hpre, hps, hrest, h32 => by
    have hlt : i < pool.length := (List.getElem?_eq_some_iff.mp hi).1
    have hpl : p.length = c.USBTV_PAYLOAD_SIZE := hps p (List.mem_cons_self _ _)
    have hrl : rest.length = c.USBTV_PAYLOAD_SIZE + ps.length * c.USBTV_PAYLOAD_SIZE := by
      rw [hrest, List.length_cons, Nat.add_mul, Nat.one_mul, Nat.add_comm]
    have hsum : (n + (ps.length + 1)) * c.USBTV_PAYLOAD_SIZE
        = n * c.USBTV_PAYLOAD_SIZE + (c.USBTV_PAYLOAD_SIZE
          + ps.length * c.USBTV_PAYLOAD_SIZE) := by
      rw [Nat.add_mul, Nat.add_mul, Nat.one_mul, Nat.add_comm (ps.length * _)]
    rw [List.length_cons, hsum] at h32
    have hmod : (n * c.USBTV_PAYLOAD_SIZE) % 2 ^ 32 = n * c.USBTV_PAYLOAD_SIZE :=
      Nat.mod_eq_of_lt (by omega)
    have hstep := packetToProgressiveFrame_ok (c := c) (n := n) hptr hp hi
      (by rw [hmod, hbuf, List.length_append, hpre, hrl]; omega) (le_of_eq hpl.symm)
    rw [hmod, hbuf, blit_append hpre hpl (by omega)] at hstep
    obtain ⟨fr1, hfr1⟩ : ∃ fr1 : UsbTvFrame,
        fr1 = { fr with buffer := pre ++ p ++ List.drop c.USBTV_PAYLOAD_SIZE rest } :=
      ⟨_, rfl⟩
    obtain ⟨d1, hd1⟩ : ∃ d1 : UsbTvDriver,
        d1 = { d with _framePool := some (pool.set i fr1) } := ⟨_, rfl⟩
    rw [← hfr1, ← hd1] at hstep
    have h32a : (n + 1 + ps.length) * c.USBTV_PAYLOAD_SIZE < 2 ^ 32 := by
      have : (n + 1 + ps.length) * c.USBTV_PAYLOAD_SIZE
          = n * c.USBTV_PAYLOAD_SIZE + (c.USBTV_PAYLOAD_SIZE
            + ps.length * c.USBTV_PAYLOAD_SIZE) := by
        rw [Nat.add_mul, Nat.add_mul, Nat.one_mul, Nat.add_assoc]
      rw [this]; exact h32
    have ih := progressiveWriteAll_ok c i ps d1 (pool.set i fr1) fr1 (pre ++ p)
      (List.drop c.USBTV_PAYLOAD_SIZE rest) (n + 1) (by rw [hd1]; exact hptr) (by rw [hd1])
      (List.getElem?_set_self hlt) (by rw [hfr1])
      (by rw [List.length_append, hpre, hpl, Nat.add_mul, Nat.one_mul])
      (fun q hq => hps q (List.mem_cons_of_mem _ hq))
      (by rw [List.length_drop, hrl]; omega) h32a
    simp only [progressiveWriteAll, bind, Except.bind, hstep]
    rw [ih, hd1, hfr1]
    simp [List.set_set, List.append_assoc]

/-- C6: for a progressive buffer of `N * USBTV_PAYLOAD_SIZE` bytes (a size that fits the
`uint32_t` offset arithmetic), every single call of `packetToProgressiveFrame` with a
payload of `USBTV_PAYLOAD_SIZE` bytes and packet number `n < N` replaces exactly the bytes
`[n * PAYLOAD, (n + 1) * PAYLOAD)` of the in-progress buffer by the payload and changes
nothing else; and calling it for packets `0 .. N-1` in order leaves the buffer equal to the
concatenation of the payloads, whatever it held before. -/
theorem C6_progressive_round_trip (c : Consts) (d : UsbTvDriver) (pool : List UsbTvFrame)
    (i : Nat) (fr : UsbTvFrame) (payloads : List (List Nat))
    (hptr : d._usbInputFrame = some i) (hp : d._framePool = some pool)
    (hi : pool[i]? = some fr)
    (hlen : ∀ p ∈ payloads, p.length = c.USBTV_PAYLOAD_SIZE)
    (hbuf : fr.buffer.length = payloads.length * c.USBTV_PAYLOAD_SIZE)
    (h32 : payloads.length * c.USBTV_PAYLOAD_SIZE < 2 ^ 32) :
    progressiveWriteAll c d payloads 0 = .ok
      { d with _framePool := some (pool.set i { fr with buffer := payloads.flatten }) } ∧
    ∀ (n : Nat) (packet : List Nat), n < payloads.length →
      packet.length = c.USBTV_PAYLOAD_SIZE →
      packetToProgressiveFrame c d packet n = .ok
        { d with _framePool := some (pool.set i { fr with buffer :=
            (fr.buffer.take (n * c.USBTV_PAYLOAD_SIZE) ++ packet
              ++ fr.buffer.drop ((n + 1) * c.USBTV_PAYLOAD_SIZE)) }) } := by
  constructor
  · have := progressiveWriteAll_ok c i payloads d pool fr [] fr.buffer 0 hptr hp hi rfl
      (by simp) hlen hbuf (by simpa using h32)
    simpa using this
  · intro n packet hn hpl
    have hle : (n + 1) * c.USBTV_PAYLOAD_SIZE ≤ payloads.length * c.USBTV_PAYLOAD_SIZE :=
      Nat.mul_le_mul_right _ hn
    have hexp : (n + 1) * c.USBTV_PAYLOAD_SIZE
        = n * c.USBTV_PAYLOAD_SIZE + c.USBTV_PAYLOAD_SIZE := by
      rw [Nat.add_mul, Nat.one_mul]
    have hmod : (n * c.USBTV_PAYLOAD_SIZE) % 2 ^ 32 = n * c.USBTV_PAYLOAD_SIZE :=
      Nat.mod_eq_of_lt (by omega)
    have hstep := packetToProgressiveFrame_ok (c := c) (n := n) hptr hp hi
      (by rw [hmod, hbuf]; omega) (le_of_eq hpl.symm)
    rw [hmod, blit_take_drop hpl (by rw [hbuf]; omega), ← hexp] at hstep
    exact hstep

/-- C6 at a concrete buffer: three payloads of twelve bytes over a 36-byte buffer of
zeros. -/
theorem C6_progressive_round_trip_witness :
    ∃ d1 fr1,
      progressiveWriteAll tinyConsts
        { tinyDriver .PROGRESSIVE false 0 1 with
          _framePool := some [{ tinyFrame 1 true with buffer := List.replicate 36 0 }] }
        [List.replicate 12 1, List.replicate 12 2, List.replicate 12 3] 0 = .ok d1 ∧
      derefFrame d1 d1._usbInputFrame = .ok fr1 ∧
      fr1.buffer = List.replicate 12 1 ++ List.replicate 12 2 ++ List.replicate 12 3 := by
  have h := (C6_progressive_round_trip tinyConsts
    { tinyDriver .PROGRESSIVE false 0 1 with
      _framePool := some [{ tinyFrame 1 true with buffer := List.replicate 36 0 }] }
    [{ tinyFrame 1 true with buffer := List.replicate 36 0 }] 0
    { tinyFrame 1 true with buffer := List.replicate 36 0 }
    [List.replicate 12 1, List.replicate 12 2, List.replicate 12 3] rfl rfl rfl
    (by decide) (by decide) (by decide)).1
  exact ⟨_, _, h, rfl, by decide⟩

/-! ## Interleaved reassembly -/

theorem interleavedOffset_eq_spec {c : Consts} {w p h : Nat} {o : Bool}
    (hnw : interleavedNoWrap c w p h o) :
    interleavedOffset c w p h o = specInterleavedOffset c.USBTV_PAYLOAD_SIZE w p h o := by
  obtain ⟨h1, h2, h3⟩ := hnw
  unfold specInterleavedOffset specLineIndex specPartIndex at h3
  unfold interleavedOffset specInterleavedOffset specLineIndex specPartIndex
  simp only []
  have e1 : (p * 2 + h) % 2 ^ 32 = p * 2 + h := Nat.mod_eq_of_lt h2
  have e2 : (c.USBTV_PAYLOAD_SIZE / 2) % 2 ^ 32 = c.USBTV_PAYLOAD_SIZE / 2 :=
    Nat.mod_eq_of_lt h1
  have e3 : ((p * 2 + h) / 3 * 2 + (if o = true then 0 else 1)) % 2 ^ 32
      = (p * 2 + h) / 3 * 2 + (if o = true then 0 else 1) := by
    apply Nat.mod_eq_of_lt
    split <;> omega
  rw [e1, e2, e3, Nat.mul_comm (c.USBTV_PAYLOAD_SIZE / 2)]
  exact Nat.mod_eq_of_lt h3

theorem interleavedHalf_eq {c : Consts} {d : UsbTvDriver} {pool : List UsbTvFrame}
    {i : Nat} {fr : UsbTvFrame} (packet : List Nat) (n k : Nat) (o : Bool)
    (hptr : d._usbInputFrame = some i) (hp : d._framePool = some pool)
    (hi : pool[i]? = some fr) :
    interleavedHalf c packet n o d k =
      (memcpy fr.buffer (interleavedOffset c d._frameWidth n k o) packet
          (k * ((c.USBTV_PAYLOAD_SIZE / 2) % 2 ^ 32)) ((c.USBTV_PAYLOAD_SIZE / 2) % 2 ^ 32)
        >>= fun b =>
      pure { d with _framePool := some (pool.set i { fr with buffer := b }) }) := by
  have hlt : i < pool.length := (List.getElem?_eq_some_iff.mp hi).1
  unfold interleavedHalf
  rw [hptr, derefFrame_ok hp hi]
  simp only [bind, Except.bind]
  cases memcpy fr.buffer (interleavedOffset c d._frameWidth n k o) packet
      (k * ((c.USBTV_PAYLOAD_SIZE / 2) % 2 ^ 32)) ((c.USBTV_PAYLOAD_SIZE / 2) % 2 ^ 32) with
  | error e => rfl
  | ok b =>
    simp only [hptr, storeFrame_ok _ hp hlt]
    rfl

theorem packetToInterleavedFrame_eq {c : Consts} {d : UsbTvDriver} {pool : List UsbTvFrame}
    {i : Nat} {fr : UsbTvFrame} (packet : List Nat) (n : Nat) (o : Bool)
    (hptr : d._usbInputFrame = some i) (hp : d._framePool = some pool)
    (hi : pool[i]? = some fr) :
    packetToInterleavedFrame c d packet n o =
      (memcpy fr.buffer (interleavedOffset c d._frameWidth n 0 o) packet
          (0 * ((c.USBTV_PAYLOAD_SIZE / 2) % 2 ^ 32)) ((c.USBTV_PAYLOAD_SIZE / 2) % 2 ^ 32)
        >>= fun b0 =>
      memcpy b0 (interleavedOffset c d._frameWidth n 1 o) packet
          (1 * ((c.USBTV_PAYLOAD_SIZE / 2) % 2 ^ 32)) ((c.USBTV_PAYLOAD_SIZE / 2) % 2 ^ 32)
        >>= fun b1 =>
      pure { d with _framePool := some (pool.set i { fr with buffer := b1 }) }) := by
  have hlt : i < pool.length := (List.getElem?_eq_some_iff.mp hi).1
  unfold packetToInterleavedFrame
  rw [interleavedHalf_eq packet n 0 o hptr hp hi]
  cases memcpy fr.buffer (interleavedOffset c d._frameWidth n 0 o) packet
      (0 * ((c.USBTV_PAYLOAD_SIZE / 2) % 2 ^ 32)) ((c.USBTV_PAYLOAD_SIZE / 2) % 2 ^ 32) with
  | error e => rfl
  | ok b0 =>
    obtain ⟨d1, hd1⟩ : ∃ d1 : UsbTvDriver,
        d1 = { d with _framePool := some (pool.set i { fr with buffer := b0 }) } := ⟨_, rfl⟩
    have h1 := interleavedHalf_eq (c := c) (d := d1) (i := i) packet n 1 o
      (by rw [hd1]; exact hptr) (by rw [hd1])
      (List.getElem?_set_self hlt)
    show interleavedHalf c packet n o
      { d with _framePool := some (pool.set i { fr with buffer := b0 }) } 1 = _
    rw [← hd1, h1]
    have hw : d1._frameWidth = d._frameWidth := by rw [hd1]
    rw [hw]
    simp only [bind, Except.bind]
    cases memcpy b0 (interleavedOffset c d._frameWidth n 1 o) packet
        (1 * ((c.USBTV_PAYLOAD_SIZE / 2) % 2 ^ 32)) ((c.USBTV_PAYLOAD_SIZE / 2) % 2 ^ 32) with
    | error e => rfl
    | ok b1 =>
      rw [hd1]
      simp [bind, Except.bind, pure, Except.pure, List.set_set]

/-- C7: where the 32-bit arithmetic does not wrap, `packetToInterleavedFrame` copies, for
`h = 0` and then `h = 1`, the bytes `[h * (P/2), (h+1) * (P/2))` of the payload to the
destination offset `lineIndex * (W * 2) + (partIndex mod 3) * (P/2)` of the in-progress
buffer, with `partIndex = 2p + h` and `lineIndex = (partIndex / 3) * 2 + (0 if odd, 1 if
even)` (`P` the payload size, `W` the frame width), and touches nothing else. For `P = 320`,
`W = 720` and the odd field the offsets of packet 0 are 0 and 160 and those of packet 1 are
320 and 2880 (part index 3, line index 2). -/
theorem C7_interleaved_placement (c : Consts) (d : UsbTvDriver) (pool : List UsbTvFrame)
    (i : Nat) (fr : UsbTvFrame) (packet : List Nat) (p : Nat) (isOdd : Bool)
    (hptr : d._usbInputFrame = some i) (hp : d._framePool = some pool)
    (hi : pool[i]? = some fr)
    (hnw : ∀ h, h < 2 → interleavedNoWrap c d._frameWidth p h isOdd) :
    (∀ h, h < 2 → interleavedOffset c d._frameWidth p h isOdd
      = specInterleavedOffset c.USBTV_PAYLOAD_SIZE d._frameWidth p h isOdd) ∧
    packetToInterleavedFrame c d packet p isOdd =
      (memcpy fr.buffer (specInterleavedOffset c.USBTV_PAYLOAD_SIZE d._frameWidth p 0 isOdd)
          packet (0 * (c.USBTV_PAYLOAD_SIZE / 2)) (c.USBTV_PAYLOAD_SIZE / 2) >>= fun b0 =>
        memcpy b0 (specInterleavedOffset c.USBTV_PAYLOAD_SIZE d._frameWidth p 1 isOdd)
          packet (1 * (c.USBTV_PAYLOAD_SIZE / 2)) (c.USBTV_PAYLOAD_SIZE / 2) >>= fun b1 =>
        pure { d with _framePool := some (pool.set i { fr with buffer := b1 }) }) ∧
    (∀ c2 : Consts, c2.USBTV_PAYLOAD_SIZE = 320 →
      interleavedOffset c2 720 0 0 true = 0 ∧ interleavedOffset c2 720 0 1 true = 160 ∧
      interleavedOffset c2 720 1 0 true = 320 ∧ interleavedOffset c2 720 1 1 true = 2880 ∧
      specPartIndex 1 1 = 3 ∧ specLineIndex 1 1 true = 2) := by
  have h0 := interleavedOffset_eq_spec (hnw 0 (by omega))
  have h1 := interleavedOffset_eq_spec (hnw 1 (by omega))
  have hhalf : (c.USBTV_PAYLOAD_SIZE / 2) % 2 ^ 32 = c.USBTV_PAYLOAD_SIZE / 2 :=
    Nat.mod_eq_of_lt (hnw 0 (by omega)).1
  refine ⟨?_, ?_, ?_⟩
  · intro h hh
    exact interleavedOffset_eq_spec (hnw h hh)
  · rw [packetToInterleavedFrame_eq packet p isOdd hptr hp hi, h0, h1, hhalf]
  · intro c2 hc2
    simp [interleavedOffset, hc2, specPartIndex, specLineIndex]

/-- C7 at a concrete packet: packet 1 of the odd field with payload size 12 and width 9
goes to offsets 12 (line 0) and 36 (line 2). -/
theorem C7_interleaved_placement_witness :
    interleavedOffset tinyConsts 9 1 0 true = 12 ∧
    interleavedOffset tinyConsts 9 1 1 true = 36 ∧
    ∃ d1 fr1, packetToInterleavedFrame tinyConsts (tinyDriver .INTERLEAVED false 1 2)
        (List.replicate 12 7) 1 true = .ok d1 ∧
      derefFrame d1 d1._usbInputFrame = .ok fr1 ∧
      fr1.buffer = List.replicate 12 0 ++ List.replicate 6 7 ++ List.replicate 18 0
        ++ List.replicate 6 7 ++ List.replicate 30 0 := by
  obtain ⟨h1, h2, -⟩ := C7_interleaved_placement tinyConsts
    (tinyDriver .INTERLEAVED false 1 2)
    [tinyFrame 2 true, tinyFrame 0 false, tinyFrame 0 false] 0 (tinyFrame 2 true)
    (List.replicate 12 7) 1 true rfl rfl rfl (by decide)
  refine ⟨(h1 0 (by decide)).trans (by decide), (h1 1 (by decide)).trans (by decide), ?_⟩
  rw [h2]
  exact ⟨_, _, rfl, rfl, by decide⟩

/-- C8: under the geometry `3 * (USBTV_PAYLOAD_SIZE / 2) = frameWidth * 2`, and where the
32-bit arithmetic does not wrap, every byte offset `b` written for half `h` of a packet
lies on scanline `lineIndex` (so a half payload never crosses a scanline boundary), and
that scanline is even-numbered for an odd-field packet and odd-numbered for an even-field
packet. -/
theorem C8_interleaved_scanline_parity (c : Consts) (w p h : Nat) (isOdd : Bool)
    (hgeo : 3 * (c.USBTV_PAYLOAD_SIZE / 2) = w * 2)
    (hnw : interleavedNoWrap c w p h isOdd) :
    ∀ b, interleavedOffset c w p h isOdd ≤ b →
      b < interleavedOffset c w p h isOdd + (c.USBTV_PAYLOAD_SIZE / 2) % 2 ^ 32 →
      b / (w * 2) = specLineIndex p h isOdd ∧
      (b / (w * 2)) % 2 = (if isOdd then 0 else 1) := by
  intro b hlo hhi
  have hoff := interleavedOffset_eq_spec hnw
  have hhalf : (c.USBTV_PAYLOAD_SIZE / 2) % 2 ^ 32 = c.USBTV_PAYLOAD_SIZE / 2 :=
    Nat.mod_eq_of_lt hnw.1
  rw [hoff] at hlo hhi
  rw [hhalf] at hhi
  unfold specInterleavedOffset at hlo hhi
  have hr : specPartIndex p h % 3 ≤ 2 := by omega
  have hrm := Nat.mul_le_mul_right (c.USBTV_PAYLOAD_SIZE / 2) hr
  have hdiv : b / (w * 2) = specLineIndex p h isOdd := by
    apply Nat.div_eq_of_lt_le
    · omega
    · rw [Nat.succ_mul]
      omega
  refine ⟨hdiv, ?_⟩
  rw [hdiv]
  unfold specLineIndex
  split <;> omega

/-- C8 at a concrete half payload: with payload size 12 and width 9, the second half of
odd-field packet 1 starts at offset 36 and its last byte 41 lies on scanline 2. -/
theorem C8_interleaved_scanline_parity_witness :
    interleavedOffset tinyConsts 9 1 1 true = 36 ∧ 41 / (9 * 2) = 2 ∧ (41 / (9 * 2)) % 2 = 0 := by
  have h := C8_interleaved_scanline_parity tinyConsts 9 1 1 true (by decide) (by decide) 41
    (by decide) (by decide)
  exact ⟨by decide, h.1.trans (by decide), h.2⟩

/-! ## Start and stop -/

/-- C9: when the first `setInterface(0, 0)` of `startStreaming` fails on an initialized,
idle driver, the call returns `false` but leaves `_streamActive` set (only the counters are
reset); every later `startStreaming`, whatever the transport does, then takes the `else`
branch and returns the stale `true` without starting anything. -/
theorem C9_failed_setInterface_keeps_streamActive (c : Consts) (t : Transport) (fuel : Nat)
    (d : UsbTvDriver) (hinit : d._initalized = true) (hidle : d._streamActive = false)
    (hfail : t.setInterface 0 0 = false) :
    startStreaming c t fuel d = .ok
      ({ d with _streamActive := true, _droppedFrameCounter := 0,
                _incompleteFrameCounter := 0 }, false) ∧
    ∀ (t2 : Transport) (fuel2 : Nat),
      startStreaming c t2 fuel2
        { d with _streamActive := true, _droppedFrameCounter := 0,
                 _incompleteFrameCounter := 0 }
      = .ok ({ d with _streamActive := true, _droppedFrameCounter := 0,
                      _incompleteFrameCounter := 0 }, true) := by
  constructor
  · simp [startStreaming, hinit, hidle, hfail, pure, Except.pure]
  · intro t2 fuel2
    simp [startStreaming, pure, Except.pure]

/-- C9 at a concrete state: the idle driver with a transport whose `setInterface(0, 0)`
fails; the frame pool is still unallocated when the later call reports success. -/
theorem C9_failed_setInterface_keeps_streamActive_witness :
    ∃ d1, startStreaming tinyConsts badInterfaceTransport 3 (idleDriver .PROGRESSIVE)
        = .ok (d1, false) ∧
      d1._streamActive = true ∧
      startStreaming tinyConsts goodTransport 3 d1 = .ok (d1, true) ∧
      d1._framePool = none := by
  obtain ⟨h1, h2⟩ := C9_failed_setInterface_keeps_streamActive tinyConsts
    badInterfaceTransport 3 (idleDriver .PROGRESSIVE) rfl rfl rfl
  exact ⟨_, h1, rfl, h2 goodTransport 3, rfl⟩

theorem releaseProcessFrame_ok {c : Consts} {d : UsbTvDriver} (h : d.refsValid c) :
    ∃ d1, releaseProcessFrame d = .ok d1 ∧ d1.refsValid c ∧
      d1 = { d with _processFrame := none, _framePool := d1._framePool } := by
  unfold UsbTvDriver.refsValid at h
  unfold releaseProcessFrame
  cases hpf : d._processFrame with
  | none =>
    refine ⟨d, rfl, ?_, ?_⟩
    · unfold UsbTvDriver.refsValid; exact h
    · cases d; simp at hpf; simp [hpf]
  | some i =>
    cases hp : d._framePool with
    | none => rw [hp] at h; rw [hpf] at h; simp at h
    | some pool =>
      rw [hp] at h
      have hlt : i < pool.length := h.2.2 i hpf
      simp only []
      rw [derefFrame_ok hp (List.getElem?_eq_getElem hlt)]
      simp only [bind, Except.bind, storeFrame_ok _ hp hlt, pure, Except.pure]
      refine ⟨_, rfl, ?_, ?_⟩
      · simp only [UsbTvDriver.refsValid, List.length_set]
        exact ⟨h.1, h.2.1, fun _ hn => by cases hn⟩
      · simp [hpf]

theorem releaseInputFrame_ok {c : Consts} {d : UsbTvDriver} (h : d.refsValid c) :
    ∃ d1, releaseInputFrame d = .ok d1 ∧ d1.refsValid c ∧
      d1 = { d with _usbInputFrame := none, _framePool := d1._framePool } := by
  unfold UsbTvDriver.refsValid at h
  unfold releaseInputFrame
  cases hpf : d._usbInputFrame with
  | none =>
    refine ⟨d, rfl, ?_, ?_⟩
    · unfold UsbTvDriver.refsValid; exact h
    · cases d; simp at hpf; simp [hpf]
  | some i =>
    cases hp : d._framePool with
    | none => rw [hp] at h; rw [hpf] at h; simp at h
    | some pool =>
      rw [hp] at h
      have hlt : i < pool.length := h.2.1 i hpf
      simp only []
      rw [derefFrame_ok hp (List.getElem?_eq_getElem hlt)]
      simp only [bind, Except.bind, storeFrame_ok _ hp hlt, pure, Except.pure]
      refine ⟨_, rfl, ?_, ?_⟩
      · simp only [UsbTvDriver.refsValid, List.length_set]
        exact ⟨h.1, (fun _ hn => by cases hn), h.2.2⟩
      · simp [hpf]

theorem freeFramePool_ok {c : Consts} {d : UsbTvDriver} (h : d.refsValid c)
    (hs : d._streamActive = false) :
    freeFramePool c d = .ok { d with _framePool := none } := by
  unfold UsbTvDriver.refsValid at h
  unfold freeFramePool
  cases hp : d._framePool with
  | none =>
    simp only [pure, Except.pure]
    congr 1
    cases d
    simp at hp
    simp [hp]
  | some pool =>
    rw [hp] at h
    simp [hs, h.1, pure, Except.pure]

theorem stopProcessThread_ok {c : Consts} {d : UsbTvDriver} (h : d.refsValid c) :
    ∃ d1, stopProcessThread d = .ok d1 ∧ d1.refsValid c ∧
      { d1 with _processFrame := none, _framePool := none }
        = { d with _processThreadRunning := false, _processFrame := none,
                   _framePool := none } := by
  have hv1 : UsbTvDriver.refsValid c { d with _processThreadRunning := false } := h
  unfold stopProcessThread
  by_cases hrun : d._processThreadRunning = true
  · rw [if_pos hrun]
    by_cases hwait : d._frameWait = true
    · simp only []
      rw [if_pos hwait]
      obtain ⟨d2, e1, e2, e3⟩ := releaseProcessFrame_ok hv1
      refine ⟨d2, e1, e2, ?_⟩
      rw [e3]
    · simp only []
      rw [if_neg hwait]
      exact ⟨_, rfl, hv1, rfl⟩
  · rw [if_neg hrun]
    refine ⟨_, rfl, h, ?_⟩
    simp at hrun
    simp [hrun]

/-- The state in which `stopStreaming` leaves an initialized driver. -/
theorem stopStreaming_ok {c : Consts} {d : UsbTvDriver} (hinit : d._initalized = true)
    (h : d.refsValid c) :
    stopStreaming c d = .ok
      { d with _streamActive := false, _processThreadRunning := false,
               _usbInputFrame := none, _processFrame := none, _framePool := none } := by
  have hv1 : UsbTvDriver.refsValid c { d with _streamActive := false } := h
  obtain ⟨d2, hd2, hv2, e2⟩ := stopProcessThread_ok hv1
  obtain ⟨d3, hd3, hv3, e3⟩ := releaseInputFrame_ok hv2
  obtain ⟨d4, hd4, hv4, e4⟩ := releaseProcessFrame_ok hv3
  have hs4 : d4._streamActive = false := by
    have := congrArg UsbTvDriver._streamActive e2
    rw [e4, e3]
    simpa using this
  unfold stopStreaming
  rw [if_pos hinit]
  simp only [bind, Except.bind, hd2, hd3, hd4]
  rw [freeFramePool_ok hv4 hs4, e4, e3]
  simp only [Except.ok.injEq]
  have := congrArg (fun x : UsbTvDriver => { x with _usbInputFrame := none }) e2
  simpa using this

/-- C10: on an initialized driver whose frame pointers are null or point into the pool,
`stopStreaming` returns with `_streamActive` and `_processThreadRunning` cleared,
`_usbInputFrame` and `_processFrame` null and the pool freed, every other field as before;
a second `stopStreaming` returns the same state. -/
theorem C10_stop_idempotent (c : Consts) (d : UsbTvDriver) (hinit : d._initalized = true)
    (h : d.refsValid c) :
    ∃ d1, stopStreaming c d = .ok d1 ∧
      d1 = { d with _streamActive := false, _processThreadRunning := false,
                    _usbInputFrame := none, _processFrame := none, _framePool := none } ∧
      d1._streamActive = false ∧ d1._processThreadRunning = false ∧
      d1._usbInputFrame = none ∧ d1._processFrame = none ∧ d1._framePool = none ∧
      stopStreaming c d1 = .ok d1 := by
  refine ⟨_, stopStreaming_ok hinit h, rfl, rfl, rfl, rfl, rfl, rfl, ?_⟩
  have hv : UsbTvDriver.refsValid c
      { d with _streamActive := false, _processThreadRunning := false,
               _usbInputFrame := none, _processFrame := none, _framePool := none } := by
    simp [UsbTvDriver.refsValid]
  exact stopStreaming_ok (c := c) hinit hv

/-- C10 at a concrete streaming state with a waiting consumer. -/
theorem C10_stop_idempotent_witness :
    ∃ d1, stopStreaming tinyConsts (tinyDriver .PROGRESSIVE true 1 2) = .ok d1 ∧
      d1._streamActive = false ∧ d1._framePool = none ∧
      stopStreaming tinyConsts d1 = .ok d1 := by
  obtain ⟨d1, h1, _, h3, _, _, _, h7, h8⟩ :=
    C10_stop_idempotent tinyConsts (tinyDriver .PROGRESSIVE true 1 2) rfl
      (by
        refine ⟨by decide, ?_, ?_⟩
        · intro i hi
          cases hi
          decide
        · intro i hi
          cases hi)
  exact ⟨d1, h1, h3, h7, h8⟩

/-! ## Ignored packets -/

/-- C14: a packet whose header fails the valid-marker check (`USBTV_FRAME_OK` false) is
ignored by `processPacket`: the call returns the driver state it was given, field for field
(counters, current frame id, packet counter, `_secondFrame`, the pool with every flag,
buffer byte and lock), and signals nothing, whatever the state and the rest of the packet. -/
theorem C14_invalid_header_ignored (c : Consts) (fuel : Nat) (d : UsbTvDriver) (p : Packet)
    (hbad : p.frameOk = false) :
    processPacket c fuel d p = .ok (d, []) := by
  unfold processPacket
  rw [if_neg (by simp [hbad])]
  rfl

/-- C14 at a concrete packet: an invalid header carrying frame id 6 and packet number 0
leaves an in-progress frame untouched. -/
theorem C14_invalid_header_ignored_witness :
    processPacket tinyConsts 3 (tinyDriver .PROGRESSIVE true 1 2)
      { tinyPacket 6 0 true 0 with frameOk := false }
      = .ok (tinyDriver .PROGRESSIVE true 1 2, []) :=
  C14_invalid_header_ignored tinyConsts 3 (tinyDriver .PROGRESSIVE true 1 2)
    { tinyPacket 6 0 true 0 with frameOk := false } rfl

/-- C15: a valid packet whose number is not below `_packetsPerField` (the boundary
`packetNumber = _packetsPerField` included, whatever its frame id and parity) is ignored by
`processPacket`: the call returns the driver state it was given, field for field, so no
buffer byte is written, no new frame is started, nothing is finalized, and nothing is
signalled. -/
theorem C15_out_of_range_ignored (c : Consts) (fuel : Nat) (d : UsbTvDriver) (p : Packet)
    (hok : p.frameOk = true) (hrange : d._packetsPerField ≤ p.packetNumber) :
    processPacket c fuel d p = .ok (d, []) := by
  unfold processPacket
  rw [if_pos hok, if_pos hrange]
  rfl

/-- C15 at the boundary: packet number 3 with three packets per field and a new frame id. -/
theorem C15_out_of_range_ignored_witness :
    processPacket tinyConsts 3 (tinyDriver .PROGRESSIVE true 1 2) (tinyPacket 6 3 true 0)
      = .ok (tinyDriver .PROGRESSIVE true 1 2, []) :=
  C15_out_of_range_ignored tinyConsts 3 (tinyDriver .PROGRESSIVE true 1 2)
    (tinyPacket 6 3 true 0) rfl (by decide)

/-! ## The pool scan: termination and divergence -/

/-- With every lock held, the scan uses up any step budget. -/
theorem fetchLoop_all_locked (c : Consts) :
    ∀ (fuel index : Nat) (pool : List UsbTvFrame),
      index < c.USBTV_FRAME_POOL_SIZE → c.USBTV_FRAME_POOL_SIZE ≤ pool.length →
      (∀ (k : Nat) (f : UsbTvFrame), pool[k]? = some f → f.lock = true) →
      fetchLoop c fuel index pool = .error .noFuel
  | 0, _, _, _, _, _ => rfl
  | fuel + 1, index, pool, hidx, hlen, hall => by
    have hlt : index < pool.length := by omega
    have hf : pool[index]? = some pool[index] := List.getElem?_eq_getElem hlt
    have hl : pool[index].lock = true := hall index _ hf
    have hnext : (if (index + 1) % 256 ≥ c.USBTV_FRAME_POOL_SIZE then 0
        else (index + 1) % 256) < c.USBTV_FRAME_POOL_SIZE := by
      split <;> omega
    have ih := fetchLoop_all_locked c fuel _ pool hnext hlen hall
    simp only [fetchLoop, hf, test_and_set, hl]
    simp only [Bool.not_true, Bool.false_eq_true, if_false]
    rw [lock_true_same hl, list_set_same pool index _ hf]
    exact ih

theorem lowest_free_slot {pool : List UsbTvFrame}
    (hfree : ∃ (k : Nat) (g : UsbTvFrame), pool[k]? = some g ∧ g.lock = false) :
    ∃ (j : Nat) (g : UsbTvFrame), pool[j]? = some g ∧ g.lock = false ∧
      ∀ k, k < j → ∃ f : UsbTvFrame, pool[k]? = some f ∧ f.lock = true := by
  classical
  have hex : ∃ k : Nat, ∃ g : UsbTvFrame, pool[k]? = some g ∧ g.lock = false := hfree
  obtain ⟨g, hg, hgl⟩ := Nat.find_spec hex
  refine ⟨Nat.find hex, g, hg, hgl, ?_⟩
  intro k hk
  have hlt : Nat.find hex < pool.length := (List.getElem?_eq_some_iff.mp hg).1
  have hklt : k < pool.length := by omega
  refine ⟨pool[k], List.getElem?_eq_getElem hklt, ?_⟩
  have hmin := Nat.find_min hex hk
  by_contra hne
  apply hmin
  exact ⟨pool[k], List.getElem?_eq_getElem hklt, by simpa using hne⟩

/-- C13: `fetchFrameFromPool` on an allocated pool of `USBTV_FRAME_POOL_SIZE ≤ 256` frames
whose locks nobody else changes. If some lock is free, there is a lowest free slot `j`, and
with any budget above `j` (so within `USBTV_FRAME_POOL_SIZE` iterations) the scan returns
`j`, with that frame locked and flagged `FRAME_START`, its other members and every other
frame unchanged. If every frame is locked, the scan returns for no budget. -/
theorem C13_fetch_from_pool (c : Consts) (d : UsbTvDriver) (pool : List UsbTvFrame)
    (hp : d._framePool = some pool) (hlen : pool.length = c.USBTV_FRAME_POOL_SIZE)
    (h256 : c.USBTV_FRAME_POOL_SIZE ≤ 256) :
    ((∃ (k : Nat) (g : UsbTvFrame), pool[k]? = some g ∧ g.lock = false) →
      ∃ (j : Nat) (g : UsbTvFrame), pool[j]? = some g ∧ g.lock = false ∧
        (∀ k, k < j → ∃ f : UsbTvFrame, pool[k]? = some f ∧ f.lock = true) ∧
        j < c.USBTV_FRAME_POOL_SIZE ∧
        (∀ fuel, j < fuel →
          fetchFrameFromPool c fuel d = .ok (j,
            { d with
              _framePool := some (pool.set j { g with lock := true, flags := c.FRAME_START }) }))
          ∧
        (∀ k, k ≠ j →
          (pool.set j { g with lock := true, flags := c.FRAME_START })[k]? = pool[k]?)) ∧
    ((∀ (k : Nat) (f : UsbTvFrame), pool[k]? = some f → f.lock = true) → 0 < c.USBTV_FRAME_POOL_SIZE →
      ∀ fuel, fetchFrameFromPool c fuel d = .error .noFuel) := by
  constructor
  · intro hfree
    obtain ⟨j, g, hj, hgl, hlow⟩ := lowest_free_slot hfree
    have hjs : j < c.USBTV_FRAME_POOL_SIZE := by
      have := (List.getElem?_eq_some_iff.mp hj).1
      omega
    refine ⟨j, g, hj, hgl, hlow, hjs, ?_, ?_⟩
    · intro fuel hfuel
      exact fetchFrameFromPool_found h256 hp hjs hj hgl hlow hfuel
    · intro k hk
      exact List.getElem?_set_ne (Ne.symm hk)
  · intro hall hpos fuel
    unfold fetchFrameFromPool
    rw [hp]
    simp only []
    rw [fetchLoop_all_locked c fuel 0 pool hpos (le_of_eq hlen.symm) hall]
    rfl

/-- C13 at concrete pools of three frames: with slots 0 and 1 locked the scan returns
slot 2 within three iterations; with all three locked a budget of 1000 is used up. -/
theorem C13_fetch_from_pool_witness :
    fetchFrameFromPool tinyConsts 3
        { tinyDriver .PROGRESSIVE false 0 1 with
          _framePool := some [tinyFrame 1 true, tinyFrame 8 true, tinyFrame 4 false] }
      = .ok (2, { tinyDriver .PROGRESSIVE false 0 1 with
          _framePool := some [tinyFrame 1 true, tinyFrame 8 true, tinyFrame 1 true] }) ∧
    fetchFrameFromPool tinyConsts 1000
        { tinyDriver .PROGRESSIVE false 0 1 with
          _framePool := some [tinyFrame 1 true, tinyFrame 8 true, tinyFrame 4 true] }
      = .error .noFuel := by
  constructor
  · obtain ⟨j, g, hj, hgl, hlow, _, hfetch, _⟩ :=
      (C13_fetch_from_pool tinyConsts
        { tinyDriver .PROGRESSIVE false 0 1 with
          _framePool := some [tinyFrame 1 true, tinyFrame 8 true, tinyFrame 4 false] }
        [tinyFrame 1 true, tinyFrame 8 true, tinyFrame 4 false] rfl rfl (by decide)).1
        ⟨2, tinyFrame 4 false, rfl, rfl⟩
    have hj2 : j = 2 := by
      have hlt := (List.getElem?_eq_some_iff.mp hj).1
      simp only [List.length_cons, List.length_nil] at hlt
      have h0 : j ≠ 0 := by
        intro h
        subst h
        simp [tinyFrame] at hj
        subst hj
        simp at hgl
      have h1 : j ≠ 1 := by
        intro h
        subst h
        simp [tinyFrame] at hj
        subst hj
        simp at hgl
      omega
    subst hj2
    have hg : g = tinyFrame 4 false := by
      simp at hj
      exact hj.symm
    subst hg
    exact hfetch 3 (by decide)
  · exact (C13_fetch_from_pool tinyConsts
      { tinyDriver .PROGRESSIVE false 0 1 with
        _framePool := some [tinyFrame 1 true, tinyFrame 8 true, tinyFrame 4 true] }
      [tinyFrame 1 true, tinyFrame 8 true, tinyFrame 4 true] rfl rfl (by decide)).2
      (by
        intro k f hk
        have hlt := (List.getElem?_eq_some_iff.mp hk).1
        simp only [List.length_cons, List.length_nil] at hlt
        interval_cases k <;> simp [tinyFrame] at hk <;> subst hk <;> rfl)
      (by decide) 1000

/-! ## Configuration and pool allocation -/

/-- C11: an invalid code is rejected without any effect. For every code outside `{0, 1}`
`setTvNorm` and `setTvInput` return `false`, and for every code outside `{0, 1, 2}`
`setScanType` returns `false`; in each case the state returned is the state given, field
for field, for every transport and step budget (no stop or start takes place), whether or
not the driver is streaming. -/
theorem C11_invalid_code_rejected (c : Consts) (t : Transport) (fuel : Nat) (d : UsbTvDriver)
    (code : Int) :
    ((code ≠ 0 ∧ code ≠ 1) →
      setTvNorm c t fuel d code = .ok (d, false) ∧
      setTvInput c t fuel d code = .ok (d, false)) ∧
    ((code ≠ 0 ∧ code ≠ 1 ∧ code ≠ 2) → setScanType c t fuel d code = .ok (d, false)) := by
  constructor
  · rintro ⟨h0, h1⟩
    constructor
    · unfold setTvNorm
      rw [if_neg h0, if_neg h1]
      rfl
    · unfold setTvInput
      rw [if_neg h0, if_neg h1]
      rfl
  · rintro ⟨h0, h1, h2⟩
    unfold setScanType
    rw [if_neg h0, if_neg h1, if_neg h2]
    rfl

/-- C11 at concrete codes on a streaming driver: norm 2, input -1 and scan type 3. -/
theorem C11_invalid_code_rejected_witness :
    setTvNorm tinyConsts goodTransport 3 (tinyDriver .PROGRESSIVE true 1 2) 2
      = .ok (tinyDriver .PROGRESSIVE true 1 2, false) ∧
    setTvInput tinyConsts goodTransport 3 (tinyDriver .PROGRESSIVE true 1 2) (-1)
      = .ok (tinyDriver .PROGRESSIVE true 1 2, false) ∧
    setScanType tinyConsts goodTransport 3 (tinyDriver .PROGRESSIVE true 1 2) 3
      = .ok (tinyDriver .PROGRESSIVE true 1 2, false) :=
  ⟨((C11_invalid_code_rejected tinyConsts goodTransport 3 (tinyDriver .PROGRESSIVE true 1 2)
      2).1 ⟨by decide, by decide⟩).1,
   ((C11_invalid_code_rejected tinyConsts goodTransport 3 (tinyDriver .PROGRESSIVE true 1 2)
      (-1)).1 ⟨by decide, by decide⟩).2,
   (C11_invalid_code_rejected tinyConsts goodTransport 3 (tinyDriver .PROGRESSIVE true 1 2)
      3).2 ⟨by decide, by decide, by decide⟩⟩

theorem allocateFramePool_fresh (c : Consts) {d : UsbTvDriver} (hp : d._framePool = none) :
    allocateFramePool c d
      = { d with
          _framePool := some (List.replicate c.USBTV_FRAME_POOL_SIZE (allocatedFrame d)) } := by
  unfold allocateFramePool allocatedFrame
  rw [hp]

/-- C18: with the pool unallocated, a frame height that fits 16 bits and a buffer size
`frameWidth * frameHeight * 2` that fits 32 bits, `allocateFramePool` creates exactly
`USBTV_FRAME_POOL_SIZE` frames, each with `width = _frameWidth`, `height = _frameHeight`
when the scan type is interleaved and `_frameHeight / 2` otherwise,
`bufferSize = width * height * 2` (the size of its buffer), flags 0 and a free lock, and
changes nothing else; with the pool already allocated the call changes nothing. -/
theorem C18_pool_allocation (c : Consts) (d : UsbTvDriver)
    (hH : d._frameHeight < 2 ^ 16) (hsz : d._frameWidth * d._frameHeight * 2 < 2 ^ 32) :
    (d._framePool = none →
      ∃ pool, allocateFramePool c d = { d with _framePool := some pool } ∧
        pool.length = c.USBTV_FRAME_POOL_SIZE ∧
        ∀ f ∈ pool,
          f.width = d._frameWidth ∧
          f.height = (if d._scanType = ScanType.INTERLEAVED then d._frameHeight
            else d._frameHeight / 2) ∧
          f.bufferSize = f.width * f.height * 2 ∧ f.buffer.length = f.bufferSize ∧
          f.flags = 0 ∧ f.lock = false) ∧
    (∀ pool, d._framePool = some pool → allocateFramePool c d = d) := by
  constructor
  · intro hp
    refine ⟨List.replicate c.USBTV_FRAME_POOL_SIZE (allocatedFrame d),
      allocateFramePool_fresh c hp, List.length_replicate _ _, ?_⟩
    intro f hf
    have hfe : f = allocatedFrame d := List.eq_of_mem_replicate hf
    subst hfe
    have hbh : (if d._scanType = ScanType.INTERLEAVED then d._frameHeight
        else d._frameHeight / 2) ≤ d._frameHeight := by
      split
      · exact le_refl _
      · exact Nat.div_le_self _ _
    have hmul : d._frameWidth * (if d._scanType = ScanType.INTERLEAVED then d._frameHeight
        else d._frameHeight / 2) * 2 ≤ d._frameWidth * d._frameHeight * 2 :=
      Nat.mul_le_mul_right 2 (Nat.mul_le_mul_left _ hbh)
    have e1 : (if d._scanType = ScanType.INTERLEAVED then d._frameHeight
        else d._frameHeight / 2) % 2 ^ 32
        = (if d._scanType = ScanType.INTERLEAVED then d._frameHeight
          else d._frameHeight / 2) := Nat.mod_eq_of_lt (by omega)
    have e2 : (if d._scanType = ScanType.INTERLEAVED then d._frameHeight
        else d._frameHeight / 2) % 2 ^ 16
        = (if d._scanType = ScanType.INTERLEAVED then d._frameHeight
          else d._frameHeight / 2) := Nat.mod_eq_of_lt (by omega)
    have e3 : (d._frameWidth * (if d._scanType = ScanType.INTERLEAVED then d._frameHeight
        else d._frameHeight / 2) * 2) % 2 ^ 32
        = d._frameWidth * (if d._scanType = ScanType.INTERLEAVED then d._frameHeight
          else d._frameHeight / 2) * 2 := Nat.mod_eq_of_lt (by omega)
    simp only [allocatedFrame, e1, e2, e3, List.length_replicate, and_self]
  · intro pool hp
    unfold allocateFramePool
    rw [hp]

/-- C18 at concrete geometry: 9 x 4 pixels, progressive, three pool frames of 36 bytes. -/
theorem C18_pool_allocation_witness :
    ∃ pool, allocateFramePool tinyConsts (idleDriver .PROGRESSIVE)
        = { idleDriver .PROGRESSIVE with _framePool := some pool } ∧
      pool.length = 3 ∧
      ∀ f ∈ pool, f.width = 9 ∧ f.height = 2 ∧ f.bufferSize = 36 ∧ f.flags = 0 ∧
        f.lock = false := by
  obtain ⟨pool, h1, h2, h3⟩ :=
    (C18_pool_allocation tinyConsts (idleDriver .PROGRESSIVE) (by decide) (by decide)).1 rfl
  refine ⟨pool, h1, h2, ?_⟩
  intro f hf
  obtain ⟨e1, e2, e3, _, e5, e6⟩ := h3 f hf
  have e2a : f.height = 2 := e2.trans (by decide)
  have e1a : f.width = 9 := e1
  refine ⟨e1a, e2a, ?_, e5, e6⟩
  rw [e3, e1a, e2a]

/-! ## Session geometry -/

theorem SameButPool.geometry {d d1 : UsbTvDriver} (h : SameButPool d d1) :
    d1.geometry = d.geometry := by
  unfold SameButPool at h
  rw [h]
  rfl

theorem releaseProcessFrame_geometry {d d1 : UsbTvDriver}
    (h : releaseProcessFrame d = .ok d1) : d1.geometry = d.geometry := by
  unfold releaseProcessFrame at h
  split at h
  · cases h; rfl
  · obtain ⟨fr, _, h⟩ := bind_ok_inv h
    obtain ⟨d2, h2, h⟩ := bind_ok_inv h
    cases h
    exact (storeFrame_same h2).geometry

theorem releaseInputFrame_geometry {d d1 : UsbTvDriver}
    (h : releaseInputFrame d = .ok d1) : d1.geometry = d.geometry := by
  unfold releaseInputFrame at h
  split at h
  · cases h; rfl
  · obtain ⟨fr, _, h⟩ := bind_ok_inv h
    obtain ⟨d2, h2, h⟩ := bind_ok_inv h
    cases h
    exact (storeFrame_same h2).geometry

theorem stopProcessThread_geometry {d d1 : UsbTvDriver}
    (h : stopProcessThread d = .ok d1) : d1.geometry = d.geometry := by
  unfold stopProcessThread at h
  split at h
  · simp only [] at h
    split at h
    · exact (releaseProcessFrame_geometry h).trans rfl
    · cases h; rfl
  · cases h; rfl

theorem freeFramePool_geometry {c : Consts} {d d1 : UsbTvDriver}
    (h : freeFramePool c d = .ok d1) : d1.geometry = d.geometry := by
  unfold freeFramePool at h
  split at h
  · cases h; rfl
  · split at h
    · split at h
      · cases h; rfl
      · cases h
    · cases h; rfl

theorem stopStreaming_geometry {c : Consts} {d d1 : UsbTvDriver}
    (h : stopStreaming c d = .ok d1) : d1.geometry = d.geometry := by
  unfold stopStreaming at h
  split at h
  · obtain ⟨d2, h2, h⟩ := bind_ok_inv h
    obtain ⟨d3, h3, h⟩ := bind_ok_inv h
    obtain ⟨d4, h4, h⟩ := bind_ok_inv h
    rw [freeFramePool_geometry h, releaseProcessFrame_geometry h4,
      releaseInputFrame_geometry h3, stopProcessThread_geometry h2]
    rfl
  · cases h; rfl

theorem fetchFrameFromPool_same {c : Consts} {fuel : Nat} {d : UsbTvDriver}
    {r : Nat × UsbTvDriver} (h : fetchFrameFromPool c fuel d = .ok r) :
    SameButPool d r.2 := by
  unfold fetchFrameFromPool at h
  split at h
  · cases h
  · obtain ⟨r1, _, h⟩ := bind_ok_inv h
    cases h
    rfl

theorem allocateFramePool_same (c : Consts) (d : UsbTvDriver) :
    SameButPool d (allocateFramePool c d) := by
  unfold allocateFramePool
  split
  · rfl
  · rfl

/-- A start that reports success from an idle driver went through the whole sequence: the
state returned is the one after the pool fetch, with the thread flag set. -/
theorem startStreaming_true_inv {c : Consts} {t : Transport} {fuel : Nat}
    {d d1 : UsbTvDriver} (hinit : d._initalized = true) (hidle : d._streamActive = false)
    (h : startStreaming c t fuel d = .ok (d1, true)) :
    ∃ r, fetchFrameFromPool c fuel (allocateFramePool c
        { d with _streamActive := true, _droppedFrameCounter := 0,
                 _incompleteFrameCounter := 0,
                 _packetsPerField :=
                   ((d._frameWidth * d._frameHeight) / c.USBTV_PAYLOAD_SIZE) % 2 ^ 16 })
        = .ok r ∧
      d1 = { r.2 with _usbInputFrame := some r.1, _processThreadRunning := true } := by
  unfold startStreaming at h
  rw [if_pos ⟨hinit, by simp [hidle]⟩] at h
  simp only [] at h
  split at h
  · cases h
  · split at h
    · cases h
    · split at h
      · cases h
      · split at h
        · cases h
        · obtain ⟨r, hr, h⟩ := bind_ok_inv h
          refine ⟨r, hr, ?_⟩
          split at h
          · obtain ⟨d6, _, h⟩ := bind_ok_inv h
            cases h
          · split at h
            · obtain ⟨d6, _, h⟩ := bind_ok_inv h
              cases h
            · split at h
              · obtain ⟨d6, _, h⟩ := bind_ok_inv h
                cases h
              · split at h
                · obtain ⟨d6, _, h⟩ := bind_ok_inv h
                  cases h
                · cases h
                  rfl

theorem startStreaming_geometry {c : Consts} {t : Transport} {fuel : Nat}
    {d d1 : UsbTvDriver} {b : Bool} (h : startStreaming c t fuel d = .ok (d1, b)) :
    d1.geometry = d.geometry := by
  unfold startStreaming at h
  split at h
  · simp only [] at h
    split at h
    · cases h; rfl
    · split at h
      · cases h; rfl
      · split at h
        · cases h; rfl
        · split at h
          · cases h; rfl
          · obtain ⟨r, hr, h⟩ := bind_ok_inv h
            have hg : r.2.geometry = d.geometry :=
              ((allocateFramePool_same c _).trans (fetchFrameFromPool_same hr)).geometry
            split at h
            · obtain ⟨d6, h6, h⟩ := bind_ok_inv h
              cases h
              exact (stopStreaming_geometry h6).trans hg
            · split at h
              · obtain ⟨d6, h6, h⟩ := bind_ok_inv h
                cases h
                exact (stopStreaming_geometry h6).trans hg
              · split at h
                · obtain ⟨d6, h6, h⟩ := bind_ok_inv h
                  cases h
                  exact (stopStreaming_geometry h6).trans hg
                · split at h
                  · obtain ⟨d6, h6, h⟩ := bind_ok_inv h
                    cases h
                    exact (stopStreaming_geometry h6).trans hg
                  · cases h
                    exact hg
  · cases h; rfl

theorem restartIfStreaming_geometry {c : Consts} {t : Transport} {fuel : Nat}
    {d d1 : UsbTvDriver} {b : Bool} (h : restartIfStreaming c t fuel d = .ok (d1, b)) :
    d1.geometry = d.geometry := by
  unfold restartIfStreaming at h
  split at h
  · obtain ⟨d2, h2, h⟩ := bind_ok_inv h
    exact (startStreaming_geometry h).trans (stopStreaming_geometry h2)
  · cases h; rfl

theorem fetch_fresh_inv {c : Consts} {fuel : Nat} {d : UsbTvDriver} {r : Nat × UsbTvDriver}
    (hp : d._framePool = none)
    (h : fetchFrameFromPool c fuel (allocateFramePool c d) = .ok r) :
    0 < c.USBTV_FRAME_POOL_SIZE ∧
    r = (0,
      { d with
        _framePool := some ((List.replicate c.USBTV_FRAME_POOL_SIZE (allocatedFrame d)).set 0
          { allocatedFrame d with lock := true, flags := c.FRAME_START }) }) := by
  rw [allocateFramePool_fresh c hp] at h
  unfold fetchFrameFromPool at h
  simp only [] at h
  obtain ⟨r1, hr1, h⟩ := bind_ok_inv h
  cases fuel with
  | zero => cases hr1
  | succ n =>
    by_cases hN : c.USBTV_FRAME_POOL_SIZE = 0
    · simp [fetchLoop, hN] at hr1
    · have hpos : 0 < c.USBTV_FRAME_POOL_SIZE := Nat.pos_of_ne_zero hN
      have h0 : (List.replicate c.USBTV_FRAME_POOL_SIZE (allocatedFrame d))[0]?
          = some (allocatedFrame d) := by
        rw [List.getElem?_eq_getElem (by simpa using hpos)]
        simp
      have hl : (allocatedFrame d).lock = false := rfl
      simp only [fetchLoop, h0, test_and_set, hl, Bool.not_false, if_true] at hr1
      cases hr1
      cases h
      exact ⟨hpos, rfl⟩

theorem fetch_fresh {c : Consts} (fuel : Nat) {d : UsbTvDriver}
    (hp : d._framePool = none) (hN : 0 < c.USBTV_FRAME_POOL_SIZE) (hfuel : 0 < fuel) :
    fetchFrameFromPool c fuel (allocateFramePool c d) = .ok (0,
      { d with
        _framePool := some ((List.replicate c.USBTV_FRAME_POOL_SIZE (allocatedFrame d)).set 0
          { allocatedFrame d with lock := true, flags := c.FRAME_START }) }) := by
  obtain ⟨n, rfl⟩ : ∃ n, fuel = n + 1 := ⟨fuel - 1, by omega⟩
  have h0 : (List.replicate c.USBTV_FRAME_POOL_SIZE (allocatedFrame d))[0]?
      = some (allocatedFrame d) := by
    rw [List.getElem?_eq_getElem (by simpa using hN)]
    simp
  have hl : (allocatedFrame d).lock = false := rfl
  rw [allocateFramePool_fresh c hp]
  unfold fetchFrameFromPool
  simp only [fetchLoop, h0, test_and_set, hl, Bool.not_false, if_true]
  rfl

/-- On an idle driver without a pool, a start on which every transport call succeeds goes
through: slot 0 of the fresh pool becomes the in-progress frame. -/
theorem startStreaming_success {c : Consts} {t : Transport} {fuel : Nat} {d : UsbTvDriver}
    (hinit : d._initalized = true) (hidle : d._streamActive = false)
    (hp : d._framePool = none)
    (h1 : t.setInterface 0 0 = true) (h2 : setRegisters t c.VIDEO_INIT = true)
    (h3 : (match d._tvNorm with
      | .NTSC => setRegisters t c.NTSC_TV_NORM
      | .PAL => setRegisters t c.PAL_TV_NORM) = true)
    (h4 : (match d._input with
      | .USBTV_COMPOSITE_INPUT => setRegisters t c.COMPOSITE_INPUT
      | .USBTV_SVIDEO_INPUT => setRegisters t c.SVIDEO_INPUT) = true)
    (h5 : t.pthread_create = true) (h6 : t.setInterface 0 1 = true)
    (h7 : t.initIsoTransfers = true) (h8 : t.startIsoAsyncRead = true)
    (hN : 0 < c.USBTV_FRAME_POOL_SIZE) (hfuel : 0 < fuel) :
    startStreaming c t fuel d = .ok
      ({ d with
          _streamActive := true, _droppedFrameCounter := 0, _incompleteFrameCounter := 0,
          _packetsPerField :=
            ((d._frameWidth * d._frameHeight) / c.USBTV_PAYLOAD_SIZE) % 2 ^ 16,
          _framePool := some ((List.replicate c.USBTV_FRAME_POOL_SIZE (allocatedFrame d)).set 0
            { allocatedFrame d with lock := true, flags := c.FRAME_START }),
          _usbInputFrame := some 0, _processThreadRunning := true }, true) := by
  have hf := fetch_fresh (c := c) fuel
    (d := { d with _streamActive := true, _droppedFrameCounter := 0,
                   _incompleteFrameCounter := 0,
                   _packetsPerField :=
                     ((d._frameWidth * d._frameHeight) / c.USBTV_PAYLOAD_SIZE) % 2 ^ 16 })
    hp hN hfuel
  unfold startStreaming
  rw [if_pos ⟨hinit, by simp [hidle]⟩]
  simp only [h1, h2, h3, h4, h5, h6, h7, h8, Bool.not_true, Bool.false_eq_true, if_false,
    bind, Except.bind, hf]
  rfl

/-- C16, amended: `setTvNorm(0)` sets the frame dimensions 720 x 480 and `setTvNorm(1)`
sets 720 x 576 (on an idle driver nothing else changes; on a streaming one the restart
keeps them). When `startStreaming` returns true on a driver that was initialized and not
streaming, `_packetsPerField` is `(frameWidth * frameHeight) / USBTV_PAYLOAD_SIZE` reduced
to 16 bits, which is the quotient itself whenever that is below `2^16`, and both session
counters are 0; with a payload size of 960 the value is 360 after `setTvNorm(0)` and 432
after `setTvNorm(1)`. On every other driver (not initialized, or `_streamActive` already
set) `startStreaming` returns `_streamActive` and changes no field, so a true result there
says nothing about the counters or `_packetsPerField`. -/
theorem C16_session_geometry (c : Consts) (t : Transport) (fuel : Nat) (d : UsbTvDriver) :
    (d._streamActive = false →
      setTvNorm c t fuel d 0 = .ok
        ({ d with _tvNorm := TvNorm.NTSC, _frameWidth := 720, _frameHeight := 480 }, true) ∧
      setTvNorm c t fuel d 1 = .ok
        ({ d with _tvNorm := TvNorm.PAL, _frameWidth := 720, _frameHeight := 576 }, true)) ∧
    (∀ d0 b, setTvNorm c t fuel d 0 = .ok (d0, b) →
      d0._frameWidth = 720 ∧ d0._frameHeight = 480) ∧
    (∀ d0 b, setTvNorm c t fuel d 1 = .ok (d0, b) →
      d0._frameWidth = 720 ∧ d0._frameHeight = 576) ∧
    (d._initalized = true → d._streamActive = false →
      ∀ d1, startStreaming c t fuel d = .ok (d1, true) →
        d1._packetsPerField
          = ((d._frameWidth * d._frameHeight) / c.USBTV_PAYLOAD_SIZE) % 2 ^ 16 ∧
        ((d._frameWidth * d._frameHeight) / c.USBTV_PAYLOAD_SIZE < 2 ^ 16 →
          d1._packetsPerField = (d._frameWidth * d._frameHeight) / c.USBTV_PAYLOAD_SIZE) ∧
        d1._droppedFrameCounter = 0 ∧ d1._incompleteFrameCounter = 0 ∧
        d1._frameWidth = d._frameWidth ∧ d1._frameHeight = d._frameHeight) ∧
    (c.USBTV_PAYLOAD_SIZE = 960 → d._initalized = true → d._streamActive = false →
      ∀ (code : Int) d0 d1, (code = 0 ∨ code = 1) →
        setTvNorm c t fuel d code = .ok (d0, true) →
        startStreaming c t fuel d0 = .ok (d1, true) →
        d1._packetsPerField = (if code = 0 then 360 else 432) ∧
        d1._droppedFrameCounter = 0 ∧ d1._incompleteFrameCounter = 0) ∧
    (¬ (d._initalized = true ∧ d._streamActive = false) →
      startStreaming c t fuel d = .ok (d, d._streamActive)) := by
  have hstart : ∀ (e : UsbTvDriver), e._initalized = true → e._streamActive = false →
      ∀ d1, startStreaming c t fuel e = .ok (d1, true) →
        d1._packetsPerField
          = ((e._frameWidth * e._frameHeight) / c.USBTV_PAYLOAD_SIZE) % 2 ^ 16 ∧
        d1._droppedFrameCounter = 0 ∧ d1._incompleteFrameCounter = 0 ∧
        d1._frameWidth = e._frameWidth ∧ d1._frameHeight = e._frameHeight := by
    intro e hinit hidle d1 h
    obtain ⟨r, hr, hd1⟩ := startStreaming_true_inv hinit hidle h
    have hs := (allocateFramePool_same c _).trans (fetchFrameFromPool_same hr)
    unfold SameButPool at hs
    rw [hd1, hs]
    exact ⟨rfl, rfl, rfl, rfl, rfl⟩
  have hidle0 : d._streamActive = false →
      setTvNorm c t fuel d 0 = .ok
        ({ d with _tvNorm := TvNorm.NTSC, _frameWidth := 720, _frameHeight := 480 }, true) := by
    intro hidle
    simp [setTvNorm, restartIfStreaming, hidle, pure, Except.pure]
  have hidle1 : d._streamActive = false →
      setTvNorm c t fuel d 1 = .ok
        ({ d with _tvNorm := TvNorm.PAL, _frameWidth := 720, _frameHeight := 576 }, true) := by
    intro hidle
    simp [setTvNorm, restartIfStreaming, hidle, pure, Except.pure]
  refine ⟨fun hidle => ⟨hidle0 hidle, hidle1 hidle⟩, ?_, ?_, ?_, ?_, ?_⟩
  · intro d0 b h
    unfold setTvNorm at h
    rw [if_pos rfl] at h
    have hg := restartIfStreaming_geometry h
    simp only [UsbTvDriver.geometry, Prod.mk.injEq] at hg
    exact ⟨hg.2.1, hg.2.2⟩
  · intro d0 b h
    unfold setTvNorm at h
    rw [if_neg (by decide), if_pos rfl] at h
    have hg := restartIfStreaming_geometry h
    simp only [UsbTvDriver.geometry, Prod.mk.injEq] at hg
    exact ⟨hg.2.1, hg.2.2⟩
  · intro hinit hidle d1 h
    obtain ⟨e1, e2, e3, e4, e5⟩ := hstart d hinit hidle d1 h
    exact ⟨e1, fun hlt => e1.trans (Nat.mod_eq_of_lt hlt), e2, e3, e4, e5⟩
  · intro hP hinit hidle code d0 d1 hcode h0 h1
    rcases hcode with rfl | rfl
    · rw [hidle0 hidle] at h0
      cases h0
      obtain ⟨e1, e2, e3, -⟩ := hstart
        { d with _tvNorm := TvNorm.NTSC, _frameWidth := 720, _frameHeight := 480 }
        hinit hidle d1 h1
      refine ⟨?_, e2, e3⟩
      rw [e1, hP, if_pos rfl]
      show 720 * 480 / 960 % 2 ^ 16 = 360
      norm_num
    · rw [hidle1 hidle] at h0
      cases h0
      obtain ⟨e1, e2, e3, -⟩ := hstart
        { d with _tvNorm := TvNorm.PAL, _frameWidth := 720, _frameHeight := 576 }
        hinit hidle d1 h1
      refine ⟨?_, e2, e3⟩
      rw [e1, hP, if_neg (by decide)]
      show 720 * 576 / 960 % 2 ^ 16 = 432
      norm_num
  · intro hnot
    unfold startStreaming
    rw [if_neg (fun h => hnot ⟨h.1, by simpa using h.2⟩)]
    rfl

/-- C16 at the spec's payload size: an idle driver set to NTSC and to PAL and started on a
transport on which every call succeeds. -/
theorem C16_session_geometry_witness :
    (∃ d0 d1, setTvNorm specConsts goodTransport 4 (idleDriver .PROGRESSIVE) 0
        = .ok (d0, true) ∧
      startStreaming specConsts goodTransport 4 d0 = .ok (d1, true) ∧
      d0._frameWidth = 720 ∧ d0._frameHeight = 480 ∧ d1._packetsPerField = 360 ∧
      d1._droppedFrameCounter = 0 ∧ d1._incompleteFrameCounter = 0) ∧
    (∃ d0 d1, setTvNorm specConsts goodTransport 4 (idleDriver .PROGRESSIVE) 1
        = .ok (d0, true) ∧
      startStreaming specConsts goodTransport 4 d0 = .ok (d1, true) ∧
      d0._frameWidth = 720 ∧ d0._frameHeight = 576 ∧ d1._packetsPerField = 432) := by
  obtain ⟨hset, hd0, hd1, -, h960, -⟩ :=
    C16_session_geometry specConsts goodTransport 4 (idleDriver .PROGRESSIVE)
  obtain ⟨hs0, hs1⟩ := hset rfl
  have hst0 := startStreaming_success (c := specConsts) (t := goodTransport)
    (d := { idleDriver .PROGRESSIVE with
      _tvNorm := TvNorm.NTSC, _frameWidth := 720, _frameHeight := 480 })
    rfl rfl rfl rfl rfl rfl rfl rfl rfl rfl rfl (by decide) (show 0 < 4 by decide)
  have hst1 := startStreaming_success (c := specConsts) (t := goodTransport)
    (d := { idleDriver .PROGRESSIVE with
      _tvNorm := TvNorm.PAL, _frameWidth := 720, _frameHeight := 576 })
    rfl rfl rfl rfl rfl rfl rfl rfl rfl rfl rfl (by decide) (show 0 < 4 by decide)
  constructor
  · obtain ⟨e1, e2, e3⟩ := h960 rfl rfl rfl 0 _ _ (Or.inl rfl) hs0 hst0
    exact ⟨_, _, hs0, hst0, (hd0 _ _ hs0).1, (hd0 _ _ hs0).2, e1, e2, e3⟩
  · obtain ⟨e1, -⟩ := h960 rfl rfl rfl 1 _ _ (Or.inr rfl) hs1 hst1
    exact ⟨_, _, hs1, hst1, (hd1 _ _ hs1).1, (hd1 _ _ hs1).2, e1⟩

/-- C16 as worded, for every `startStreaming` that returns true, fails in two ways. On a
session that has finalized an incomplete frame with no consumer waiting (packets 0 and 2
of three), a second `startStreaming` returns true and both counters are 1. After a start
that failed at the first `setInterface(0, 0)`, the next `startStreaming` returns true and
`_packetsPerField` is still 0, while `(frameWidth * frameHeight) / USBTV_PAYLOAD_SIZE`
is 3. -/
theorem C16_session_geometry_counterexample :
    (∃ d1 d2,
      startStreaming tinyConsts goodTransport 4 (idleDriver .PROGRESSIVE) = .ok (d1, true) ∧
      feed tinyConsts 4 d1 [tinyPacket 7 0 true 10, tinyPacket 7 2 true 70]
        = .ok (d2, [Event.frameDropped 7]) ∧
      startStreaming tinyConsts goodTransport 4 d2 = .ok (d2, true) ∧
      d2._droppedFrameCounter = 1 ∧ d2._incompleteFrameCounter = 1) ∧
    (∃ d1,
      startStreaming tinyConsts badInterfaceTransport 4 (idleDriver .PROGRESSIVE)
        = .ok (d1, false) ∧
      startStreaming tinyConsts badInterfaceTransport 4 d1 = .ok (d1, true) ∧
      d1._packetsPerField = 0 ∧
      (d1._frameWidth * d1._frameHeight) / tinyConsts.USBTV_PAYLOAD_SIZE = 3) := by
  exact ⟨⟨_, _, rfl, rfl, rfl, rfl, rfl⟩, ⟨_, rfl, rfl, rfl, rfl⟩⟩

/-! ## Transfer slicing -/

theorem specSlices_cons (c : Consts) (dsc : IsoPacketDesc) (rest : List IsoPacketDesc) :
    specSlices c (dsc :: rest)
      = (if dsc.status = 0 then
          (List.range (dsc.actual_length / c.USBTV_PACKET_SIZE)).map
            fun j => j * c.USBTV_PACKET_SIZE
        else []) ++ (specSlices c rest).map (fun x => dsc.length + x) := by
  unfold specSlices
  rw [List.length_cons, List.range_succ_eq_map, List.flatMap_cons, List.flatMap_map,
    List.map_flatMap]
  congr 1
  · simp
  · congr 1
    funext i
    simp only [Function.comp, List.getElem?_cons_succ, List.take_succ_cons, List.map_cons,
      List.sum_cons]
    cases rest[i]? with
    | none => rfl
    | some e =>
      simp only []
      split
      · simp [List.map_map, Function.comp, Nat.add_assoc]
      · rfl

theorem urbSlices_eq (c : Consts) :
    ∀ (descs : List IsoPacketDesc) (buffer packetOffset : Nat),
      urbSlices c descs buffer packetOffset
        = (specSlices c descs).map (fun x => buffer + packetOffset + x)
  | [], _, _ => by simp [urbSlices, specSlices]
  | dsc :: rest, buffer, packetOffset => by
    rw [specSlices_cons, urbSlices, urbSlices_eq c rest]
    simp only [List.map_append, List.map_map]
    congr 1
    · split
      · simp [List.map_map, Function.comp]
      · rfl
    · simp [Function.comp, Nat.add_assoc]

/-- C17: for every completed transfer with descriptors `d_0 .. d_{n-1}`, the sub-packets
that `onUrbReceived` hands to `processPacket` are, in call order, those at the byte offsets
`(sum of d_k.length for k < i) + j * USBTV_PACKET_SIZE` for each `i` with `d_i.status = 0`
and each `j < d_i.actual_length / USBTV_PACKET_SIZE`, in increasing `(i, j)` order, and
`onUrbReceived` is the sequence of `processPacket` calls on exactly these. A descriptor
with non-zero status contributes none, and every sub-packet processed ends within the
`actual_length` of its descriptor, so a trailing remainder is never processed. -/
theorem C17_transfer_slicing (c : Consts) (fuel : Nat) (decode : Nat → Packet)
    (d : UsbTvDriver) (descs : List IsoPacketDesc) :
    urbSlices c descs 0 0 = specSlices c descs ∧
    onUrbReceived c fuel decode d descs = feed c fuel d ((specSlices c descs).map decode) ∧
    (∀ dsc, dsc.status ≠ 0 → ∀ b o, urbSlices c [dsc] b o = []) ∧
    (∀ dsc ∈ descs, ∀ j, j < dsc.actual_length / c.USBTV_PACKET_SIZE →
      j * c.USBTV_PACKET_SIZE + c.USBTV_PACKET_SIZE ≤ dsc.actual_length) := by
  have h1 : urbSlices c descs 0 0 = specSlices c descs := by
    rw [urbSlices_eq]
    simp
  refine ⟨h1, ?_, ?_, ?_⟩
  · unfold onUrbReceived
    rw [h1]
  · intro dsc hs b o
    simp [urbSlices, hs]
  · intro dsc _ j hj
    have h := Nat.div_mul_le_self dsc.actual_length c.USBTV_PACKET_SIZE
    have h2 : (j + 1) * c.USBTV_PACKET_SIZE
        ≤ dsc.actual_length / c.USBTV_PACKET_SIZE * c.USBTV_PACKET_SIZE :=
      Nat.mul_le_mul_right _ hj
    rw [Nat.add_mul, Nat.one_mul] at h2
    omega

theorem C17_transfer_slicing_witness :
    urbSlices tinyConsts
        [⟨48, 40, 0⟩, ⟨48, 48, 1⟩, ⟨48, 16, 0⟩] 0 0 = [0, 16, 96] ∧
    specSlices tinyConsts [⟨48, 40, 0⟩, ⟨48, 48, 1⟩, ⟨48, 16, 0⟩] = [0, 16, 96] := by
  have h := (C17_transfer_slicing tinyConsts 0 (fun _ => tinyPacket 5 0 false 0)
    (tinyDriver .PROGRESSIVE false 0 0) [⟨48, 40, 0⟩, ⟨48, 48, 1⟩, ⟨48, 16, 0⟩]).1
  have h2 : specSlices tinyConsts [⟨48, 40, 0⟩, ⟨48, 48, 1⟩, ⟨48, 16, 0⟩] = [0, 16, 96] := by
    decide
  exact ⟨h.trans h2, h2⟩

/-! ## Write bounds -/

theorem poolShape_inv {d : UsbTvDriver} {L : Nat} (h : d.poolShape L) :
    ∃ pool i, d._framePool = some pool ∧ d._usbInputFrame = some i ∧ i < pool.length ∧
      ∀ fr ∈ pool, fr.hasSize L := by
  unfold UsbTvDriver.poolShape at h
  split at h
  · rename_i pool i hp hi
    exact ⟨pool, i, hp, hi, h.1, h.2⟩
  · exact h.elim

theorem poolShape_intro {d : UsbTvDriver} {L : Nat} {pool : List UsbTvFrame} {i : Nat}
    (hp : d._framePool = some pool) (hi : d._usbInputFrame = some i) (hlt : i < pool.length)
    (hall : ∀ fr ∈ pool, fr.hasSize L) : d.poolShape L := by
  unfold UsbTvDriver.poolShape
  rw [hp, hi]
  exact ⟨hlt, hall⟩

theorem kept_same (L : Nat) (d : UsbTvDriver) : Kept L d d := ⟨rfl, id⟩

theorem kept_chain {L : Nat} {a b e : UsbTvDriver} (h1 : Kept L a b) (h2 : Kept L b e) :
    Kept L a e :=
  ⟨h2.1.trans h1.1, fun h => h2.2 (h1.2 h)⟩

theorem hasSize_set {L : Nat} {pool : List UsbTvFrame} {i : Nat} {fr : UsbTvFrame}
    (hall : ∀ g ∈ pool, g.hasSize L) (hfr : fr.hasSize L) :
    ∀ g ∈ pool.set i fr, g.hasSize L := by
  intro g hg
  rcases List.mem_or_eq_of_mem_set hg with h | h
  · exact hall g h
  · rw [h]; exact hfr

theorem storeFrame_kept {L : Nat} {d d1 : UsbTvDriver} {ptr : Option Nat} {fr : UsbTvFrame}
    (hfr : fr.hasSize L) (h : storeFrame d ptr fr = .ok d1) : Kept L d d1 := by
  obtain ⟨i, pool, _, hp, _, rfl⟩ := storeFrame_inv h
  refine ⟨rfl, fun hs => ?_⟩
  obtain ⟨pool1, j, hp1, hj, hlt, hall⟩ := poolShape_inv hs
  rw [hp] at hp1
  cases hp1
  exact poolShape_intro (show _ = some (pool.set i fr) from rfl) hj
    (by rw [List.length_set]; exact hlt)
    (hasSize_set hall hfr)

theorem derefFrame_hasSize {L : Nat} {d : UsbTvDriver} {ptr : Option Nat} {fr : UsbTvFrame}
    (hs : d.poolShape L) (h : derefFrame d ptr = .ok fr) : fr.hasSize L := by
  obtain ⟨i, pool, _, hp, hi⟩ := derefFrame_inv h
  obtain ⟨pool1, j, hp1, _, _, hall⟩ := poolShape_inv hs
  rw [hp] at hp1
  cases hp1
  exact hall fr (List.getElem?_mem hi)

theorem memcpy_length {dst src buf : List Nat} {off srcOff n : Nat}
    (h : memcpy dst off src srcOff n = .ok buf) : buf.length = dst.length := by
  unfold memcpy at h
  split at h
  · rename_i hc
    cases h
    exact blit_length hc.1 hc.2
  · cases h

/-- A step that reads the in-progress frame, changes fields other than the buffer size and
replaces the buffer by one of the same length, and stores it back. -/
theorem rewrite_kept {L : Nat} {d d1 : UsbTvDriver} {ptr ptr1 : Option Nat}
    {fr fr1 : UsbTvFrame} (hd : derefFrame d ptr = .ok fr)
    (h : storeFrame d ptr1 fr1 = .ok d1)
    (hsz : fr1.bufferSize = fr.bufferSize) (hlen : fr1.buffer.length = fr.buffer.length) :
    Kept L d d1 := by
  by_cases hs : d.poolShape L
  · have hf := derefFrame_hasSize hs hd
    exact storeFrame_kept ⟨hsz.trans hf.1, hlen.trans hf.2⟩ h
  · exact ⟨(storeFrame_same h) ▸ rfl, fun h1 => (hs h1).elim⟩

theorem packetToProgressiveFrame_kept {L : Nat} {c : Consts} {d d1 : UsbTvDriver}
    {packet : List Nat} {n : Nat} (h : packetToProgressiveFrame c d packet n = .ok d1) :
    Kept L d d1 := by
  unfold packetToProgressiveFrame at h
  obtain ⟨fr, hfr, h⟩ := bind_ok_inv h
  obtain ⟨buf, hbuf, h⟩ := bind_ok_inv h
  exact rewrite_kept hfr h rfl (memcpy_length hbuf)

theorem interleavedHalf_kept {L : Nat} {c : Consts} {d d1 : UsbTvDriver} {packet : List Nat}
    {n k : Nat} {o : Bool} (h : interleavedHalf c packet n o d k = .ok d1) : Kept L d d1 := by
  unfold interleavedHalf at h
  obtain ⟨fr, hfr, h⟩ := bind_ok_inv h
  obtain ⟨buf, hbuf, h⟩ := bind_ok_inv h
  exact rewrite_kept hfr h rfl (memcpy_length hbuf)

theorem packetToInterleavedFrame_kept {L : Nat} {c : Consts} {d d1 : UsbTvDriver}
    {packet : List Nat} {n : Nat} {o : Bool}
    (h : packetToInterleavedFrame c d packet n o = .ok d1) : Kept L d d1 := by
  unfold packetToInterleavedFrame at h
  obtain ⟨d2, h2, h⟩ := bind_ok_inv h
  exact kept_chain (interleavedHalf_kept h2) (interleavedHalf_kept h)

theorem writePacket_kept {L : Nat} {c : Consts} {d d1 : UsbTvDriver} {p : Packet}
    (h : writePacket c d p = .ok d1) : Kept L d d1 := by
  unfold writePacket at h
  split at h
  · exact packetToProgressiveFrame_kept h
  · split at h
    · exact packetToProgressiveFrame_kept h
    · cases h; exact kept_same _ _
  · exact packetToInterleavedFrame_kept h

theorem beginFrame_kept {L : Nat} {c : Consts} {d d1 : UsbTvDriver} {p : Packet}
    (h : beginFrame c d p = .ok d1) : Kept L d d1 := by
  by_cases hnew : p.packetNumber = 0 ∨ p.frameId ≠ d._currentFrameId
  · have h0 := h
    unfold beginFrame at h0
    rw [if_pos hnew] at h0
    obtain ⟨fr, hfr, _⟩ := bind_ok_inv h0
    obtain ⟨i, pool, hptr, hp, hi⟩ := derefFrame_inv hfr
    rw [beginFrame_new hnew hptr hp hi] at h
    cases h
    have hlt : i < pool.length := (List.getElem?_eq_some_iff.mp hi).1
    have hst : storeFrame d (some i) { fr with flags := c.FRAME_IN_PROGRESS }
        = .ok { d with _framePool := some (pool.set i { fr with flags := c.FRAME_IN_PROGRESS }) } :=
      storeFrame_ok _ hp hlt
    have hk : Kept L d _ := rewrite_kept hfr hst rfl rfl
    exact ⟨hk.1, fun hs => hk.2 hs⟩
  · rw [beginFrame_old hnew] at h
    cases h
    exact kept_same _ _

theorem acceptPacket_kept {L : Nat} {c : Consts} {d d1 : UsbTvDriver} {p : Packet}
    (h : acceptPacket c d p = .ok d1) : Kept L d d1 := by
  unfold acceptPacket at h
  obtain ⟨a, ha, h⟩ := bind_ok_inv h
  obtain ⟨b, hb, h⟩ := bind_ok_inv h
  cases h
  have hk : Kept L d b := kept_chain (beginFrame_kept ha) (writePacket_kept hb)
  exact ⟨hk.1, fun hs => hk.2 hs⟩

theorem markFinishedFrame_kept {L : Nat} {c : Consts} {d d1 : UsbTvDriver}
    (h : markFinishedFrame c d = .ok d1) : Kept L d d1 := by
  unfold markFinishedFrame at h
  split at h
  · obtain ⟨fr, hfr, h⟩ := bind_ok_inv h
    obtain ⟨d2, h2, h⟩ := bind_ok_inv h
    cases h
    have hk : Kept L d d2 := rewrite_kept hfr h2 rfl rfl
    exact ⟨hk.1, fun hs => hk.2 hs⟩
  · obtain ⟨fr, hfr, h⟩ := bind_ok_inv h
    exact rewrite_kept hfr h rfl rfl

theorem fetchLoop_shape (c : Consts) (L : Nat) :
    ∀ (fuel index : Nat) (pool : List UsbTvFrame) (r : Nat × List UsbTvFrame),
      fetchLoop c fuel index pool = .ok r → (∀ fr ∈ pool, fr.hasSize L) →
      r.1 < r.2.length ∧ ∀ fr ∈ r.2, fr.hasSize L
  | 0, _, _, _, h, _ => by cases h
  | fuel + 1, index, pool, r, h, hall => by
    unfold fetchLoop at h
    split at h
    · cases h
    · rename_i frame hfr
      have hlt : index < pool.length := (List.getElem?_eq_some_iff.mp hfr).1
      have hf : frame.hasSize L := hall frame (List.getElem?_mem hfr)
      simp only [test_and_set] at h
      split at h
      · cases h
        exact ⟨by simp only [List.length_set]; exact hlt, hasSize_set hall hf⟩
      · exact fetchLoop_shape c L fuel _ _ r h (hasSize_set hall hf)

theorem fetchFrameFromPool_shape {L : Nat} {c : Consts} {fuel : Nat} {d : UsbTvDriver}
    {r : Nat × UsbTvDriver} (h : fetchFrameFromPool c fuel d = .ok r) :
    Kept L d { r.2 with _usbInputFrame := some r.1 } := by
  unfold fetchFrameFromPool at h
  split at h
  · cases h
  · rename_i pool hp
    obtain ⟨q, hq, h⟩ := bind_ok_inv h
    cases h
    refine ⟨rfl, fun hs => ?_⟩
    obtain ⟨pool1, j, hp1, _, _, hall⟩ := poolShape_inv hs
    rw [hp] at hp1
    cases hp1
    obtain ⟨h1, h2⟩ := fetchLoop_shape c L fuel 0 pool q hq hall
    exact poolShape_intro (show _ = some q.2 from rfl) rfl h1 h2

theorem notifyFrameComplete_kept {L : Nat} {c : Consts} {fuel : Nat} {d : UsbTvDriver}
    {r : UsbTvDriver × List Event} (h : notifyFrameComplete c fuel d = .ok r) :
    Kept L d r.1 := by
  unfold notifyFrameComplete at h
  split at h
  · obtain ⟨fr, hfr, h⟩ := bind_ok_inv h
    obtain ⟨d2, h2, h⟩ := bind_ok_inv h
    obtain ⟨q, hq, h⟩ := bind_ok_inv h
    obtain ⟨out, _, h⟩ := bind_ok_inv h
    cases h
    have hk1 : Kept L { d with _frameWait := false } d2 := rewrite_kept hfr h2 rfl rfl
    have hk2 : Kept L { d2 with _processFrame := d2._usbInputFrame }
        { q.2 with _usbInputFrame := some q.1 } := fetchFrameFromPool_shape hq
    exact ⟨hk2.1.trans hk1.1, fun hs => hk2.2 (hk1.2 hs)⟩
  · obtain ⟨fr, hfr, h⟩ := bind_ok_inv h
    obtain ⟨d2, h2, h⟩ := bind_ok_inv h
    cases h
    have hk1 : Kept L { d with _droppedFrameCounter := d._droppedFrameCounter + 1 } d2 :=
      rewrite_kept hfr h2 rfl rfl
    exact ⟨hk1.1, fun hs => hk1.2 hs⟩

theorem dispatchFinishedFrame_kept {L : Nat} {c : Consts} {fuel : Nat} {d : UsbTvDriver}
    {isOdd : Bool} {r : UsbTvDriver × List Event}
    (h : dispatchFinishedFrame c fuel d isOdd = .ok r) : Kept L d r.1 := by
  unfold dispatchFinishedFrame at h
  split at h
  · exact notifyFrameComplete_kept h
  · split at h
    · exact notifyFrameComplete_kept h
    · cases h; exact kept_same _ _
  · split at h
    · obtain ⟨q, hq, h⟩ := bind_ok_inv h
      cases h
      have hk : Kept L d q.1 := notifyFrameComplete_kept hq
      exact ⟨hk.1, fun hs => hk.2 hs⟩
    · split at h
      · cases h; exact ⟨rfl, fun hs => hs⟩
      · cases h; exact kept_same _ _

theorem checkFinishedFrame_kept {L : Nat} {c : Consts} {fuel : Nat} {d : UsbTvDriver}
    {isOdd : Bool} {r : UsbTvDriver × List Event}
    (h : checkFinishedFrame c fuel d isOdd = .ok r) : Kept L d r.1 := by
  unfold checkFinishedFrame at h
  obtain ⟨d1, h1, h⟩ := bind_ok_inv h
  exact kept_chain (markFinishedFrame_kept h1) (dispatchFinishedFrame_kept h)

theorem processPacket_kept {L : Nat} {c : Consts} {fuel : Nat} {d : UsbTvDriver} {p : Packet}
    {r : UsbTvDriver × List Event} (h : processPacket c fuel d p = .ok r) :
    Kept L d r.1 := by
  unfold processPacket at h
  split at h
  · split at h
    · cases h; exact kept_same _ _
    · obtain ⟨d1, h1, h⟩ := bind_ok_inv h
      have hk := acceptPacket_kept (L := L) h1
      split at h
      · exact kept_chain hk (checkFinishedFrame_kept h)
      · cases h; exact hk
  · cases h; exact kept_same _ _

theorem allocatedFrame_congr {d d1 : UsbTvDriver} (h : d1.session = d.session) :
    allocatedFrame d1 = allocatedFrame d := by
  unfold UsbTvDriver.session at h
  simp only [Prod.mk.injEq] at h
  obtain ⟨h1, h2, h3, -⟩ := h
  unfold allocatedFrame
  rw [h1, h2, h3]

theorem sessionShape_kept {c : Consts} {d d1 : UsbTvDriver}
    (hk : Kept (allocatedFrame d).bufferSize d d1) (hs : d.sessionShape c) :
    d1.sessionShape c := by
  have hsess := hk.1
  have ha := allocatedFrame_congr hsess
  unfold UsbTvDriver.session at hsess
  simp only [Prod.mk.injEq] at hsess
  obtain ⟨h1, h2, -, h4⟩ := hsess
  unfold UsbTvDriver.sessionShape at *
  rw [ha, h1, h2, h4]
  exact ⟨hs.1, hk.2 hs.2⟩

theorem startStreaming_sessionShape {c : Consts} {t : Transport} {fuel : Nat}
    {d d1 : UsbTvDriver} (hinit : d._initalized = true) (hidle : d._streamActive = false)
    (hp : d._framePool = none) (h : startStreaming c t fuel d = .ok (d1, true)) :
    d1.sessionShape c ∧ d1._frameWidth = d._frameWidth ∧ d1._frameHeight = d._frameHeight ∧
      d1._scanType = d._scanType := by
  obtain ⟨r, hr, rfl⟩ := startStreaming_true_inv hinit hidle h
  obtain ⟨hN, rfl⟩ := fetch_fresh_inv (by exact hp) hr
  refine ⟨⟨rfl, ?_⟩, rfl, rfl, rfl⟩
  have hsz : (allocatedFrame d).hasSize (allocatedFrame d).bufferSize := by
    refine ⟨rfl, ?_⟩
    simp only [allocatedFrame, List.length_replicate, Nat.mod_mod]
  refine poolShape_intro (i := 0) rfl rfl ?_ ?_
  · simp only [List.length_set, List.length_replicate]
    exact hN
  · apply hasSize_set
    · intro g hg
      rw [(List.mem_replicate.mp hg).2]
      exact hsz
    · exact hsz

theorem writeRanges_of_writeFits {c : Consts} {scan : ScanType} {w : Nat} {p : Packet}
    {buf : List Nat} (h : writeFits c scan w p buf) :
    ∀ r ∈ writeRanges c scan w p, r.1 + r.2 ≤ buf.length := by
  intro r hr
  cases scan with
  | PROGRESSIVE =>
    simp only [writeRanges, List.mem_singleton] at hr
    simp only [writeFits] at h
    rw [hr]
    exact h.1
  | DISCARD =>
    simp only [writeRanges] at hr
    simp only [writeFits] at h
    split at hr
    · rename_i ho
      simp only [List.mem_singleton] at hr
      rw [hr]
      exact (h ho).1
    · cases hr
  | INTERLEAVED =>
    simp only [writeRanges, List.mem_cons, List.mem_singleton, List.mem_nil_iff,
      or_false] at hr
    simp only [writeFits] at h
    rcases hr with hr | hr
    · rw [hr]; exact h.1
    · rw [hr]; exact h.2.1

theorem interleavedOffset_fits {c : Consts} (hc : c.USBTV_PAYLOAD_SIZE = 960) {N pn h : Nat}
    (o : Bool) (hN : N = 360 ∨ N = 432) (hpn : pn < N) (hh : h < 2) :
    interleavedOffset c 720 pn h o + 480 ≤ N * 1920 := by
  have hspec : specInterleavedOffset 960 720 pn h o + 480 ≤ N * 1920 := by
    unfold specInterleavedOffset specLineIndex specPartIndex
    cases o
    · simp only [Bool.false_eq_true, if_false]
      rcases hN with hN | hN <;> omega
    · simp only [if_true]
      rcases hN with hN | hN <;> omega
  have hnw : interleavedNoWrap c 720 pn h o := by
    refine ⟨by rw [hc]; norm_num, by omega, ?_⟩
    rw [hc]
    rcases hN with hN | hN <;> omega
  rw [interleavedOffset_eq_spec hnw, hc]
  exact hspec

theorem writeFits_spec_geometry {c : Consts} {d : UsbTvDriver} {p : Packet} {buf : List Nat}
    (hc : c.USBTV_PAYLOAD_SIZE = 960) (hw : d._frameWidth = 720)
    (hh : d._frameHeight = 480 ∨ d._frameHeight = 576)
    (hppf : d._packetsPerField
      = ((d._frameWidth * d._frameHeight) / c.USBTV_PAYLOAD_SIZE) % 2 ^ 16)
    (hbuf : buf.length = (allocatedFrame d).bufferSize)
    (hpay : p.payload.length = 960) (hlt : p.packetNumber < d._packetsPerField) :
    writeFits c d._scanType d._frameWidth p buf := by
  have hN : (d._packetsPerField = 360 ∧ d._frameHeight = 480) ∨
      (d._packetsPerField = 432 ∧ d._frameHeight = 576) := by
    rw [hppf, hw, hc]
    rcases hh with hh | hh
    · left; rw [hh]; exact ⟨by norm_num, rfl⟩
    · right; rw [hh]; exact ⟨by norm_num, rfl⟩
  have hL : buf.length
      = if d._scanType = ScanType.INTERLEAVED then d._packetsPerField * 1920
        else d._packetsPerField * 960 := by
    rw [hbuf]
    unfold allocatedFrame
    simp only []
    rw [hw]
    rcases hN with ⟨h1, h2⟩ | ⟨h1, h2⟩
    · rw [h1, h2]; split <;> norm_num
    · rw [h1, h2]; split <;> norm_num
  have hN1 : d._packetsPerField = 360 ∨ d._packetsPerField = 432 := by
    rcases hN with h | h
    · exact Or.inl h.1
    · exact Or.inr h.1
  rw [hw]
  cases hs : d._scanType with
  | PROGRESSIVE =>
    rw [hs, if_neg (by decide)] at hL
    simp only [writeFits]
    have e : (p.packetNumber * 960) % 2 ^ 32 = p.packetNumber * 960 :=
      Nat.mod_eq_of_lt (by rcases hN1 with h | h <;> omega)
    rw [hc, hL, hpay, e]
    refine ⟨?_, le_refl _⟩
    rcases hN1 with h | h <;> omega
  | DISCARD =>
    rw [hs, if_neg (by decide)] at hL
    simp only [writeFits]
    have e : (p.packetNumber * 960) % 2 ^ 32 = p.packetNumber * 960 :=
      Nat.mod_eq_of_lt (by rcases hN1 with h | h <;> omega)
    rw [hc, hL, hpay, e]
    intro _
    refine ⟨?_, le_refl _⟩
    rcases hN1 with h | h <;> omega
  | INTERLEAVED =>
    rw [hs, if_pos rfl] at hL
    simp only [writeFits]
    have e : (c.USBTV_PAYLOAD_SIZE / 2) % 2 ^ 32 = 480 := by rw [hc]; norm_num
    rw [e, hL, hpay]
    exact ⟨interleavedOffset_fits hc p.isOdd hN1 hlt (by decide),
      interleavedOffset_fits hc p.isOdd hN1 hlt (by decide), by norm_num⟩

/-- C19: with `USBTV_PAYLOAD_SIZE = 960`, frame width 720, frame height 480 or 576, any
scan type, and a driver in the state of a session (packets per field and pool buffer sizes
as `startStreaming` and `allocateFramePool` compute them), a valid packet of any number and
parity is either at or beyond `_packetsPerField` and ignored without a write, or every
range `(offset, length)` that `processPacket` copies into the in-progress frame satisfies
`offset + length <= bufferSize`, the allocation has `bufferSize` bytes and the copy
succeeds. Every successful `processPacket` keeps the driver in that state, and every
successful `startStreaming` from an initialized idle driver without a pool puts it there. -/
theorem C19_write_bounds (c : Consts) (fuel : Nat) (d : UsbTvDriver) (p : Packet)
    (hc : c.USBTV_PAYLOAD_SIZE = 960) (hw : d._frameWidth = 720)
    (hh : d._frameHeight = 480 ∨ d._frameHeight = 576)
    (hs : d.sessionShape c) (hok : p.frameOk = true) (hpay : p.payload.length = 960) :
    (d._packetsPerField ≤ p.packetNumber → processPacket c fuel d p = .ok (d, [])) ∧
    (p.packetNumber < d._packetsPerField →
      ∃ fr d1, derefFrame d d._usbInputFrame = .ok fr ∧
        (∀ r ∈ writeRanges c d._scanType d._frameWidth p, r.1 + r.2 ≤ fr.bufferSize) ∧
        fr.buffer.length = fr.bufferSize ∧
        acceptPacket c d p = .ok d1) ∧
    (∀ d1 ev, processPacket c fuel d p = .ok (d1, ev) →
      d1.sessionShape c ∧ d1.session = d.session) ∧
    (∀ t d0 d1, d0._initalized = true → d0._streamActive = false → d0._framePool = none →
      startStreaming c t fuel d0 = .ok (d1, true) →
      d1.sessionShape c ∧ d1._frameWidth = d0._frameWidth ∧
        d1._frameHeight = d0._frameHeight ∧ d1._scanType = d0._scanType) := by
  refine ⟨?_, ?_, ?_, ?_⟩
  · intro hge
    unfold processPacket
    rw [if_pos hok, if_pos hge]
    rfl
  · intro hlt
    obtain ⟨pool, i, hp, hi, hil, hall⟩ := poolShape_inv hs.2
    have hget : pool[i]? = some pool[i] := List.getElem?_eq_getElem hil
    have hsz := hall pool[i] (List.getElem_mem hil)
    have hfit : writeFits c d._scanType d._frameWidth p pool[i].buffer :=
      writeFits_spec_geometry hc hw hh hs.1 hsz.2 hpay hlt
    obtain ⟨d1, -, hacc, -⟩ := acceptPacket_ok (c := c) hi hp hget hfit
    refine ⟨pool[i], d1, hi ▸ derefFrame_ok hp hget, ?_, hsz.2.trans hsz.1.symm, hacc⟩
    intro r hr
    rw [hsz.1, ← hsz.2]
    exact writeRanges_of_writeFits hfit r hr
  · intro d1 ev h
    have hk : Kept (allocatedFrame d).bufferSize d d1 := processPacket_kept h
    exact ⟨sessionShape_kept hk hs, hk.1⟩
  · intro t d0 d1 hinit hidle hp h
    exact startStreaming_sessionShape hinit hidle hp h

theorem C19_write_bounds_witness :
    processPacket specConsts 4 specDriver (specPacket 1 360 false) = .ok (specDriver, []) ∧
    ∃ fr d1, derefFrame specDriver (some 0) = .ok fr ∧
      (∀ r ∈ writeRanges specConsts .INTERLEAVED 720 (specPacket 1 359 false),
        r.1 + r.2 ≤ fr.bufferSize) ∧
      fr.buffer.length = fr.bufferSize ∧
      acceptPacket specConsts specDriver (specPacket 1 359 false) = .ok d1 := by
  have hshape : specDriver.sessionShape specConsts := by
    refine ⟨by norm_num [specDriver, specConsts], ?_⟩
    refine poolShape_intro (i := 0) rfl rfl (by simp) ?_
    have hsz : ∀ f l, (specFrame f l).hasSize (allocatedFrame specDriver).bufferSize := by
      intro f l
      refine ⟨?_, ?_⟩
      · norm_num [specFrame, allocatedFrame, specDriver]
      · norm_num [specFrame, allocatedFrame, specDriver]
    intro fr hfr
    simp only [List.mem_cons, List.mem_singleton, List.mem_nil_iff, or_false] at hfr
    rcases hfr with h | h | h | h <;> rw [h] <;> exact hsz _ _
  have hpay : ∀ n, (specPacket 1 n false).payload.length = 960 := fun n =>
    List.length_replicate _ _
  exact ⟨(C19_write_bounds specConsts 4 specDriver (specPacket 1 360 false) rfl rfl
      (Or.inl rfl) hshape rfl (hpay 360)).1 (le_refl _),
    (C19_write_bounds specConsts 4 specDriver (specPacket 1 359 false) rfl rfl
      (Or.inl rfl) hshape rfl (hpay 359)).2.1 (by decide)⟩

/-! ## Interleaved tiling -/

theorem blit_get_inside {dst src : List Nat} {off srcOff n j : Nat}
    (h1 : off + n ≤ dst.length) (h2 : srcOff + n ≤ src.length) (hj : j < n) :
    (blit dst off src srcOff n)[off + j]? = src[srcOff + j]? := by
  unfold blit
  have hl : (dst.take off).length = off := by rw [List.length_take]; omega
  have hm : ((src.drop srcOff).take n).length = n := by
    rw [List.length_take, List.length_drop]; omega
  rw [List.append_assoc, List.getElem?_append_right (by omega), hl, Nat.add_sub_cancel_left,
    List.getElem?_append_left (by omega), List.getElem?_take_of_lt hj, List.getElem?_drop]

theorem blit_get_outside {dst src : List Nat} {off srcOff n x : Nat}
    (h1 : off + n ≤ dst.length) (h2 : srcOff + n ≤ src.length)
    (hx : x < off ∨ off + n ≤ x) :
    (blit dst off src srcOff n)[x]? = dst[x]? := by
  unfold blit
  have hl : (dst.take off).length = off := by rw [List.length_take]; omega
  have hm : ((src.drop srcOff).take n).length = n := by
    rw [List.length_take, List.length_drop]; omega
  rcases hx with hx | hx
  · rw [List.append_assoc, List.getElem?_append_left (by omega), List.getElem?_take_of_lt hx]
  · rw [List.getElem?_append_right (by rw [List.length_append]; omega), List.length_append,
      hl, hm, List.getElem?_drop]
    congr 1
    omega

/-- The destination of a payload byte in closed form, for payload size 960, width 720 and
a packet number below 2^31. -/
theorem interleavedDest_eq {c : Consts} (hc : c.USBTV_PAYLOAD_SIZE = 960) {N pn k : Nat}
    (o : Bool) (hN : N = 360 ∨ N = 432) (hpn : pn < N) (hk : k < 960) :
    interleavedDest c 720 o pn k
      = ((pn * 2 + k / 480) / 3 * 2 + (if o then 0 else 1)) * 1440
        + ((pn * 2 + k / 480) % 3) * 480 + k % 480 := by
  have e : (c.USBTV_PAYLOAD_SIZE / 2) % 2 ^ 32 = 480 := by rw [hc]; norm_num
  have hh : k / 480 < 2 := by omega
  have hnw : interleavedNoWrap c 720 pn (k / 480) o := by
    refine ⟨by rw [hc]; norm_num, by rcases hN with h | h <;> omega, ?_⟩
    rw [hc]
    unfold specInterleavedOffset specLineIndex specPartIndex
    cases o
    · simp only [Bool.false_eq_true, if_false]
      rcases hN with h | h <;> omega
    · simp only [if_true]
      rcases hN with h | h <;> omega
  unfold interleavedDest
  simp only []
  rw [e, interleavedOffset_eq_spec hnw, hc]
  unfold specInterleavedOffset specLineIndex specPartIndex
  norm_num

theorem interleavedDest_lo {c : Consts} (hc : c.USBTV_PAYLOAD_SIZE = 960) (w : Nat) (o : Bool)
    (pn : Nat) {k : Nat} (hk : k < 480) :
    interleavedDest c w o pn k = interleavedOffset c w pn 0 o + k := by
  have e : (c.USBTV_PAYLOAD_SIZE / 2) % 2 ^ 32 = 480 := by rw [hc]; norm_num
  unfold interleavedDest
  simp only []
  rw [e, Nat.div_eq_of_lt hk, Nat.mod_eq_of_lt hk]

theorem interleavedDest_hi {c : Consts} (hc : c.USBTV_PAYLOAD_SIZE = 960) (w : Nat) (o : Bool)
    (pn : Nat) {j : Nat} (hj : j < 480) :
    interleavedDest c w o pn (480 + j) = interleavedOffset c w pn 1 o + j := by
  have e : (c.USBTV_PAYLOAD_SIZE / 2) % 2 ^ 32 = 480 := by rw [hc]; norm_num
  have e1 : (480 + j) / 480 = 1 := by omega
  have e2 : (480 + j) % 480 = j := by omega
  unfold interleavedDest
  simp only []
  rw [e, e1, e2]

theorem spec_packetsPerField {c : Consts} {d : UsbTvDriver}
    (hc : c.USBTV_PAYLOAD_SIZE = 960) (hw : d._frameWidth = 720)
    (hh : d._frameHeight = 480 ∨ d._frameHeight = 576)
    (hppf : d._packetsPerField
      = ((d._frameWidth * d._frameHeight) / c.USBTV_PAYLOAD_SIZE) % 2 ^ 16) :
    (d._packetsPerField = 360 ∧ d._frameHeight = 480) ∨
      (d._packetsPerField = 432 ∧ d._frameHeight = 576) := by
  rw [hppf, hw, hc]
  rcases hh with hh | hh
  · left; rw [hh]; exact ⟨by norm_num, rfl⟩
  · right; rw [hh]; exact ⟨by norm_num, rfl⟩

theorem spec_bufferSize_interleaved {d : UsbTvDriver} (hw : d._frameWidth = 720)
    (hscan : d._scanType = ScanType.INTERLEAVED)
    (hN : (d._packetsPerField = 360 ∧ d._frameHeight = 480) ∨
      (d._packetsPerField = 432 ∧ d._frameHeight = 576)) :
    (allocatedFrame d).bufferSize = d._packetsPerField * 1920 := by
  unfold allocatedFrame
  simp only []
  rw [hw, hscan, if_pos rfl]
  rcases hN with ⟨h1, h2⟩ | ⟨h1, h2⟩
  · rw [h1, h2]; norm_num
  · rw [h1, h2]; norm_num

/-- The two halves of a packet, copied one after the other, put payload byte `k` at
`interleavedDest k` and leave every other byte of the buffer alone. -/
theorem interleaved_written {c : Consts} (hc : c.USBTV_PAYLOAD_SIZE = 960) {N pn : Nat}
    (o : Bool) (hN : N = 360 ∨ N = 432) (hpn : pn < N) {buf packet : List Nat}
    (hbuf : buf.length = N * 1920) (hpay : packet.length = 960) :
    (∀ k, k < 960 →
      (blit (blit buf (interleavedOffset c 720 pn 0 o) packet 0 480)
        (interleavedOffset c 720 pn 1 o) packet (1 * 480) 480)[interleavedDest c 720 o pn k]?
        = packet[k]?) ∧
    (∀ x, (∀ k, k < 960 → interleavedDest c 720 o pn k ≠ x) →
      (blit (blit buf (interleavedOffset c 720 pn 0 o) packet 0 480)
        (interleavedOffset c 720 pn 1 o) packet (1 * 480) 480)[x]? = buf[x]?) := by
  have f0 := interleavedOffset_fits hc o hN hpn (show 0 < 2 by decide)
  have f1 := interleavedOffset_fits hc o hN hpn (show 1 < 2 by decide)
  have hsep : interleavedOffset c 720 pn 0 o + 480 ≤ interleavedOffset c 720 pn 1 o := by
    have a0 := interleavedDest_eq hc o hN hpn (show 0 < 960 by decide)
    have a1 := interleavedDest_eq hc o hN hpn (show 480 < 960 by decide)
    rw [interleavedDest_lo hc 720 o pn (show 0 < 480 by decide)] at a0
    rw [interleavedDest_hi hc 720 o pn (show 0 < 480 by decide)] at a1
    omega
  have hlen : (blit buf (interleavedOffset c 720 pn 0 o) packet 0 480).length = buf.length :=
    blit_length (by omega) (by omega)
  constructor
  · intro k hk
    by_cases hlo : k < 480
    · rw [interleavedDest_lo hc 720 o pn hlo,
        blit_get_outside (by omega) (by omega) (Or.inl (by omega)),
        blit_get_inside (by omega) (by omega) hlo, Nat.zero_add]
    · obtain ⟨j, rfl⟩ : ∃ j, k = 480 + j := ⟨k - 480, by omega⟩
      have hj : j < 480 := by omega
      rw [interleavedDest_hi hc 720 o pn hj, blit_get_inside (by omega) (by omega) hj]
  · intro x hx
    have h0 : x < interleavedOffset c 720 pn 0 o ∨ interleavedOffset c 720 pn 0 o + 480 ≤ x := by
      by_contra hcon
      have hk : x - interleavedOffset c 720 pn 0 o < 480 := by omega
      apply hx (x - interleavedOffset c 720 pn 0 o) (by omega)
      rw [interleavedDest_lo hc 720 o pn hk]
      omega
    have h1 : x < interleavedOffset c 720 pn 1 o ∨ interleavedOffset c 720 pn 1 o + 480 ≤ x := by
      by_contra hcon
      have hk : x - interleavedOffset c 720 pn 1 o < 480 := by omega
      apply hx (480 + (x - interleavedOffset c 720 pn 1 o)) (by omega)
      rw [interleavedDest_hi hc 720 o pn hk]
      omega
    rw [blit_get_outside (by omega) (by omega) h1, blit_get_outside (by omega) (by omega) h0]

/-- C20: for frame width 720, `USBTV_PAYLOAD_SIZE = 960`, either frame height and the
interleaved scan type, with `N = _packetsPerField` as `startStreaming` computes it (360 or
432) and the buffer size of `allocateFramePool` (`N * 1920`), the map from (parity, packet
number below `N`, payload byte index below 960) to the destination offset of
`packetToInterleavedFrame` goes into `[0, bufferSize)`, is injective and is onto
`[0, bufferSize)`; and the call on a packet of the in-progress frame succeeds, puts payload
byte `k` at that destination and leaves every other byte of the buffer as it was. So the
`N` packets of the odd field and the `N` packets of the even field write each byte of the
buffer exactly once. -/
theorem C20_interleaved_tiling (c : Consts) (d : UsbTvDriver)
    (hc : c.USBTV_PAYLOAD_SIZE = 960) (hw : d._frameWidth = 720)
    (hh : d._frameHeight = 480 ∨ d._frameHeight = 576)
    (hscan : d._scanType = ScanType.INTERLEAVED)
    (hppf : d._packetsPerField
      = ((d._frameWidth * d._frameHeight) / c.USBTV_PAYLOAD_SIZE) % 2 ^ 16) :
    (d._packetsPerField = 360 ∨ d._packetsPerField = 432) ∧
    (allocatedFrame d).bufferSize = d._packetsPerField * 2 * c.USBTV_PAYLOAD_SIZE ∧
    (∀ (o : Bool) (pn k : Nat), pn < d._packetsPerField → k < c.USBTV_PAYLOAD_SIZE →
      interleavedDest c d._frameWidth o pn k < (allocatedFrame d).bufferSize) ∧
    (∀ (o : Bool) (pn k : Nat) (o1 : Bool) (pn1 k1 : Nat),
      pn < d._packetsPerField → k < c.USBTV_PAYLOAD_SIZE →
      pn1 < d._packetsPerField → k1 < c.USBTV_PAYLOAD_SIZE →
      interleavedDest c d._frameWidth o pn k = interleavedDest c d._frameWidth o1 pn1 k1 →
      o = o1 ∧ pn = pn1 ∧ k = k1) ∧
    (∀ x : Nat, x < (allocatedFrame d).bufferSize →
      ∃ (o : Bool) (pn k : Nat), pn < d._packetsPerField ∧ k < c.USBTV_PAYLOAD_SIZE ∧
        interleavedDest c d._frameWidth o pn k = x) ∧
    (∀ (pool : List UsbTvFrame) (i : Nat) (fr : UsbTvFrame) (packet : List Nat) (pn : Nat)
      (o : Bool), d._usbInputFrame = some i → d._framePool = some pool →
      pool[i]? = some fr → fr.buffer.length = (allocatedFrame d).bufferSize →
      packet.length = c.USBTV_PAYLOAD_SIZE → pn < d._packetsPerField →
      ∃ d1 fr1, packetToInterleavedFrame c d packet pn o = .ok d1 ∧
        derefFrame d1 (some i) = .ok fr1 ∧
        (∀ k, k < c.USBTV_PAYLOAD_SIZE →
          fr1.buffer[interleavedDest c d._frameWidth o pn k]? = packet[k]?) ∧
        (∀ x, (∀ k, k < c.USBTV_PAYLOAD_SIZE → interleavedDest c d._frameWidth o pn k ≠ x) →
          fr1.buffer[x]? = fr.buffer[x]?)) := by
  have hNH := spec_packetsPerField hc hw hh hppf
  have hN : d._packetsPerField = 360 ∨ d._packetsPerField = 432 := by
    rcases hNH with h | h
    · exact Or.inl h.1
    · exact Or.inr h.1
  have hL := spec_bufferSize_interleaved hw hscan hNH
  have e : (c.USBTV_PAYLOAD_SIZE / 2) % 2 ^ 32 = 480 := by rw [hc]; norm_num
  rw [hL, hw, hc]
  refine ⟨hN, by omega, ?_, ?_, ?_, ?_⟩
  · intro o pn k hpn hk
    rw [interleavedDest_eq hc o hN hpn hk]
    cases o
    · simp only [Bool.false_eq_true, if_false]
      rcases hN with h | h <;> omega
    · simp only [if_true]
      rcases hN with h | h <;> omega
  · intro o pn k o1 pn1 k1 hpn hk hpn1 hk1 heq
    rw [interleavedDest_eq hc o hN hpn hk, interleavedDest_eq hc o1 hN hpn1 hk1] at heq
    cases o <;> cases o1 <;>
      simp only [Bool.false_eq_true, if_false, if_true] at heq <;>
      simp only [true_and, reduceCtorEq, false_and] <;> omega
  · intro x hx
    have hp : (x / 1440 / 2 * 3 + x % 1440 / 480) / 2 < d._packetsPerField := by
      rcases hN with h | h <;> omega
    have hk : x % 480 + (x / 1440 / 2 * 3 + x % 1440 / 480) % 2 * 480 < 960 := by omega
    refine ⟨decide (x / 1440 % 2 = 0), _, _, hp, hk, ?_⟩
    rw [interleavedDest_eq hc _ hN hp hk]
    by_cases hpar : x / 1440 % 2 = 0
    · simp only [hpar, decide_True, if_true]
      omega
    · simp only [hpar, decide_False, Bool.false_eq_true, if_false]
      omega
  · intro pool i fr packet pn o hptr hp hi hbuf hpay hpn
    have hlt : i < pool.length := (List.getElem?_eq_some_iff.mp hi).1
    have f0 := interleavedOffset_fits hc o hN hpn (show 0 < 2 by decide)
    have f1 := interleavedOffset_fits hc o hN hpn (show 1 < 2 by decide)
    have hok := packetToInterleavedFrame_ok (c := c) (n := pn) (o := o) hptr hp hi
      (by rw [hw, e, hbuf]; exact f0) (by rw [hw, e, hbuf]; exact f1)
      (by rw [e, hpay])
    rw [hw, e] at hok
    obtain ⟨w1, w2⟩ := interleaved_written hc o hN hpn hbuf hpay
    exact ⟨_, _, hok, derefFrame_ok rfl (List.getElem?_set_self hlt), w1, w2⟩

theorem C20_interleaved_tiling_witness :
    interleavedDest specConsts 720 true 0 0 = 0 ∧
    interleavedDest specConsts 720 false 359 959 = 691199 ∧
    ∃ (o : Bool) (pn k : Nat), pn < 360 ∧ k < 960 ∧
      interleavedDest specConsts 720 o pn k = 345600 := by
  have h := (C20_interleaved_tiling specConsts specDriver rfl rfl (Or.inl rfl) rfl
    (by norm_num [specDriver, specConsts])).2.2.2.2.1 345600
    (by norm_num [allocatedFrame, specDriver])
  exact ⟨by decide, by decide, h⟩

/-! ## Locked frames across sessions -/

/-- C12: the bound of two locked frames fails in a session started after a stop that took
place while the consumer was waiting. `stopStreaming` leaves `_frameWait` set, so in the
next session the first completed frame is handed off although no thread waits for it: its
lock stays held and the pointer to it is overwritten at the next handoff. From the fresh
driver, the steps start, requestFrame, stop, start, the three packets of a frame,
requestFrame, the three packets of the next frame leave 1, 1, 0, 1, 1, 1, 2, 2, 2, 2 and
then 3 locked frames: slot 0 is leaked, slot 1 is with the consumer and slot 2 is being
assembled. In a first session the steps start, a frame, requestFrame, a frame, release,
requestFrame, a frame never lock more than two. -/
theorem C12_stale_frameWait_third_lock :
    lockedAlong tinyConsts goodTransport 4 freshSystem
        ([.start, .requestFrame, .stop, .start] ++ framePackets 7 ++ [.requestFrame]
          ++ framePackets 8)
      = .ok [1, 1, 0, 1, 1, 1, 2, 2, 2, 2, 3] ∧
    (∃ s, run tinyConsts goodTransport 4 freshSystem [.start, .requestFrame, .stop] = .ok s ∧
      s.driver._frameWait = true ∧ s.consumer = .absent ∧ s.driver._framePool = none) ∧
    (∃ s, run tinyConsts goodTransport 4 freshSystem
        ([.start, .requestFrame, .stop, .start] ++ framePackets 7 ++ [.requestFrame]
          ++ framePackets 8) = .ok s ∧
      s.consumer = .holding 1 ∧ s.driver._processFrame = some 1 ∧
      s.driver._usbInputFrame = some 2 ∧
      s.driver._framePool.map (List.map UsbTvFrame.lock) = some [true, true, true]) ∧
    lockedAlong tinyConsts goodTransport 4 freshSystem
        ([.start] ++ framePackets 7 ++ [.requestFrame] ++ framePackets 8
          ++ [.release, .requestFrame] ++ framePackets 9)
      = .ok [1, 1, 1, 1, 1, 1, 1, 2, 1, 1, 1, 1, 2] := by
  refine ⟨rfl, ⟨_, rfl, rfl, rfl, rfl⟩, ⟨_, rfl, rfl, rfl, rfl, rfl⟩, rfl⟩

/-! ## In-order progressive input -/

theorem increasing_length_le : ∀ (l : List Nat) (lo hi : Nat), l.Pairwise (· < ·) →
    (∀ x ∈ l, lo ≤ x ∧ x < hi) → l.length ≤ hi - lo
  | [], _, _, _, _ => Nat.zero_le _
  | a :: t, lo, hi, hpw, hb => by
    obtain ⟨ha, ht⟩ := List.pairwise_cons.mp hpw
    have hab := hb a (List.mem_cons_self _ _)
    have ih := increasing_length_le t (a + 1) hi ht
      (fun x hx => ⟨ha x hx, (hb x (List.mem_cons_of_mem _ hx)).2⟩)
    simp only [List.length_cons]
    omega

theorem increasing_eq_range : ∀ (l : List Nat) (s : Nat), l.Pairwise (· < ·) →
    (∀ x ∈ l, s ≤ x ∧ x < s + l.length) → l = List.range' s l.length
  | [], _, _, _ => rfl
  | a :: t, s, hpw, hb => by
    obtain ⟨ha, ht⟩ := List.pairwise_cons.mp hpw
    have hab := hb a (List.mem_cons_self _ _)
    simp only [List.length_cons] at hab hb
    have hcount := increasing_length_le t (a + 1) (s + (t.length + 1)) ht
      (fun x hx => ⟨ha x hx, (hb x (List.mem_cons_of_mem _ hx)).2⟩)
    have has : a = s := by omega
    subst has
    have ih := increasing_eq_range t (a + 1) ht
      (fun x hx => ⟨ha x hx, by have := (hb x (List.mem_cons_of_mem _ hx)).2; omega⟩)
    simp only [List.length_cons, List.range'_succ]
    rw [← ih]

theorem progressiveWritten_append (c : Consts) (ps qs : List Packet) (buf : List Nat) :
    progressiveWritten c (ps ++ qs) buf
      = progressiveWritten c qs (progressiveWritten c ps buf) := by
  unfold progressiveWritten
  rw [List.foldl_append]

theorem progressiveWritten_consecutive (c : Consts) :
    ∀ (ps : List Packet) (pre rest : List Nat) (n : Nat),
      ps.map Packet.packetNumber = List.range' n ps.length →
      (∀ p ∈ ps, p.payload.length = c.USBTV_PAYLOAD_SIZE) →
      pre.length = n * c.USBTV_PAYLOAD_SIZE →
      rest.length = ps.length * c.USBTV_PAYLOAD_SIZE →
      (n + ps.length) * c.USBTV_PAYLOAD_SIZE < 2 ^ 32 →
      progressiveWritten c ps (pre ++ rest) = pre ++ (ps.map Packet.payload).flatten
  | [], pre, rest, n, _, _, _, hrest, _ => by
    have hr : rest = [] := by
      apply List.eq_nil_of_length_eq_zero
      simpa using hrest
    simp [progressiveWritten, hr]
  | p :: ps, pre, rest, n, hnum, hpay, hpre, hrest, h32 => by
    simp only [List.map_cons, List.length_cons, List.range'_succ, List.cons.injEq] at hnum
    obtain ⟨hpn, hnum⟩ := hnum
    have hp := hpay p (List.mem_cons_self _ _)
    simp only [List.length_cons] at hrest h32
    have hle : n * c.USBTV_PAYLOAD_SIZE ≤ (n + (ps.length + 1)) * c.USBTV_PAYLOAD_SIZE :=
      Nat.mul_le_mul_right _ (by omega)
    have hmod : (p.packetNumber * c.USBTV_PAYLOAD_SIZE) % 2 ^ 32 = pre.length := by
      rw [hpn, hpre]
      exact Nat.mod_eq_of_lt (by omega)
    have hrl : c.USBTV_PAYLOAD_SIZE ≤ rest.length := by
      rw [hrest, Nat.add_mul, Nat.one_mul]
      omega
    have hstep : writtenBuffer c ScanType.PROGRESSIVE 0 p (pre ++ rest)
        = (pre ++ p.payload) ++ rest.drop c.USBTV_PAYLOAD_SIZE := by
      show blit (pre ++ rest) ((p.packetNumber * c.USBTV_PAYLOAD_SIZE) % 2 ^ 32) p.payload 0
        c.USBTV_PAYLOAD_SIZE = _
      rw [hmod]
      exact blit_append rfl hp hrl
    have ih := progressiveWritten_consecutive c ps (pre ++ p.payload)
      (rest.drop c.USBTV_PAYLOAD_SIZE) (n + 1) hnum
      (fun q hq => hpay q (List.mem_cons_of_mem _ hq))
      (by rw [List.length_append, hpre, hp, Nat.add_mul, Nat.one_mul])
      (by rw [List.length_drop, hrest, Nat.add_mul, Nat.one_mul]; omega)
      (by rw [show n + 1 + ps.length = n + (ps.length + 1) by omega]; exact h32)
    show progressiveWritten c ps (writtenBuffer c ScanType.PROGRESSIVE 0 p (pre ++ rest)) = _
    rw [hstep, ih]
    simp [List.append_assoc]

theorem progressive_accept {c : Consts} {N i : Nat} {d : UsbTvDriver} {buf : List Nat}
    {p : Packet} (hinv : InProgress c N i d buf) (hpn : p.packetNumber < N) (hpay : p.payload.length = c.USBTV_PAYLOAD_SIZE) :
    ∃ d1, acceptPacket c d p = .ok d1 ∧
      InProgress c N i d1 (progressiveWritten c [p] buf) ∧
      (if p.packetNumber = 0 ∨ p.frameId ≠ d._currentFrameId then
        d1._currentFrameId = p.frameId ∧ d1._packetsDone = 1
      else d1._currentFrameId = d._currentFrameId ∧
        d1._packetsDone = (d._packetsDone + 1) % 2 ^ 16) := by
  obtain ⟨hscan, hppf, hptr, hlen, pool, fr, hp, hi, hfb⟩ := hinv
  have hlt : i < pool.length := (List.getElem?_eq_some_iff.mp hi).1
  have hmul : p.packetNumber * c.USBTV_PAYLOAD_SIZE + c.USBTV_PAYLOAD_SIZE
      ≤ N * c.USBTV_PAYLOAD_SIZE := by
    have := Nat.mul_le_mul_right c.USBTV_PAYLOAD_SIZE (show p.packetNumber + 1 ≤ N by omega)
    rw [Nat.add_mul, Nat.one_mul] at this
    exact this
  have hmod := Nat.mod_le (p.packetNumber * c.USBTV_PAYLOAD_SIZE) (2 ^ 32)
  have hfit0 : writeFits c ScanType.PROGRESSIVE d._frameWidth p fr.buffer := by
    simp only [writeFits]
    rw [hfb, hlen]
    exact ⟨by omega, by omega⟩
  have hfit : writeFits c d._scanType d._frameWidth p fr.buffer := by
    rw [hscan]; exact hfit0
  have hwb : writtenBuffer c d._scanType d._frameWidth p fr.buffer
      = progressiveWritten c [p] buf := by
    rw [hscan, hfb]
    rfl
  have hwl : (progressiveWritten c [p] buf).length = N * c.USBTV_PAYLOAD_SIZE := by
    rw [← hwb, writtenBuffer_length hfit, hfb, hlen]
  by_cases hnew : p.packetNumber = 0 ∨ p.frameId ≠ d._currentFrameId
  · refine ⟨_, acceptPacket_new (c := c) hnew hptr hp hi hfit, ?_, ?_⟩
    · exact ⟨hscan, hppf, hptr, hwl, _, _, rfl, List.getElem?_set_self hlt, hwb⟩
    · rw [if_pos hnew]
      exact ⟨rfl, rfl⟩
  · refine ⟨_, acceptPacket_old (c := c) hnew hptr hp hi hfit, ?_, ?_⟩
    · exact ⟨hscan, hppf, hptr, hwl, _, _, rfl, List.getElem?_set_self hlt, hwb⟩
    · rw [if_neg hnew]
      exact ⟨rfl, rfl⟩

theorem progressive_tail_feed {c : Consts} (fuel : Nat) {N i f : Nat} (h16 : N < 2 ^ 16) :
    ∀ (ps : List Packet) (d : UsbTvDriver) (buf : List Nat) (count : Nat),
      InProgress c N i d buf → d._currentFrameId = f → d._packetsDone = count →
      count + ps.length < 2 ^ 16 →
      (∀ p ∈ ps, p.frameOk = true ∧ p.payload.length = c.USBTV_PAYLOAD_SIZE ∧
        p.frameId = f ∧ p.packetNumber ≠ 0 ∧ p.packetNumber + 1 < N) →
      ∃ d1, feed c fuel d ps = .ok (d1, []) ∧
        InProgress c N i d1 (progressiveWritten c ps buf) ∧ d1._currentFrameId = f ∧
        d1._packetsDone = count + ps.length
  | [], d, buf, count, hinv, hf, hcount, _, _ => ⟨d, rfl, hinv, hf, hcount⟩
  | p :: ps, d, buf, count, hinv, hf, hcount, hlen, hall => by
    obtain ⟨hok, hpay, hfid, hne, hpn⟩ := hall p (List.mem_cons_self _ _)
    simp only [List.length_cons] at hlen
    obtain ⟨da, hacc, hinva, hcnt⟩ :=
      progressive_accept hinv (show p.packetNumber < N by omega) hpay
    have hold : ¬ (p.packetNumber = 0 ∨ p.frameId ≠ d._currentFrameId) := by
      rw [hf, hfid]
      simp [hne]
    rw [if_neg hold] at hcnt
    have hppf : d._packetsPerField = N := hinv.2.1
    have hproc := processPacket_not_last fuel (c := c) (d := d) (by omega) hok
      (show p.packetNumber < d._packetsPerField - 1 by omega) hacc
    have hda : da._packetsDone = count + 1 := by
      rw [hcnt.2, hcount]
      exact Nat.mod_eq_of_lt (by omega)
    obtain ⟨d1, hfeed, hinv1, hf1, hc1⟩ := progressive_tail_feed fuel h16 ps da
      (progressiveWritten c [p] buf) (count + 1) hinva (hcnt.1.trans hf) hda (by omega)
      (fun q hq => hall q (List.mem_cons_of_mem _ hq))
    refine ⟨d1, feed_cons_ok hproc hfeed, hinv1, hf1, ?_⟩
    rw [hc1, List.length_cons]
    omega

theorem progressive_finalize {c : Consts} (fuel : Nat) {N i : Nat} {d1 d2 : UsbTvDriver}
    {buf : List Nat} {last : Packet} (h16 : N < 2 ^ 16) (hppf : d1._packetsPerField = N)
    (hok : last.frameOk = true) (hlast : last.packetNumber + 1 = N)
    (hacc : acceptPacket c d1 last = .ok d2) (hinv : InProgress c N i d2 buf) :
    ∃ d3 fr3, markFinishedFrame c d2 = .ok d3 ∧
      processPacket c fuel d1 last = notifyFrameComplete c fuel d3 ∧
      derefFrame d3 d3._usbInputFrame = .ok fr3 ∧ fr3.buffer = buf ∧
      (d2._packetsDone = N → fr3.flags = c.FRAME_COMPLETE) ∧
      (d2._packetsDone ≠ N → fr3.flags = c.FRAME_PARTIAL) := by
  obtain ⟨hscan, hppf2, hptr, hlen, pool, fr, hp, hi, hfb⟩ := hinv
  have hlt : i < pool.length := (List.getElem?_eq_some_iff.mp hi).1
  have hproc := processPacket_last fuel (c := c) (d := d1) (by omega) hok
    (show last.packetNumber < d1._packetsPerField by omega)
    (show last.packetNumber = d1._packetsPerField - 1 by omega) hacc
  have hmark := markFinishedFrame_ok c hptr hp hi
  by_cases hdone : d2._packetsDone = N
  · rw [if_neg (by rw [hppf2]; simpa using hdone)] at hmark
    refine ⟨_, { fr with flags := c.FRAME_COMPLETE }, hmark, ?_, ?_, hfb,
      fun _ => rfl, fun h => (h hdone).elim⟩
    · rw [hproc]
      unfold checkFinishedFrame
      rw [hmark]
      simp only [bind, Except.bind, dispatchFinishedFrame, hscan]
    · exact hptr ▸ derefFrame_ok rfl (List.getElem?_set_self hlt)
  · rw [if_pos (by rw [hppf2]; exact hdone)] at hmark
    refine ⟨_, { fr with flags := c.FRAME_PARTIAL }, hmark, ?_, ?_, hfb,
      fun h => (hdone h).elim, fun _ => rfl⟩
    · rw [hproc]
      unfold checkFinishedFrame
      rw [hmark]
      simp only [bind, Except.bind, dispatchFinishedFrame, hscan]
    · exact hptr ▸ derefFrame_ok rfl (List.getElem?_set_self hlt)

/-- C21: in PROGRESSIVE mode, let a sequence of valid packets with one frame id and
strictly increasing packet numbers start with the packet that makes `processPacket` reset
the frame (packet number 0 or a new frame id) and end with the packet that triggers
finalization (packet number `_packetsPerField - 1`), the in-progress buffer holding
`_packetsPerField * USBTV_PAYLOAD_SIZE` bytes. Then the packets before the last are taken
in without a delivery, the last one is accepted with `_packetsDone` equal to the number of
packets, and `checkFinishedFrame` flags the frame FRAME_COMPLETE or FRAME_PARTIAL before
`notifyFrameComplete` runs. The flag is FRAME_COMPLETE exactly when the packet numbers are
`0 .. _packetsPerField - 1`, and then the buffer is the concatenation of the payloads.
Without the strictly increasing numbers this fails: with three packets per field the
packets 1, 1, 2 of a new frame id are delivered flagged FRAME_COMPLETE although packet 0
never arrived and the first 12 bytes of the buffer were never written. The hypotheses on
the sizes hold for the buffer that `allocateFramePool` creates with payload size 960, width
720 and height 480 or 576. -/
theorem C21_complete_means_all_present (c : Consts) (fuel : Nat) (d : UsbTvDriver)
    (pool : List UsbTvFrame) (i : Nat) (fr : UsbTvFrame) (init : List Packet) (last : Packet)
    (hCP : c.FRAME_COMPLETE ≠ c.FRAME_PARTIAL)
    (hscan : d._scanType = ScanType.PROGRESSIVE)
    (hptr : d._usbInputFrame = some i) (hp : d._framePool = some pool)
    (hi : pool[i]? = some fr)
    (hbuf : fr.buffer.length = d._packetsPerField * c.USBTV_PAYLOAD_SIZE)
    (h32 : d._packetsPerField * c.USBTV_PAYLOAD_SIZE < 2 ^ 32)
    (h16 : d._packetsPerField < 2 ^ 16)
    (hvalid : ∀ p ∈ init ++ [last], p.frameOk = true ∧
      p.payload.length = c.USBTV_PAYLOAD_SIZE ∧ p.frameId = last.frameId)
    (hinc : ((init ++ [last]).map Packet.packetNumber).Pairwise (· < ·))
    (hlast : last.packetNumber + 1 = d._packetsPerField)
    (hreset : ∀ p, (init ++ [last]).head? = some p →
      p.packetNumber = 0 ∨ p.frameId ≠ d._currentFrameId) :
    (∃ d1 d2 d3 fr3,
      feed c fuel d init = .ok (d1, []) ∧
      acceptPacket c d1 last = .ok d2 ∧
      markFinishedFrame c d2 = .ok d3 ∧
      processPacket c fuel d1 last = notifyFrameComplete c fuel d3 ∧
      derefFrame d3 d3._usbInputFrame = .ok fr3 ∧
      d2._packetsDone = init.length + 1 ∧
      fr3.buffer = progressiveWritten c (init ++ [last]) fr.buffer ∧
      (fr3.flags = c.FRAME_COMPLETE ∨ fr3.flags = c.FRAME_PARTIAL) ∧
      (fr3.flags = c.FRAME_COMPLETE ↔
        (init ++ [last]).map Packet.packetNumber = List.range d._packetsPerField) ∧
      (fr3.flags = c.FRAME_COMPLETE →
        fr3.buffer = ((init ++ [last]).map Packet.payload).flatten)) ∧
    (∃ d1 out,
      feed tinyConsts 3 (smallDriver true)
        [tinyPacket 7 1 true 10, tinyPacket 7 1 true 40, tinyPacket 7 2 true 70]
        = .ok (d1, [Event.frameReady 0 out]) ∧
      out.flags = tinyConsts.FRAME_COMPLETE ∧ out.frameId = 7 ∧
      out.buffer = List.replicate 12 0 ++ (tinyPacket 7 1 true 40).payload
        ++ (tinyPacket 7 2 true 70).payload) ∧
    (c.USBTV_PAYLOAD_SIZE = 960 → d._frameWidth = 720 →
      (d._frameHeight = 480 ∨ d._frameHeight = 576) →
      d._packetsPerField
        = ((d._frameWidth * d._frameHeight) / c.USBTV_PAYLOAD_SIZE) % 2 ^ 16 →
      (allocatedFrame d).buffer.length = d._packetsPerField * c.USBTV_PAYLOAD_SIZE ∧
      d._packetsPerField * c.USBTV_PAYLOAD_SIZE < 2 ^ 32 ∧ d._packetsPerField < 2 ^ 16) := by
  refine ⟨?_, ⟨_, _, rfl, rfl, rfl, rfl⟩, ?_⟩
  swap
  · intro hc hw hh hppf
    have hNH := spec_packetsPerField hc hw hh hppf
    unfold allocatedFrame
    simp only [List.length_replicate]
    rw [hw, hscan, if_neg (by decide), hc]
    rcases hNH with ⟨h1, h2⟩ | ⟨h1, h2⟩
    · rw [h1, h2]; norm_num
    · rw [h1, h2]; norm_num
  have hinv : InProgress c d._packetsPerField i d fr.buffer :=
    ⟨hscan, rfl, hptr, hbuf, pool, fr, hp, hi, rfl⟩
  have hlastv := hvalid last (by simp)
  -- the packet numbers are below `_packetsPerField`, and there are at most that many
  have hbound : ∀ x ∈ (init ++ [last]).map Packet.packetNumber,
      0 ≤ x ∧ x < d._packetsPerField := by
    intro x hx
    refine ⟨Nat.zero_le _, ?_⟩
    rw [List.map_append, List.mem_append] at hx
    rcases hx with hx | hx
    · have := (List.pairwise_append.mp (by simpa using hinc)).2.2 x hx last.packetNumber
        (by simp)
      omega
    · simp at hx
      omega
  have hcount := increasing_length_le _ 0 d._packetsPerField hinc hbound
  simp only [List.length_map, List.length_append, List.length_singleton, Nat.sub_zero]
    at hcount
  -- the numbers before the last one are smaller
  have hsmall : ∀ p ∈ init, p.packetNumber < last.packetNumber := by
    intro p hp
    have := (List.pairwise_append.mp (by simpa using hinc)).2.2 p.packetNumber
      (List.mem_map_of_mem _ hp) last.packetNumber (by simp)
    exact this
  -- run up to the last packet
  have hrun : ∃ d1 d2, feed c fuel d init = .ok (d1, []) ∧ d1._packetsPerField = d._packetsPerField ∧
      acceptPacket c d1 last = .ok d2 ∧
      InProgress c d._packetsPerField i d2 (progressiveWritten c (init ++ [last]) fr.buffer) ∧
      d2._packetsDone = init.length + 1 := by
    cases init with
    | nil =>
      obtain ⟨d2, hacc, hinv2, hcnt⟩ := progressive_accept hinv
        (show last.packetNumber < d._packetsPerField by omega) hlastv.2.1
      rw [if_pos (hreset last rfl)] at hcnt
      exact ⟨d, d2, rfl, rfl, hacc, hinv2, hcnt.2⟩
    | cons p0 rest =>
      have hp0 := hvalid p0 (by simp)
      have hp0s := hsmall p0 (List.mem_cons_self _ _)
      obtain ⟨da, hacc0, hinva, hcnt0⟩ := progressive_accept hinv
        (show p0.packetNumber < d._packetsPerField by omega) hp0.2.1
      rw [if_pos (hreset p0 rfl)] at hcnt0
      have hproc0 := processPacket_not_last fuel (c := c) (d := d) h16 hp0.1
        (show p0.packetNumber < d._packetsPerField - 1 by omega) hacc0
      have hpw0 : ∀ q ∈ rest, p0.packetNumber < q.packetNumber := by
        intro q hq
        have h1 : (p0.packetNumber :: (rest ++ [last]).map Packet.packetNumber).Pairwise
            (· < ·) := hinc
        exact (List.pairwise_cons.mp h1).1 q.packetNumber
          (List.mem_map_of_mem _ (List.mem_append_left _ hq))
      simp only [List.length_cons] at hcount
      obtain ⟨d1, hfeed, hinv1, hf1, hc1⟩ := progressive_tail_feed fuel h16 rest da
        (progressiveWritten c [p0] fr.buffer) 1 hinva (hcnt0.1.trans hp0.2.2) hcnt0.2
        (by omega)
        (fun q hq => by
          have hq1 := hvalid q (by simp [hq])
          have hq2 := hsmall q (List.mem_cons_of_mem _ hq)
          have hq3 := hpw0 q hq
          exact ⟨hq1.1, hq1.2.1, hq1.2.2, by omega, by omega⟩)
      obtain ⟨d2, hacc, hinv2, hcnt⟩ := progressive_accept hinv1
        (show last.packetNumber < d._packetsPerField by omega) hlastv.2.1
      have hold : ¬ (last.packetNumber = 0 ∨ last.frameId ≠ d1._currentFrameId) := by
        rw [hf1]
        simp
        omega
      rw [if_neg hold] at hcnt
      refine ⟨d1, d2, feed_cons_ok hproc0 hfeed, hinv1.2.1, hacc, ?_, ?_⟩
      · have e : progressiveWritten c (p0 :: rest ++ [last]) fr.buffer
            = progressiveWritten c [last]
              (progressiveWritten c rest (progressiveWritten c [p0] fr.buffer)) := by
          rw [progressiveWritten_append]
          rfl
        rw [e]
        exact hinv2
      · rw [hcnt.2, hc1, List.length_cons]
        omega
  obtain ⟨d1, d2, hfeed, hppf1, hacc, hinv2, hdone⟩ := hrun
  obtain ⟨d3, fr3, hmark, hproc, hderef, hfb, hC, hP⟩ :=
    progressive_finalize fuel h16 hppf1 hlastv.1 hlast hacc hinv2
  have hiff : fr3.flags = c.FRAME_COMPLETE ↔
      (init ++ [last]).map Packet.packetNumber = List.range d._packetsPerField := by
    constructor
    · intro hflag
      have hN : init.length + 1 = d._packetsPerField := by
        by_contra hne
        have := hP (by rw [hdone]; exact hne)
        exact hCP (hflag.symm.trans this)
      have hr := increasing_eq_range _ 0 hinc (by
        intro x hx
        have := hbound x hx
        simp only [List.length_map, List.length_append, List.length_singleton]
        omega)
      rw [hr, List.range_eq_range']
      simp only [List.length_map, List.length_append, List.length_singleton, hN]
    · intro hnum
      have hl := congrArg List.length hnum
      simp only [List.length_map, List.length_append, List.length_singleton,
        List.length_range] at hl
      exact hC (by rw [hdone]; exact hl)
  refine ⟨d1, d2, d3, fr3, hfeed, hacc, hmark, hproc, hderef, hdone, hfb, ?_, hiff, ?_⟩
  · by_cases hN : d2._packetsDone = d._packetsPerField
    · exact Or.inl (hC hN)
    · exact Or.inr (hP hN)
  · intro hflag
    have hnum := hiff.mp hflag
    have hl := congrArg List.length hnum
    simp only [List.length_map, List.length_range] at hl
    rw [hfb]
    have := progressiveWritten_consecutive c (init ++ [last]) [] fr.buffer 0
      (by rw [hnum, List.range_eq_range', hl])
      (fun p hp => (hvalid p hp).2.1) (by simp) (by rw [hl]; exact hbuf)
      (by rw [hl, Nat.zero_add]; exact h32)
    simpa using this

/-- C21 at three packets per field: the packets 0, 1, 2 of frame 7 are flagged
FRAME_COMPLETE and the buffer is their payloads in order. -/
theorem C21_complete_means_all_present_witness :
    ∃ d1 d2 d3 fr3,
      feed tinyConsts 3 (smallDriver true) [tinyPacket 7 0 true 10, tinyPacket 7 1 true 40]
        = .ok (d1, []) ∧
      acceptPacket tinyConsts d1 (tinyPacket 7 2 true 70) = .ok d2 ∧
      markFinishedFrame tinyConsts d2 = .ok d3 ∧
      derefFrame d3 d3._usbInputFrame = .ok fr3 ∧
      fr3.flags = tinyConsts.FRAME_COMPLETE ∧
      fr3.buffer = (tinyPacket 7 0 true 10).payload ++ (tinyPacket 7 1 true 40).payload
        ++ (tinyPacket 7 2 true 70).payload := by
  obtain ⟨d1, d2, d3, fr3, hfeed, hacc, hmark, -, hderef, -, -, -, hiff, hbuf⟩ :=
    (C21_complete_means_all_present tinyConsts 3 (smallDriver true)
      [smallFrame 1 true, smallFrame 0 false, smallFrame 0 false] 0 (smallFrame 1 true)
      [tinyPacket 7 0 true 10, tinyPacket 7 1 true 40] (tinyPacket 7 2 true 70)
      (by decide) rfl rfl rfl rfl rfl (by decide) (by decide) (by decide) (by decide) rfl
      (by
        intro p hp
        simp only [List.cons_append, List.head?_cons, Option.some.injEq] at hp
        subst hp
        exact Or.inl rfl)).1
  have hflag : fr3.flags = tinyConsts.FRAME_COMPLETE := hiff.mpr (by decide)
  refine ⟨d1, d2, d3, fr3, hfeed, hacc, hmark, hderef, hflag, ?_⟩
  rw [hbuf hflag]
  simp

end UsbTv
